import Mathlib

/-!
# Pin-level to transaction-level ACE-Lite bridge (`axi::pin::ace_lite_target`)

Shallow embedding of `src/interfaces/axi/pin/ace_lite_target.h`:

* the beat packers (`get_read_data_for_beat`, the write-data loops of `wdata_t`),
* the backward transport entry `nb_transport_bw`,
* the protocol callbacks installed by `setup_callbacks`,
* the channel threads `ar_t`, `aw_t`, `wdata_t`, `rresp_t` and `bresp_t`, cut at their
  `wait` statements, and the transition system their steps form,

of the allocator of `src/sysc/tlm/scc/tlm_mm.h` (`tlm_gp_mm::create`, `add_data_ptr`), and, in
namespace `scc`, of `configurable_tracer::get_trace_enabled`
(`src/sysc/scc/configurable_tracer.cpp`) and of the FST trace file
(`src/sysc/scc/fst_trace.cpp`: `trace_entry::notify`, `fst_trace_file::cycle` and the generic
`fst_trace_t<T>::record`).

Conventions.  Machine integers are natural numbers with the wrap-around written out
where the C++ arithmetic can leave the range.  A `uint8_t` cell is a `Byte`.  The
memory behind a `uint8_t*` is a total map from cell index to `Byte`; the length
attributes of the payload are separate fields, as in `tlm_generic_payload`.  A bus
word (`sc_biguint<BUSWIDTH>`) is its unsigned value; the part select
`data(8*i + 7, 8*i)` is byte lane `i`.  The payload also records the size of the arrays its
two pointers refer to (none for a null pointer); the beat packers work on the memory as
given, and the thread `wdata_t` ends in `halt.fault` on a beat whose stores would go through
a null pointer or leave the array.
-/

namespace axi

/-! ## Bytes, buffers and bus words -/

/-- One `uint8_t` cell. -/
abbrev Byte := Fin 256

/-- The memory reached through a `uint8_t*`, indexed by cell. -/
abbrev Buffer := Nat → Byte

/-- Store through a pointer: `ptr[p] = v`. -/
def Buffer.write (buf : Buffer) (p : Nat) (v : Byte) : Buffer :=
  fun q => if q = p then v else buf q

/-- Part select `data(8*i + 7, 8*i)` read as an unsigned value: byte lane `i`. -/
def getLane (data : Nat) (i : Nat) : Nat :=
  (data / 2 ^ (8 * i)) % 256

/-- Byte lane `i` of a bus word converted to a buffer cell (`.to_uint()` stored in `uint8_t`). -/
def laneByte (data : Nat) (i : Nat) : Byte :=
  ⟨getLane data i, Nat.mod_lt _ (by decide)⟩

/-- Part select assignment `data(8*i + 7, 8*i) = v`: lane `i` is replaced, the others stay. -/
def setLane (data : Nat) (i : Nat) (v : Byte) : Nat :=
  data - getLane data i * 2 ^ (8 * i) + v.val * 2 ^ (8 * i)

/-- Values taken by the loop variable of
`for(size_t i = start; i < size && cond(i); ++i)`, in order; `fuel` is `size - start`. -/
def forIdx (cond : Nat → Bool) : Nat → Nat → List Nat
  | 0, _ => []
  | fuel + 1, i => if cond i then i :: forIdx cond fuel (i + 1) else []

/-! ## Configuration, payload and FSM handle -/

/-- The template parameter `CFG`: data width in bits and user side-band width. -/
structure CFG where
  BUSWIDTH : Nat
  USERWIDTH : Nat
  deriving DecidableEq

/-- The command of a generic payload (`tlm::tlm_command`). -/
inductive tlm_command where
  | TLM_READ_COMMAND
  | TLM_WRITE_COMMAND
  | TLM_IGNORE_COMMAND
  deriving DecidableEq

/-- Modelled from the spec: `axi::ace_extension`, whose declaration (`axi/axi_tlm.h`) is not
part of the sources.  One field per attribute the bridge sets ("id, length, size, burst type,
cache/prot/qos/region, domain/snoop/barrier, exclusive flag, stash id/partition", plus the
control user side-band and the response codes `cresp` and `resp`); a setter stores its
argument. -/
structure ace_extension where
  id : Nat := 0
  length : Nat := 0
  size : Nat := 0
  burst : Nat := 0
  cache : Nat := 0
  prot : Nat := 0
  qos : Nat := 0
  region : Nat := 0
  domain : Nat := 0
  snoop : Nat := 0
  barrier : Nat := 0
  exclusive : Bool := false
  stash_nid : Nat := 0
  stash_lpid : Nat := 0
  user : Nat := 0
  cresp : Nat := 0
  resp : Nat := 0
  deriving DecidableEq

/-- The setter `set_id` of the extension. -/
def ace_extension.set_id (ext : ace_extension) (v : Nat) : ace_extension :=
  { ext with id := v }

/-- The setter `set_length` of the extension. -/
def ace_extension.set_length (ext : ace_extension) (v : Nat) : ace_extension :=
  { ext with length := v }

/-- The setter `set_size` of the extension. -/
def ace_extension.set_size (ext : ace_extension) (v : Nat) : ace_extension :=
  { ext with size := v }

/-- The setter `set_burst` of the extension. -/
def ace_extension.set_burst (ext : ace_extension) (v : Nat) : ace_extension :=
  { ext with burst := v }

/-- The setter `set_cache` of the extension. -/
def ace_extension.set_cache (ext : ace_extension) (v : Nat) : ace_extension :=
  { ext with cache := v }

/-- The setter `set_prot` of the extension. -/
def ace_extension.set_prot (ext : ace_extension) (v : Nat) : ace_extension :=
  { ext with prot := v }

/-- The setter `set_qos` of the extension. -/
def ace_extension.set_qos (ext : ace_extension) (v : Nat) : ace_extension :=
  { ext with qos := v }

/-- The setter `set_region` of the extension. -/
def ace_extension.set_region (ext : ace_extension) (v : Nat) : ace_extension :=
  { ext with region := v }

/-- The setter `set_domain` of the extension. -/
def ace_extension.set_domain (ext : ace_extension) (v : Nat) : ace_extension :=
  { ext with domain := v }

/-- The setter `set_snoop` of the extension. -/
def ace_extension.set_snoop (ext : ace_extension) (v : Nat) : ace_extension :=
  { ext with snoop := v }

/-- The setter `set_barrier` of the extension. -/
def ace_extension.set_barrier (ext : ace_extension) (v : Nat) : ace_extension :=
  { ext with barrier := v }

/-- The setter `set_exclusive` of the extension. -/
def ace_extension.set_exclusive (ext : ace_extension) (v : Bool) : ace_extension :=
  { ext with exclusive := v }

/-- The setter `set_stash_nid` of the extension. -/
def ace_extension.set_stash_nid (ext : ace_extension) (v : Nat) : ace_extension :=
  { ext with stash_nid := v }

/-- The setter `set_stash_lpid` of the extension. -/
def ace_extension.set_stash_lpid (ext : ace_extension) (v : Nat) : ace_extension :=
  { ext with stash_lpid := v }

/-- The setter `set_user` of the extension. -/
def ace_extension.set_user (ext : ace_extension) (v : Nat) : ace_extension :=
  { ext with user := v }

/-- The generic payload with its ACE extension: address, command, the memory behind the
data and byte-enable pointers, and the three length attributes.  `data_ptr` and
`byte_enable_ptr` record what the pointers refer to: `none` is `nullptr`, `some n` an array of
`n` bytes; the packers address `data` and `byte_enable` whatever the pointers are. -/
structure payload where
  address : Nat
  command : tlm_command
  data : Buffer
  data_length : Nat
  byte_enable : Buffer
  byte_enable_length : Nat
  streaming_width : Nat
  ext : ace_extension
  data_ptr : Option Nat := none
  byte_enable_ptr : Option Nat := none

/-- The setter `set_address` of the payload. -/
def payload.set_address (gp : payload) (v : Nat) : payload :=
  { gp with address := v }

/-- The setter `set_command` of the payload. -/
def payload.set_command (gp : payload) (v : tlm_command) : payload :=
  { gp with command := v }

/-- The setter `set_data_length` of the payload. -/
def payload.set_data_length (gp : payload) (v : Nat) : payload :=
  { gp with data_length := v }

/-- The setter `set_byte_enable_length` of the payload. -/
def payload.set_byte_enable_length (gp : payload) (v : Nat) : payload :=
  { gp with byte_enable_length := v }

/-- The setter `set_data_ptr` of the payload. -/
def payload.set_data_ptr (gp : payload) (v : Option Nat) : payload :=
  { gp with data_ptr := v }

/-- The setter `set_byte_enable_ptr` of the payload. -/
def payload.set_byte_enable_ptr (gp : payload) (v : Option Nat) : payload :=
  { gp with byte_enable_ptr := v }

/-- The setter `set_streaming_width` of the payload. -/
def payload.set_streaming_width (gp : payload) (v : Nat) : payload :=
  { gp with streaming_width := v }

/-- The extension of the payload replaced by `ext` (the setters act on the extension object the
payload owns). -/
def payload.with_ext (gp : payload) (ext : ace_extension) : payload :=
  { gp with ext := ext }

/-- Modelled from the spec: `axi::get_burst_size` (`axi/axi_tlm.h`, not part of the sources):
the beat size in bytes, two to the power of the size attribute (as in
`data_len = (1 << arsize) * (arlen + 1)` of `ar_t`). -/
def get_burst_size (trans : payload) : Nat :=
  2 ^ trans.ext.size

/-- Modelled from the spec: `axi::fsm::fsm_handle` (`axi/fsm/types.h`, not part of the sources):
the owned transaction, `beat_count: u32`, the written-byte accumulator `aux.i32.i0: u32`, and
of the protocol FSM of the handle whether it has left its initial state, that is whether the
request phase has begun. -/
structure fsm_handle where
  trans : payload
  beat_count : Nat
  aux_i32_i0 : Nat
  request_begun : Bool := false

/-! ## Beat packers -/

/-- The expression `beat_count * size` (`byte_offset`), a 32-bit product. -/
def beat_byte_offset (fsm_hndl : fsm_handle) : Nat :=
  (fsm_hndl.beat_count * get_burst_size fsm_hndl.trans) % 2 ^ 32

/-- The expression `(get_address() + byte_offset) & (CFG::BUSWIDTH / 8 - 1)` (`offset`);
the sum is a 64-bit sum. -/
def beat_offset (cfg : CFG) (fsm_hndl : fsm_handle) : Nat :=
  ((fsm_hndl.trans.address + beat_byte_offset fsm_hndl) % 2 ^ 64) &&& (cfg.BUSWIDTH / 8 - 1)

/-- The expression `byte_offset - offset` (`beat_start_idx`), a 64-bit difference that wraps
when `offset` exceeds `byte_offset`. -/
def beat_start_idx (cfg : CFG) (fsm_hndl : fsm_handle) : Nat :=
  (beat_byte_offset fsm_hndl + 2 ^ 64 - beat_offset cfg fsm_hndl) % 2 ^ 64

/-- The test `offset && (size + offset) > (CFG::BUSWIDTH / 8)`: un-aligned multi-beat access. -/
def unaligned_multi_beat (cfg : CFG) (fsm_hndl : fsm_handle) : Bool :=
  decide (beat_offset cfg fsm_hndl ≠ 0) &&
    decide (get_burst_size fsm_hndl.trans + beat_offset cfg fsm_hndl > cfg.BUSWIDTH / 8)

/-- The function `ace_lite_target::get_read_data_for_beat`: the bus word of the current read beat. -/
def get_read_data_for_beat (cfg : CFG) (fsm_hndl : fsm_handle) : Nat :=
  let beat_count := fsm_hndl.beat_count
  let size := get_burst_size fsm_hndl.trans
  let byte_offset := beat_byte_offset fsm_hndl
  let offset := beat_offset cfg fsm_hndl
  let data := 0
  if unaligned_multi_beat cfg fsm_hndl then
    if beat_count = 0 then
      (forIdx (fun _ => true) (size - offset) offset).foldl
        (fun data i => setLane data i (fsm_hndl.trans.data (i - offset))) data
    else
      let beat_start_idx := beat_start_idx cfg fsm_hndl
      let data_len := fsm_hndl.trans.data_length
      (forIdx (fun i => decide ((beat_start_idx + i) % 2 ^ 64 < data_len)) size 0).foldl
        (fun data i => setLane data i (fsm_hndl.trans.data ((beat_start_idx + i) % 2 ^ 64))) data
  else
    (forIdx (fun _ => true) size 0).foldl
      (fun data i => setLane data (offset + i) (fsm_hndl.trans.data (byte_offset + i))) data

/-- One iteration body of the write loops of `wdata_t`: cell `p` of the data buffer takes bus
lane `l`, cell `p` of the byte-enable buffer takes `0xff` or `0` after strobe bit `l`, and
`aux.i32.i0` (32 bit) is incremented when the strobe bit is set. -/
def wdata_store (data strb : Nat) (fsm_hndl : fsm_handle) (p l : Nat) : fsm_handle :=
  { fsm_hndl with
    trans := { fsm_hndl.trans with
      data := fsm_hndl.trans.data.write p (laneByte data l)
      byte_enable := fsm_hndl.trans.byte_enable.write p (if strb.testBit l then 0xff else 0) }
    aux_i32_i0 := (fsm_hndl.aux_i32_i0 + (if strb.testBit l then 1 else 0)) % 2 ^ 32 }

/-- The beat packer of `ace_lite_target::wdata_t` (the three loops that follow the sampling of
`w_data` and `w_strb`): stores the beat into the buffers of the transaction. -/
def wdata_pack (cfg : CFG) (fsm_hndl : fsm_handle) (data strb : Nat) : fsm_handle :=
  let beat_count := fsm_hndl.beat_count
  let size := get_burst_size fsm_hndl.trans
  let byte_offset := beat_byte_offset fsm_hndl
  let offset := beat_offset cfg fsm_hndl
  if unaligned_multi_beat cfg fsm_hndl then
    if beat_count = 0 then
      (forIdx (fun _ => true) (size - offset) offset).foldl
        (fun h i => wdata_store data strb h (i - offset) i) fsm_hndl
    else
      let beat_start_idx := beat_start_idx cfg fsm_hndl
      let data_len := fsm_hndl.trans.data_length
      (forIdx (fun i => decide ((beat_start_idx + i) % 2 ^ 64 < data_len)) size 0).foldl
        (fun h i => wdata_store data strb h ((beat_start_idx + i) % 2 ^ 64) i) fsm_hndl
  else
    (forIdx (fun _ => true) size 0).foldl
      (fun h i => wdata_store data strb h (byte_offset + i) (offset + i)) fsm_hndl

/-- The (buffer cell, bus lane) pairs visited by the copy loop that the beat selects, in the
order of the iterations: the loop headers of `get_read_data_for_beat` and of the write loops
of `wdata_t` are the same, cell being the position of `dptr` (and `beptr`) and lane the index
of the part select (and of the strobe bit). -/
def beat_copies (cfg : CFG) (fsm_hndl : fsm_handle) : List (Nat × Nat) :=
  let beat_count := fsm_hndl.beat_count
  let size := get_burst_size fsm_hndl.trans
  let byte_offset := beat_byte_offset fsm_hndl
  let offset := beat_offset cfg fsm_hndl
  if unaligned_multi_beat cfg fsm_hndl then
    if beat_count = 0 then
      (forIdx (fun _ => true) (size - offset) offset).map (fun i => (i - offset, i))
    else
      let beat_start_idx := beat_start_idx cfg fsm_hndl
      let data_len := fsm_hndl.trans.data_length
      (forIdx (fun i => decide ((beat_start_idx + i) % 2 ^ 64 < data_len)) size 0).map
        (fun i => ((beat_start_idx + i) % 2 ^ 64, i))
  else
    (forIdx (fun _ => true) size 0).map (fun i => (byte_offset + i, offset + i))

/-- The handle with its beat counter at `b`: the state in which beat `b` of the burst is
packed. -/
def at_beat (fsm_hndl : fsm_handle) (b : Nat) : fsm_handle :=
  { fsm_hndl with beat_count := b }

/-- The data-buffer (and byte-enable) cells stored by the write loops of `wdata_t` on beat `b`. -/
def wdata_cells (cfg : CFG) (fsm_hndl : fsm_handle) (b : Nat) : List Nat :=
  (beat_copies cfg (at_beat fsm_hndl b)).map Prod.fst

/-- A buffer whose cell `p` holds `p mod 256`. -/
def rampBuffer : Buffer := fun p => Fin.ofNat p

/-- A buffer with every cell equal to `v`. -/
def constBuffer (v : Byte) : Buffer := fun _ => v

/-- A handle on a transaction at `addr` with size attribute `size` and `len + 1` beats, its
data length `(len + 1) * 2 ^ size`, at beat `beat` with accumulator `acc`. -/
def sampleHandle (cmd : tlm_command) (addr size len beat acc : Nat) (data be : Buffer) : fsm_handle :=
  { trans :=
      { address := addr, command := cmd, data := data, data_length := 2 ^ size * (len + 1),
        byte_enable := be, byte_enable_length := 2 ^ size * (len + 1),
        streaming_width := 2 ^ size * (len + 1), ext := { size := size, length := len } }
    beat_count := beat
    aux_i32_i0 := acc }


/-- The start index of a later beat as the specification words it, `b * beat_size - offset`
over the natural numbers (0 when `offset` exceeds `b * beat_size`); to be compared with
`beat_start_idx`, the unsigned difference the code computes. -/
def spec_beat_start_idx (cfg : CFG) (fsm_hndl : fsm_handle) : Nat :=
  fsm_hndl.beat_count * get_burst_size fsm_hndl.trans - beat_offset cfg fsm_hndl

/-- The number of bytes a later beat copies as the specification words it,
`min(beat_size, data_length - beat_start_idx)`. -/
def spec_copy_count (cfg : CFG) (fsm_hndl : fsm_handle) : Nat :=
  min (get_burst_size fsm_hndl.trans)
    (fsm_hndl.trans.data_length - spec_beat_start_idx cfg fsm_hndl)
/-! ## Phases, time points and the bridge state -/

/-- The phases of the transaction-level protocol: the four of TLM-2.0, `UNINITIALIZED_PHASE`,
the AXI extended phases, and any further extended phase by its number. -/
inductive tlm_phase where
  | UNINITIALIZED_PHASE
  | BEGIN_REQ
  | END_REQ
  | BEGIN_RESP
  | END_RESP
  | BEGIN_PARTIAL_REQ
  | END_PARTIAL_REQ
  | BEGIN_PARTIAL_RESP
  | END_PARTIAL_RESP
  | ACK
  | extended (id : Nat)
  deriving DecidableEq

/-- The return value of a non-blocking transport call (`tlm::tlm_sync_enum`). -/
inductive tlm_sync_enum where
  | TLM_ACCEPTED
  | TLM_UPDATED
  | TLM_COMPLETED
  deriving DecidableEq

/-- Modelled from the spec: `axi::fsm::protocol_time_point_e` (`axi/fsm/types.h`, not part of the
sources), the time points of section 4.2 in the order a request/response pair visits them. -/
inductive protocol_time_point_e where
  | RequestPhaseBeg
  | BegPartReqE
  | EndPartReqE
  | BegReqE
  | EndReqE
  | BegPartRespE
  | EndPartRespE
  | BegRespE
  | EndRespE
  deriving DecidableEq

/-- Why a piece of code does not run to its end: the thread is suspended in a `wait` whose
event has not come, the run is aborted (`SCCFATAL`, a failed assertion), or the code stores
through a null pointer or outside the array a pointer refers to, which C++ leaves undefined
(`fault`). -/
inductive halt where
  | blocked
  | fatal (msg : String)
  | fault
  deriving DecidableEq

/-- One call of `schedule(tp, trans, t, syncronize)`; the transaction is named by the index of
its FSM handle. -/
structure sched_entry where
  tp : protocol_time_point_e
  trans : Nat
  t : Nat
  syncronize : Bool
  deriving DecidableEq

/-- The record `ace_lite_target::aw_data`: the fields sampled off the address-write channel. -/
structure aw_data where
  id : Nat
  addr : Nat
  prot : Nat
  size : Nat
  cache : Nat
  burst : Nat
  qos : Nat
  region : Nat
  len : Nat
  domain : Nat
  snoop : Nat
  bar : Nat
  unique : Nat
  stashnid : Nat
  stashlpid : Nat
  lock : Bool
  user : Nat
  deriving DecidableEq

/-- The address-read pins sampled by `ar_t`. -/
structure ar_pins where
  ar_valid : Bool
  ar_id : Nat
  ar_addr : Nat
  ar_len : Nat
  ar_size : Nat
  ar_burst : Nat
  ar_cache : Nat
  ar_prot : Nat
  ar_qos : Nat
  ar_region : Nat
  ar_domain : Nat
  ar_snoop : Nat
  ar_bar : Nat
  ar_lock : Bool
  deriving DecidableEq

/-- The address-write pins sampled by `aw_t`. -/
structure aw_pins where
  aw_valid : Bool
  aw_id : Nat
  aw_addr : Nat
  aw_prot : Nat
  aw_size : Nat
  aw_cache : Nat
  aw_burst : Nat
  aw_qos : Nat
  aw_region : Nat
  aw_len : Nat
  aw_domain : Nat
  aw_snoop : Nat
  aw_bar : Nat
  aw_unique : Bool
  aw_stashniden : Bool
  aw_stashnid : Nat
  aw_stashlpiden : Bool
  aw_stashlpid : Nat
  aw_lock : Bool
  deriving DecidableEq

/-- The write-data pins sampled by `wdata_t`. -/
structure w_pins where
  w_valid : Bool
  w_data : Nat
  w_strb : Nat
  w_last : Bool
  deriving DecidableEq

/-- A slot array `std::array<fsm_handle*, 3>` indexed by command; a handle pointer is the
index of the handle in `bridge.handles`, `none` is `nullptr`. -/
abbrev slots := tlm_command → Option Nat

/-- Assignment `arr[cmd] = v`. -/
def slots.set (arr : slots) (cmd : tlm_command) (v : Option Nat) : slots :=
  fun c => if c = cmd then v else arr c

/-- The state of one `ace_lite_target`: its members, the FSM handles it owns, and what it has
sent to its collaborators so far.
* `handles`: the FSM handles, addressed by index;
* `active_req_beat`, `active_req`, `active_resp_beat`, `aw_que`, `rresp_vl`, `wresp_vl`: the
  members of the same name (the queues first-in first-out);
* `ar_end_req_evt`, `wdata_end_req_evt`: whether the event has been notified and not yet
  consumed by the `wait` of its thread;
* `finished`: handles whose `finish` event has been notified;
* `scheduled`: the calls of `schedule` not yet delivered;
* `fw_calls`: the calls of `isckt->nb_transport_fw` in order, each with the phase and the
  payload as it was at the call;
* `reacted`: the time points handed to `react` in order, each with its handle;
* `packed`: the `(handle, beat_count)` pairs with which the write packer has run, in order;
* `ar_ready`, `w_ready`, `aw_ready`, `r_valid`, `r_last`, `r_data`, `r_resp`, `r_id`,
  `b_valid`, `b_resp`, `b_id`: the driven pins;
* `fresh`, `fresh_be`: the content of the data and byte-enable memory the allocator hands out
  next;
* `rresp_cur`, `bresp_cur`: the locals `val` and `fsm_hndl` of `rresp_t` and of `bresp_t`
  while the thread waits for `r_ready`, `b_ready`;
* `read_beats`: the `(handle, beat_count)` pairs with which `get_read_data_for_beat` has been
  called by `rresp_t`, in order. -/
structure bridge where
  handles : List fsm_handle
  active_req_beat : slots
  active_req : slots
  active_resp_beat : slots
  aw_que : List aw_data
  rresp_vl : List (Nat × Nat)
  wresp_vl : List (Nat × Nat)
  ar_end_req_evt : Bool
  wdata_end_req_evt : Bool
  finished : List Nat
  scheduled : List sched_entry
  fw_calls : List (tlm_phase × payload)
  reacted : List (protocol_time_point_e × Nat)
  packed : List (Nat × Nat)
  ar_ready : Bool
  w_ready : Bool
  fresh : Buffer
  fresh_be : Buffer
  aw_ready : Bool := false
  r_valid : Bool := false
  r_last : Bool := false
  r_data : Nat := 0
  r_resp : Nat := 0
  r_id : Nat := 0
  rresp_cur : Option (Nat × Nat) := none
  read_beats : List (Nat × Nat) := []
  b_valid : Bool := false
  b_resp : Nat := 0
  b_id : Nat := 0
  bresp_cur : Option (Nat × Nat) := none

/-- The bridge after construction: no handle, every slot null, every queue empty. -/
def bridge.init (fresh fresh_be : Buffer) : bridge :=
  { handles := [], active_req_beat := fun _ => none, active_req := fun _ => none,
    active_resp_beat := fun _ => none, aw_que := [], rresp_vl := [], wresp_vl := [],
    ar_end_req_evt := false, wdata_end_req_evt := false, finished := [], scheduled := [],
    fw_calls := [], reacted := [], packed := [], ar_ready := false, w_ready := false,
    fresh := fresh, fresh_be := fresh_be }

/-- Store through a handle pointer: the handle at index `hid` becomes `h`. -/
def bridge.set_handle (st : bridge) (hid : Nat) (h : fsm_handle) : bridge :=
  { st with handles := st.handles.set hid h }

/-- Modelled from the spec: `schedule(tp, trans, t, syncronize)` of `axi::fsm::base` (not part
of the sources): the time point is queued for the transaction and raised later by `deliver`
("waits for the collaborator's asynchronous callback to raise it"). -/
def schedule (tp : protocol_time_point_e) (trans : Nat) (t : Nat) (syncronize : Bool)
    (st : bridge) : bridge :=
  { st with scheduled := st.scheduled ++ [⟨tp, trans, t, syncronize⟩] }

/-- The call `isckt->nb_transport_fw(*fsm_hndl->trans, phase, t)`: the call is recorded with the payload
as it is now; what the collaborator returns is an input of the step that makes the call. -/
def nb_transport_fw (phase : tlm_phase) (fsm_hndl : fsm_handle) (st : bridge) : bridge :=
  { st with fw_calls := st.fw_calls ++ [(phase, fsm_hndl.trans)] }

/-! ## `nb_transport_bw` -/

/-- The function `ace_lite_target::nb_transport_bw`: the state after the call and either the value returned
or the fatal report. -/
def nb_transport_bw (trans : Nat) (phase : tlm_phase) (t : Nat) (st : bridge) :
    bridge × Except halt tlm_sync_enum :=
  let ret := tlm_sync_enum.TLM_ACCEPTED
  if phase = .END_PARTIAL_REQ ∨ phase = .END_REQ then
    (schedule (if phase = .END_REQ then .EndReqE else .EndPartReqE) trans t false st, .ok ret)
  else if phase = .BEGIN_PARTIAL_RESP ∨ phase = .BEGIN_RESP then
    (schedule (if phase = .BEGIN_RESP then .BegRespE else .BegPartRespE) trans t false st, .ok ret)
  else
    (st, .error (.fatal "Illegal phase received"))

/-! ## The callbacks of `setup_callbacks` and their dispatch -/

/-- The callback `fsm_hndl->fsm->cb[tp]` installed by `setup_callbacks` for the handle at index
`hid`; `ret` is what the collaborator returns to the `nb_transport_fw` call the callback makes,
if it makes one. -/
def cb (ret : tlm_sync_enum) (tp : protocol_time_point_e) (hid : Nat) (st : bridge) :
    Except halt bridge :=
  match st.handles[hid]? with
  | none => .error (.fatal "dangling handle")
  | some fsm_hndl =>
    match tp with
    | .RequestPhaseBeg => .ok (st.set_handle hid { fsm_hndl with beat_count := 0 })
    | .BegPartReqE =>
      if fsm_hndl.trans.command = .TLM_WRITE_COMMAND then
        let st := nb_transport_fw .BEGIN_PARTIAL_REQ fsm_hndl st
        if ret = .TLM_UPDATED then .ok (schedule .EndPartReqE hid 0 true st) else .ok st
      else .error (.fatal "sc_assert(fsm_hndl->trans->get_command() == tlm::TLM_WRITE_COMMAND)")
    | .EndPartReqE =>
      let st := { st with wdata_end_req_evt := true }
      let st := { st with active_req_beat := st.active_req_beat.set .TLM_WRITE_COMMAND none }
      .ok (st.set_handle hid { fsm_hndl with beat_count := (fsm_hndl.beat_count + 1) % 2 ^ 32 })
    | .BegReqE =>
      let st := nb_transport_fw .BEGIN_REQ fsm_hndl st
      if ret = .TLM_UPDATED then .ok (schedule .EndReqE hid 0 true st) else .ok st
    | .EndReqE =>
      match fsm_hndl.trans.command with
      | .TLM_READ_COMMAND =>
        let st := { st with ar_end_req_evt := true }
        .ok { st with active_req_beat := st.active_req_beat.set .TLM_READ_COMMAND none }
      | .TLM_WRITE_COMMAND =>
        let st := { st with wdata_end_req_evt := true }
        let st := { st with active_req_beat := st.active_req_beat.set .TLM_WRITE_COMMAND none }
        .ok (st.set_handle hid { fsm_hndl with beat_count := (fsm_hndl.beat_count + 1) % 2 ^ 32 })
      | .TLM_IGNORE_COMMAND => .ok st
    | .BegPartRespE =>
      if fsm_hndl.trans.command = .TLM_READ_COMMAND then
        let st := { st with active_resp_beat := st.active_resp_beat.set .TLM_READ_COMMAND (some hid) }
        .ok { st with rresp_vl := st.rresp_vl ++ [(1, hid)] }
      else .error (.fatal "assert(fsm_hndl->trans->is_read())")
    | .EndPartRespE =>
      if fsm_hndl.trans.command = .TLM_READ_COMMAND then
        let st := nb_transport_fw .END_PARTIAL_RESP fsm_hndl st
        let st := { st with active_resp_beat := st.active_resp_beat.set .TLM_READ_COMMAND none }
        .ok (st.set_handle hid { fsm_hndl with beat_count := (fsm_hndl.beat_count + 1) % 2 ^ 32 })
      else .error (.fatal "assert(fsm_hndl->trans->is_read())")
    | .BegRespE =>
      let st := { st with
        active_resp_beat := st.active_resp_beat.set fsm_hndl.trans.command (some hid) }
      match fsm_hndl.trans.command with
      | .TLM_READ_COMMAND => .ok { st with rresp_vl := st.rresp_vl ++ [(3, hid)] }
      | .TLM_WRITE_COMMAND => .ok { st with wresp_vl := st.wresp_vl ++ [(3, hid)] }
      | .TLM_IGNORE_COMMAND => .ok st
    | .EndRespE =>
      let st := nb_transport_fw .END_RESP fsm_hndl st
      let st := { st with finished := st.finished ++ [hid] }
      .ok { st with active_resp_beat := st.active_resp_beat.set fsm_hndl.trans.command none }

/-- Modelled from the spec: `react(tp, fsm_hndl)` of `axi::fsm::base` (not part of the sources),
the dispatcher of section 4.2: it "invokes the registered callback for the owning FSM handle".
The first request time point of a handle is preceded by `RequestPhaseBeg` (the order
`RequestPhaseBeg → {BegPartReq → EndPartReq}* → BegReq → EndReq → ...`). -/
def react (ret : tlm_sync_enum) (tp : protocol_time_point_e) (hid : Nat) (st : bridge) :
    Except halt bridge :=
  match st.handles[hid]? with
  | none => .error (.fatal "dangling handle")
  | some fsm_hndl =>
    let st := { st with reacted := st.reacted ++ [(tp, hid)] }
    if (tp = .BegPartReqE ∨ tp = .BegReqE) ∧ fsm_hndl.request_begun = false then
      match cb ret .RequestPhaseBeg hid (st.set_handle hid { fsm_hndl with request_begun := true }) with
      | .ok st => cb ret tp hid st
      | .error e => .error e
    else
      cb ret tp hid st

/-- Modelled from the spec: `find_or_create(gp)` of `axi::fsm::base` (not part of the sources)
for a payload that has no handle yet: a new FSM handle owning the transaction, its beat counter
0 ("beat_count: current beat index, 0-based"), with the callbacks of `setup_callbacks`.
Returns the index of the handle. -/
def find_or_create (gp : payload) (st : bridge) : Nat × bridge :=
  (st.handles.length,
    { st with handles := st.handles ++ [{ trans := gp, beat_count := 0, aux_i32_i0 := 0 }] })

/-- Modelled from the spec: delivery of the oldest scheduled time point by `axi::fsm::base`
(not part of the sources): `react` is called with it on the handle of its transaction. -/
def deliver (ret : tlm_sync_enum) (st : bridge) : Except halt bridge :=
  match st.scheduled with
  | [] => .error .blocked
  | e :: rest => react ret e.tp e.trans { st with scheduled := rest }

/-! ## Allocation -/

/-- The extension `tlm::scc::tlm_gp_mm` that owns the data of a payload: `data_size`, the
number of bytes of the array `data_ptr` points to, and the number of bytes of the array
`be_ptr` points to, `none` when `be_ptr` is `nullptr`. -/
structure tlm_gp_mm where
  data_size : Nat
  data_ptr : Nat
  be_ptr : Option Nat
  deriving DecidableEq

/-- The constructor of `tlm_gp_mm_t<SZ, BE>`: arrays `data[SZ]` and `be[BE ? SZ : 0]`, the
byte-enable pointer `BE ? be : nullptr`. -/
def tlm_gp_mm_t (SZ : Nat) (BE : Bool) (sz : Nat) : tlm_gp_mm :=
  { data_size := sz, data_ptr := SZ, be_ptr := if BE then some SZ else none }

/-- The constructor of `tlm_gp_mm_v`: `new uint8_t[sz]` and no byte-enable array. -/
def tlm_gp_mm_v (sz : Nat) : tlm_gp_mm :=
  { data_size := sz, data_ptr := sz, be_ptr := none }

/-- The function `tlm_gp_mm::create`. -/
def tlm_gp_mm.create (sz : Nat) (be : Bool) : tlm_gp_mm :=
  if sz > 4096 then
    tlm_gp_mm_v sz
  else if sz > 1024 then
    if be then tlm_gp_mm_t 4096 true sz else tlm_gp_mm_t 4096 false sz
  else if sz > 256 then
    if be then tlm_gp_mm_t 1024 true sz else tlm_gp_mm_t 1024 false sz
  else if sz > 64 then
    if be then tlm_gp_mm_t 256 true sz else tlm_gp_mm_t 256 false sz
  else if sz > 16 then
    if be then tlm_gp_mm_t 64 true sz else tlm_gp_mm_t 64 false sz
  else if be then
    tlm_gp_mm_t 16 true sz
  else
    tlm_gp_mm_t 16 false sz

/-- The function `tlm_gp_mm::add_data_ptr`: the payload takes the pointers of a new `tlm_gp_mm`
extension, the data length `sz` and, when `be`, the byte-enable length `sz`. -/
def add_data_ptr (sz : Nat) (gp : payload) (be : Bool) : payload :=
  let ext := tlm_gp_mm.create sz be
  let gp := gp.set_data_ptr (some ext.data_ptr)
  let gp := gp.set_data_length sz
  let gp := gp.set_byte_enable_ptr ext.be_ptr
  if be then gp.set_byte_enable_length sz else gp

/-- The call `tlm_mm<>::get().allocate<axi::ace_extension>(sz, be)`: a newly constructed payload
(address 0, no command, null pointers, lengths 0), `add_data_ptr` on it unless `sz` is 0, and
a newly created extension.  `mem` and `be_mem` are the content of the memory handed out. -/
def allocate (sz : Nat) (be : Bool) (mem be_mem : Buffer) : payload :=
  let ptr : payload :=
    { address := 0, command := .TLM_IGNORE_COMMAND, data := mem, data_length := 0,
      byte_enable := be_mem, byte_enable_length := 0, streaming_width := 0, ext := {} }
  let ptr := if sz ≠ 0 then add_data_ptr sz ptr be else ptr
  ptr.with_ext {}

/-- Modelled from the spec: `axi::into<E>` (`axi/axi_tlm.h`, not part of the sources), the
conversion of a sampled pin value to the enumeration attribute `E` (burst, domain, snoop,
barrier): the attributes are "passed through unmodified", the value keeps its encoding. -/
def into (v : Nat) : Nat := v

/-! ## `ar_t` -/

/-- The thread `ar_t` from the sampling of the pins to the last setter: the transaction built for an
accepted address-read beat. -/
def ar_payload (pins : ar_pins) (mem be_mem : Buffer) : payload :=
  let arid := pins.ar_id
  let arlen := pins.ar_len
  let arsize := pins.ar_size
  let data_len := (1 <<< arsize) * (arlen + 1)
  let gp := allocate data_len false mem be_mem
  let gp := gp.set_address pins.ar_addr
  let gp := gp.set_command .TLM_READ_COMMAND
  let gp := gp.set_streaming_width data_len
  let ext := gp.ext
  let ext := ext.set_id arid
  let ext := ext.set_length arlen
  let ext := if pins.ar_lock then ext.set_exclusive true else ext
  let ext := ext.set_size arsize
  let ext := ext.set_burst (into pins.ar_burst)
  let ext := ext.set_cache pins.ar_cache
  let ext := ext.set_prot pins.ar_prot
  let ext := ext.set_qos pins.ar_qos
  let ext := ext.set_region pins.ar_region
  let ext := ext.set_domain (into pins.ar_domain)
  let ext := ext.set_snoop (into pins.ar_snoop)
  let ext := ext.set_barrier (into pins.ar_bar)
  gp.with_ext ext

/-- The thread `ar_t` from the detection of `ar_valid` to the `wait(ar_end_req_evt)`: builds the
transaction, takes a handle for it into `active_req_beat[READ]` and injects `BegReq`.  Without
`ar_valid` the thread stays suspended. -/
def ar_sample (pins : ar_pins) (ret : tlm_sync_enum) (st : bridge) : Except halt bridge :=
  if pins.ar_valid then
    let gp := ar_payload pins st.fresh st.fresh_be
    let (hid, st) := find_or_create gp st
    let st := { st with active_req_beat := st.active_req_beat.set .TLM_READ_COMMAND (some hid) }
    react ret .BegReqE hid st
  else .error .blocked

/-! ## `aw_t` -/

/-- The aggregate `aw_data awd = { ... }` of `aw_t`: the pending address entry built from the
address-write pins, field by field in the order of the initialiser. -/
def aw_entry (pins : aw_pins) : aw_data :=
  { id := pins.aw_id
    addr := pins.aw_addr
    prot := pins.aw_prot
    size := pins.aw_size
    cache := pins.aw_cache
    burst := pins.aw_burst
    qos := pins.aw_qos
    region := pins.aw_region
    len := pins.aw_len
    domain := pins.aw_domain
    snoop := pins.aw_snoop
    bar := pins.aw_bar
    unique := if pins.aw_unique then 1 else 0
    stashnid := if pins.aw_stashniden then 0 else pins.aw_stashnid
    stashlpid := if pins.aw_stashlpiden then 0 else pins.aw_stashlpid
    lock := if pins.aw_lock then true else false
    user := 0 }

/-- The thread `aw_t` from the detection of `aw_valid` to the end of the loop body: the entry
is queued and `aw_ready` is raised for one clock period.  Without `aw_valid` the thread stays
suspended. -/
def aw_sample (pins : aw_pins) (st : bridge) : Except halt bridge :=
  if pins.aw_valid then
    let awd := aw_entry pins
    let st := { st with aw_que := st.aw_que ++ [awd] }
    let st := { st with aw_ready := true }
    let st := { st with aw_ready := false }
    .ok st
  else .error .blocked

/-! ## `wdata_t` -/

/-- The thread `wdata_t`, from `auto data_len = ...` to the last setter: the write transaction built from
a pending address entry. -/
def aw_payload (cfg : CFG) (awd : aw_data) (mem be_mem : Buffer) : payload :=
  let data_len := (1 <<< awd.size) * (awd.len + 1)
  let gp := allocate data_len true mem be_mem
  let gp := gp.set_address awd.addr
  let gp := gp.set_command .TLM_WRITE_COMMAND
  let ext := gp.ext
  let ext := ext.set_id awd.id
  let ext := ext.set_length awd.len
  let ext := ext.set_size awd.size
  let ext := ext.set_burst (into awd.burst)
  let ext := ext.set_prot awd.prot
  let ext := ext.set_qos awd.qos
  let ext := ext.set_cache awd.cache
  let ext := ext.set_region awd.region
  let ext := ext.set_snoop (into awd.snoop)
  let ext := ext.set_barrier (into awd.bar)
  let ext := ext.set_stash_nid awd.stashnid
  let ext := ext.set_stash_lpid awd.stashlpid
  let ext := ext.set_exclusive awd.lock
  let ext := if cfg.USERWIDTH ≠ 0 then ext.set_user awd.user else ext
  gp.with_ext ext

/-- The thread `wdata_t`, the branch `if(!active_req[tlm::TLM_WRITE_COMMAND])`: takes the oldest pending
address entry (the thread waits while there is none), builds the write transaction and takes a
handle for it into `active_req_beat[WRITE]` and `active_req[WRITE]`, its accumulator 0. -/
def wdata_open (cfg : CFG) (st : bridge) : Except halt bridge :=
  match st.aw_que with
  | [] => .error .blocked
  | awd :: rest =>
    let st := { st with aw_que := rest }
    let gp := aw_payload cfg awd st.fresh st.fresh_be
    let (hid, st) := find_or_create gp st
    let st := { st with active_req_beat := st.active_req_beat.set .TLM_WRITE_COMMAND (some hid) }
    let st := { st with
      active_req := st.active_req.set .TLM_WRITE_COMMAND (st.active_req_beat .TLM_WRITE_COMMAND) }
    match st.handles[hid]? with
    | none => .error (.fatal "dangling handle")
    | some h => .ok (st.set_handle hid { h with aux_i32_i0 := 0 })

/-- The statement `if(last) { ... }` of `wdata_t` after the packer: the three length attributes
take the accumulated written-byte count. -/
def wdata_truncate (last : Bool) (fsm_hndl : fsm_handle) : fsm_handle :=
  if last then
    let act_data_len := fsm_hndl.aux_i32_i0
    let gp := fsm_hndl.trans
    let gp := gp.set_data_length act_data_len
    let gp := gp.set_byte_enable_length act_data_len
    let gp := gp.set_streaming_width act_data_len
    { fsm_hndl with trans := gp }
  else fsm_hndl

/-- Whether the stores `*dptr = …` and `*beptr = …` of the write loops on the beat of
`fsm_hndl` are defined: `get_data_ptr()` and `get_byte_enable_ptr()` are not null and every
cell the loops store to lies inside the array the pointer refers to.  The loops themselves
compare no index with the size of an array and never look at the pointers. -/
def wdata_stores_valid (cfg : CFG) (fsm_hndl : fsm_handle) : Bool :=
  (beat_copies cfg fsm_hndl).all (fun c =>
    (match fsm_hndl.trans.data_ptr with
      | none => false
      | some n => decide (c.1 < n)) &&
    (match fsm_hndl.trans.byte_enable_ptr with
      | none => false
      | some n => decide (c.1 < n)))

/-- The thread `wdata_t` from the detection of `w_valid` to the `wait(wdata_end_req_evt)`: opens a burst
when none is open, packs the beat, truncates on `w_last`, and injects `BegReq` (on `w_last`)
or `BegPartReq`.  Without `w_valid` the thread stays suspended.  A beat whose stores are not
defined (`wdata_stores_valid`) ends the run in `halt.fault`. -/
def wdata_sample (cfg : CFG) (pins : w_pins) (ret : tlm_sync_enum) (st : bridge) :
    Except halt bridge :=
  if pins.w_valid then
    match (if (st.active_req .TLM_WRITE_COMMAND).isNone then wdata_open cfg st else .ok st) with
    | .error e => .error e
    | .ok st =>
      match st.active_req .TLM_WRITE_COMMAND with
      | none => .error (.fatal "null handle")
      | some hid =>
        match st.handles[hid]? with
        | none => .error (.fatal "dangling handle")
        | some fsm_hndl =>
          if wdata_stores_valid cfg fsm_hndl then
            let data := pins.w_data
            let strb := pins.w_strb
            let last := pins.w_last
            let st := { st with packed := st.packed ++ [(hid, fsm_hndl.beat_count)] }
            let fsm_hndl := wdata_pack cfg fsm_hndl data strb
            let fsm_hndl := wdata_truncate last fsm_hndl
            let st := st.set_handle hid fsm_hndl
            let tp := if pins.w_last then protocol_time_point_e.BegReqE
              else protocol_time_point_e.BegPartReqE
            react ret tp hid st
          else .error .fault
  else .error .blocked

/-- The thread `wdata_t` from the `wait(wdata_end_req_evt)` to the end of the loop body: once the event has
been notified, `w_ready` is raised for one clock period and, after a beat with `w_last`,
`active_req[WRITE]` is released. -/
def wdata_resume (last : Bool) (st : bridge) : Except halt bridge :=
  if st.wdata_end_req_evt then
    let st := { st with wdata_end_req_evt := false }
    let st := { st with w_ready := true }
    let st := { st with w_ready := false }
    if last then .ok { st with active_req := st.active_req.set .TLM_WRITE_COMMAND none }
    else .ok st
  else .error .blocked

/-- The collaborator ends the request phase it was handed: when it returned `TLM_UPDATED` the
callback has scheduled the end itself, when it returned `TLM_ACCEPTED` it calls
`nb_transport_bw` with `END_REQ` (after the last beat) or `END_PARTIAL_REQ`; a collaborator
that returned `TLM_COMPLETED` never ends the phase. -/
def end_request (ret : tlm_sync_enum) (last : Bool) (st : bridge) : Except halt bridge :=
  match ret with
  | .TLM_UPDATED => .ok st
  | .TLM_ACCEPTED =>
    match st.active_req .TLM_WRITE_COMMAND with
    | none => .error (.fatal "null handle")
    | some hid =>
      match nb_transport_bw hid (if last then .END_REQ else .END_PARTIAL_REQ) 0 st with
      | (st, .ok _) => .ok st
      | (_, .error e) => .error e
  | .TLM_COMPLETED => .error .blocked

/-- One write beat whose request phase is ended before the next beat is sampled: `wdata_sample`,
the end of the request phase by the collaborator, its delivery to the `EndPartReq`/`EndReq`
callback, and `wdata_resume`. -/
def write_beat (cfg : CFG) (pins : w_pins) (ret : tlm_sync_enum) (st : bridge) :
    Except halt bridge :=
  match wdata_sample cfg pins ret st with
  | .error e => .error e
  | .ok st =>
    match end_request ret pins.w_last st with
    | .error e => .error e
    | .ok st =>
      match deliver .TLM_ACCEPTED st with
      | .error e => .error e
      | .ok st => wdata_resume pins.w_last st

/-- A sequence of write beats, each with the return value of the collaborator for its request
phase, run one after the other. -/
def write_beats (cfg : CFG) : List (w_pins × tlm_sync_enum) → bridge → Except halt bridge
  | [], st => .ok st
  | (pins, ret) :: rest, st =>
    match write_beat cfg pins ret st with
    | .error e => .error e
    | .ok st => write_beats cfg rest st

/-! ## A write burst as a whole -/

/-- The handle after a write beat whose request phase has ended: the beat is packed, the
lengths are truncated on `w_last`, and the `EndPartReq`/`EndReq` callback has incremented the
beat counter. -/
def beat_done (cfg : CFG) (pins : w_pins) (h : fsm_handle) : fsm_handle :=
  { wdata_truncate pins.w_last (wdata_pack cfg h pins.w_data pins.w_strb) with
    beat_count := (h.beat_count + 1) % 2 ^ 32, request_begun := true }

/-- The handle after a sequence of write beats. -/
def burst_handle (cfg : CFG) : List w_pins → fsm_handle → fsm_handle
  | [], h => h
  | p :: ps, h => burst_handle cfg ps (beat_done cfg p h)

/-- Whether the stores of the write packer are defined on every beat of the sequence `ps`,
the handle being `h` before the first of them. -/
def burst_stores_valid (cfg : CFG) : List w_pins → fsm_handle → Bool
  | [], _ => true
  | p :: ps, h => wdata_stores_valid cfg h && burst_stores_valid cfg ps (beat_done cfg p h)

/-- The number of set strobe bits among the lanes that the beat of handle `h` copies. -/
def written_count (cfg : CFG) (h : fsm_handle) (strb : Nat) : Nat :=
  ((beat_copies cfg h).filter (fun c => strb.testBit c.2)).length

/-- The written-byte count of the beats `ps` of a burst, the first of them beat `k`: the sum of
`written_count` over the beats. -/
def burst_written (cfg : CFG) (h : fsm_handle) : List w_pins → Nat → Nat
  | [], _ => 0
  | p :: ps, k => written_count cfg (at_beat h k) p.w_strb + burst_written cfg h ps (k + 1)

/-- The handle `wdata_t` works on right after opening a burst for the address entry `awd`. -/
def opened_handle (cfg : CFG) (awd : aw_data) (mem be_mem : Buffer) : fsm_handle :=
  { trans := aw_payload cfg awd mem be_mem, beat_count := 0, aux_i32_i0 := 0 }

/-- The time point `wdata_t` injects for a beat. -/
def beg_tp (last : Bool) : protocol_time_point_e :=
  if last then .BegReqE else .BegPartReqE

/-- The time point that ends the request phase of a write beat. -/
def end_tp (last : Bool) : protocol_time_point_e :=
  if last then .EndReqE else .EndPartReqE

/-- The bridge after a write beat on the open burst of handle `h` at index `hid`, once the
request phase of the beat has ended and `wdata_t` has finished its loop body. -/
def after_beat (cfg : CFG) (pins : w_pins) (hid : Nat) (h : fsm_handle) (st : bridge) : bridge :=
  { st with
    handles := st.handles.set hid (beat_done cfg pins h)
    active_req_beat := st.active_req_beat.set .TLM_WRITE_COMMAND none
    active_req := if pins.w_last then st.active_req.set .TLM_WRITE_COMMAND none
      else st.active_req
    wdata_end_req_evt := false
    w_ready := false
    scheduled := []
    fw_calls := st.fw_calls ++
      [(if pins.w_last then tlm_phase.BEGIN_REQ else tlm_phase.BEGIN_PARTIAL_REQ,
        (wdata_truncate pins.w_last (wdata_pack cfg h pins.w_data pins.w_strb)).trans)]
    reacted := st.reacted ++ [(beg_tp pins.w_last, hid), (end_tp pins.w_last, hid)]
    packed := st.packed ++ [(hid, h.beat_count)] }

/-- The bridge right after `wdata_t` has opened a burst for the address entry `awd`, the
remaining entries being `rest`. -/
def after_open (cfg : CFG) (awd : aw_data) (rest : List aw_data) (st : bridge) : bridge :=
  { st with
    aw_que := rest
    handles := st.handles ++ [opened_handle cfg awd st.fresh st.fresh_be]
    active_req_beat := st.active_req_beat.set .TLM_WRITE_COMMAND (some st.handles.length)
    active_req := st.active_req.set .TLM_WRITE_COMMAND (some st.handles.length) }

/-- An address-write entry for a burst of `len + 1` beats of `2 ^ size` bytes at `addr`, every
other attribute 0. -/
def sampleAw (addr size len : Nat) : aw_data :=
  { id := 0, addr := addr, prot := 0, size := size, cache := 0, burst := 1, qos := 0, region := 0,
    len := len, domain := 0, snoop := 0, bar := 0, unique := 0, stashnid := 0, stashlpid := 0,
    lock := false, user := 0 }

/-- A bridge after construction with one pending address-write entry. -/
def sampleBridge (awd : aw_data) : bridge :=
  { bridge.init (constBuffer 0) (constBuffer 0) with aw_que := [awd] }

/-- The write-data beats of a burst of `n + 1` beats on a 256-bit bus, every one valid with
the data `w` and all 32 strobe bits set, `w_last` on the last one, the collaborator answering
each request phase with `TLM_ACCEPTED`. -/
def fullBeats (n w : Nat) : List (w_pins × tlm_sync_enum) :=
  List.replicate n ((⟨true, w, 2 ^ 32 - 1, false⟩ : w_pins), tlm_sync_enum.TLM_ACCEPTED)
    ++ [(⟨true, w, 2 ^ 32 - 1, true⟩, .TLM_ACCEPTED)]

/-- Address-write pins of an accepted beat: id 7, address `0x3000`, a burst of 4 beats of 4
bytes, `aw_lock` asserted, with the given domain and stash pins. -/
def sampleAwPins (domain : Nat) (niden : Bool) (nid : Nat) (lpiden : Bool) (lpid : Nat) :
    aw_pins :=
  { aw_valid := true, aw_id := 7, aw_addr := 0x3000, aw_prot := 2, aw_size := 2, aw_cache := 0xb,
    aw_burst := 1, aw_qos := 5, aw_region := 9, aw_len := 3, aw_domain := domain, aw_snoop := 1,
    aw_bar := 2, aw_unique := false, aw_stashniden := niden, aw_stashnid := nid,
    aw_stashlpiden := lpiden, aw_stashlpid := lpid, aw_lock := true }

/-- The transaction `wdata_t` opens for the address beat `pins` accepted by `aw_t` on a bridge
after construction, if both threads run through. -/
def opened_trans (cfg : CFG) (pins : aw_pins) : Option payload :=
  match aw_sample pins (bridge.init (constBuffer 0) (constBuffer 0)) with
  | .error _ => none
  | .ok st =>
    match wdata_open cfg st with
    | .error _ => none
    | .ok st =>
      match st.active_req .TLM_WRITE_COMMAND with
      | none => none
      | some hid => (st.handles[hid]?).map (fun h => h.trans)

/-! ## The read path: `ar_t` after the request phase, `rresp_t`, a read burst -/

/-- The thread `ar_t` from the `wait(ar_end_req_evt)` to the end of the loop body: once the
event has been notified, `ar_ready` is raised for one clock period. -/
def ar_resume (st : bridge) : Except halt bridge :=
  if st.ar_end_req_evt then
    let st := { st with ar_end_req_evt := false }
    let st := { st with ar_ready := true }
    .ok { st with ar_ready := false }
  else .error .blocked

/-- The thread `rresp_t` from `rresp_vl.get()` to the first `wait` of its `do` loop: takes the
oldest notification (the thread waits while there is none), reads the beat with
`get_read_data_for_beat` and drives the read-response pins. -/
def rresp_take (cfg : CFG) (st : bridge) : Except halt bridge :=
  match st.rresp_vl with
  | [] => .error .blocked
  | (val, hid) :: rest =>
    match st.handles[hid]? with
    | none => .error (.fatal "dangling handle")
    | some fsm_hndl =>
      let ext := fsm_hndl.trans.ext
      .ok { st with
        rresp_vl := rest
        read_beats := st.read_beats ++ [(hid, fsm_hndl.beat_count)]
        r_data := get_read_data_for_beat cfg fsm_hndl
        r_resp := ext.cresp
        r_valid := decide (val &&& 1 ≠ 0)
        r_id := ext.id
        r_last := decide (val &&& 2 ≠ 0)
        rresp_cur := some (val, hid) }

/-- The thread `rresp_t`, one wake-up of `wait(r_ready.posedge_event() | clk_delayed)` in its
`do` loop: with `r_ready` sampled high it injects `EndRespE` (last flag `val & 2` set) or
`EndPartRespE` on the handle in `active_resp_beat[READ]`, leaves the loop and, after the clock
edge, lowers `r_valid` and `r_last`; with `r_ready` low it waits again. -/
def rresp_wake (r_ready : Bool) (ret : tlm_sync_enum) (st : bridge) : Except halt bridge :=
  match st.rresp_cur with
  | none => .error .blocked
  | some (val, _) =>
    if r_ready then
      let evt := if val &&& 2 ≠ 0 then protocol_time_point_e.EndRespE
        else protocol_time_point_e.EndPartRespE
      match st.active_resp_beat .TLM_READ_COMMAND with
      | none => .error (.fatal "null handle")
      | some hid =>
        match react ret evt hid st with
        | .error e => .error e
        | .ok st => .ok { st with r_valid := false, r_last := false, rresp_cur := none }
    else .ok st

/-- The wake-ups of one response beat: `idle` wake-ups with `r_ready` low, then one with
`r_ready` high. -/
def rresp_wakes (ret : tlm_sync_enum) : Nat → bridge → Except halt bridge
  | 0, st => rresp_wake true ret st
  | idle + 1, st =>
    match rresp_wake false ret st with
    | .error e => .error e
    | .ok st => rresp_wakes ret idle st

/-- The collaborator ends the request phase of the read transaction of handle `hid`: when it
returned `TLM_UPDATED` the callback has scheduled the end itself, when it returned
`TLM_ACCEPTED` it calls `nb_transport_bw` with `END_REQ`; a collaborator that returned
`TLM_COMPLETED` never ends the phase. -/
def read_end_request (ret : tlm_sync_enum) (hid : Nat) (st : bridge) : Except halt bridge :=
  match ret with
  | .TLM_UPDATED => .ok st
  | .TLM_ACCEPTED =>
    match nb_transport_bw hid .END_REQ 0 st with
    | (st, .ok _) => .ok st
    | (_, .error e) => .error e
  | .TLM_COMPLETED => .error .blocked

/-- The request phase of a read burst: `ar_sample`, the end of the request phase by the
collaborator, its delivery to the `EndReq` callback, and `ar_resume`. -/
def read_request (pins : ar_pins) (ret : tlm_sync_enum) (st : bridge) : Except halt bridge :=
  match ar_sample pins ret st with
  | .error e => .error e
  | .ok st1 =>
    match read_end_request ret st.handles.length st1 with
    | .error e => .error e
    | .ok st2 =>
      match deliver .TLM_ACCEPTED st2 with
      | .error e => .error e
      | .ok st3 => ar_resume st3

/-- One response beat of the read transaction of handle `hid`: the collaborator calls
`nb_transport_bw` with `BEGIN_RESP` (last beat) or `BEGIN_PARTIAL_RESP`, the time point is
delivered to its callback, `rresp_t` takes the notification and, after `idle` wake-ups with
`r_ready` low, sees `r_ready` high. -/
def read_beat (cfg : CFG) (hid : Nat) (last : Bool) (idle : Nat) (st : bridge) :
    Except halt bridge :=
  match nb_transport_bw hid (if last then .BEGIN_RESP else .BEGIN_PARTIAL_RESP) 0 st with
  | (_, .error e) => .error e
  | (st, .ok _) =>
    match deliver .TLM_ACCEPTED st with
    | .error e => .error e
    | .ok st =>
      match rresp_take cfg st with
      | .error e => .error e
      | .ok st => rresp_wakes .TLM_ACCEPTED idle st

/-- A sequence of response beats of the read transaction of handle `hid`, each given by its
last flag and its number of idle wake-ups, run one after the other. -/
def read_beats (cfg : CFG) (hid : Nat) : List (Bool × Nat) → bridge → Except halt bridge
  | [], st => .ok st
  | (last, idle) :: rest, st =>
    match read_beat cfg hid last idle st with
    | .error e => .error e
    | .ok st => read_beats cfg hid rest st

/-- The response beats of a read burst: one beat without the last flag per entry of `idles`,
then the last beat. -/
def burst_beats (idles : List Nat) (idle_last : Nat) : List (Bool × Nat) :=
  idles.map (fun i => (false, i)) ++ [(true, idle_last)]

/-- The bridge after a response beat of the read transaction of handle `hid` (`h` before the
beat): the pins hold the beat, both time points of the beat have been handed to `react`, and
the end of the beat has been forwarded. -/
def after_read_beat (cfg : CFG) (hid : Nat) (last : Bool) (h : fsm_handle) (st : bridge) :
    bridge :=
  { st with
    handles := if last then st.handles
      else st.handles.set hid { h with beat_count := (h.beat_count + 1) % 2 ^ 32 }
    active_resp_beat := st.active_resp_beat.set .TLM_READ_COMMAND none
    finished := if last then st.finished ++ [hid] else st.finished
    fw_calls := st.fw_calls ++
      [(if last then tlm_phase.END_RESP else tlm_phase.END_PARTIAL_RESP, h.trans)]
    reacted := st.reacted ++
      [(if last then protocol_time_point_e.BegRespE else protocol_time_point_e.BegPartRespE, hid),
       (if last then protocol_time_point_e.EndRespE else protocol_time_point_e.EndPartRespE, hid)]
    read_beats := st.read_beats ++ [(hid, h.beat_count)]
    r_data := get_read_data_for_beat cfg h
    r_resp := h.trans.ext.cresp
    r_id := h.trans.ext.id
    r_valid := false
    r_last := false
    rresp_cur := none
    rresp_vl := []
    scheduled := [] }

/-- The bridge after the request phase of the read burst accepted from `pins`. -/
def after_read_request (pins : ar_pins) (st : bridge) : bridge :=
  { st with
    handles := st.handles ++ [⟨ar_payload pins st.fresh st.fresh_be, 0, 0, true⟩]
    active_req_beat := st.active_req_beat.set .TLM_READ_COMMAND none
    reacted := st.reacted ++ [(.BegReqE, st.handles.length), (.EndReqE, st.handles.length)]
    fw_calls := st.fw_calls ++ [(.BEGIN_REQ, ar_payload pins st.fresh st.fresh_be)]
    ar_end_req_evt := false
    ar_ready := false
    scheduled := [] }

/-- A bridge with two handles and nothing in flight: handle 0 owns a read transaction as `ar_t`
builds it, handle 1 a write transaction as `wdata_t` opens it. -/
def respBridge : bridge :=
  { bridge.init rampBuffer (constBuffer 0) with
    handles :=
      [⟨ar_payload ⟨true, 7, 0x2000, 3, 2, 1, 0xb, 2, 5, 9, 1, 0, 0, true⟩ rampBuffer
          (constBuffer 0), 0, 0, true⟩,
        opened_handle ⟨32, 0⟩ (sampleAw 0x100 2 3) rampBuffer (constBuffer 0)] }

/-! ## `bresp_t` and the handshake loops of the response threads -/

/-- Modelled from the spec: `axi::to_int` (`axi/axi_tlm.h`, not part of the sources), the
conversion of the response attribute to the value driven on `b_resp` (the thread "drives
response code/id/last/valid"): the code keeps its encoding. -/
def to_int (v : Nat) : Nat := v

/-- The thread `bresp_t` from `wresp_vl.get()` to the first `wait` of its `do` loop: takes the
oldest notification (the thread waits while there is none) and drives the write-response
pins. -/
def bresp_take (st : bridge) : Except halt bridge :=
  match st.wresp_vl with
  | [] => .error .blocked
  | (val, hid) :: rest =>
    match st.handles[hid]? with
    | none => .error (.fatal "dangling handle")
    | some fsm_hndl =>
      let ext := fsm_hndl.trans.ext
      .ok { st with
        wresp_vl := rest
        b_resp := to_int ext.resp
        b_valid := true
        b_id := ext.id
        bresp_cur := some (val, hid) }

/-- The thread `bresp_t`, one wake-up of `wait(b_ready.posedge_event() | clk_delayed)` in its
`do` loop: with `b_ready` sampled high it injects `EndRespE` on the handle in
`active_resp_beat[WRITE]`, leaves the loop and, after the clock edge, lowers `b_valid`; with
`b_ready` low it waits again. -/
def bresp_wake (b_ready : Bool) (ret : tlm_sync_enum) (st : bridge) : Except halt bridge :=
  match st.bresp_cur with
  | none => .error .blocked
  | some _ =>
    if b_ready then
      match st.active_resp_beat .TLM_WRITE_COMMAND with
      | none => .error (.fatal "null handle")
      | some hid =>
        match react ret .EndRespE hid st with
        | .error e => .error e
        | .ok st => .ok { st with b_valid := false, bresp_cur := none }
    else .ok st

/-- The `do { ... } while(!r_ready.read())` loop of `rresp_t` run on a sequence of wake-ups,
each given by the value of `r_ready` it samples: the loop takes wake-ups until one samples
`r_ready` high; while none does the thread stays suspended. -/
def rresp_loop (ret : tlm_sync_enum) : List Bool → bridge → Except halt bridge
  | [], _ => .error .blocked
  | r :: rs, st =>
    match rresp_wake r ret st with
    | .error e => .error e
    | .ok st => if r then .ok st else rresp_loop ret rs st

/-- The `do { ... } while(!b_ready.read())` loop of `bresp_t` run on a sequence of wake-ups,
each given by the value of `b_ready` it samples. -/
def bresp_loop (ret : tlm_sync_enum) : List Bool → bridge → Except halt bridge
  | [], _ => .error .blocked
  | r :: rs, st =>
    match bresp_wake r ret st with
    | .error e => .error e
    | .ok st => if r then .ok st else bresp_loop ret rs st

/-- The end time point `rresp_t` injects for a notification with value `val`. -/
def rresp_evt (val : Nat) : protocol_time_point_e :=
  if val &&& 2 ≠ 0 then .EndRespE else .EndPartRespE

/-- A bridge with two handles and nothing in flight, both owning a read transaction as `ar_t`
builds it, with ids 7 and 8. -/
def twoReads : bridge :=
  { bridge.init rampBuffer (constBuffer 0) with
    handles :=
      [⟨ar_payload ⟨true, 7, 0x2000, 3, 2, 1, 0xb, 2, 5, 9, 1, 0, 0, false⟩ rampBuffer
          (constBuffer 0), 0, 0, true⟩,
        ⟨ar_payload ⟨true, 8, 0x4000, 3, 2, 1, 0xb, 2, 5, 9, 1, 0, 0, false⟩ rampBuffer
          (constBuffer 0), 0, 0, true⟩] }

/-- The run `BegPartResp` on handle 0, `BegPartResp` on handle 1, and `rresp_t` taking the
oldest notification, from `twoReads`. -/
def twoReadsTaken : Except halt bridge :=
  match cb .TLM_ACCEPTED .BegPartRespE 0 twoReads with
  | .error e => .error e
  | .ok s1 =>
    match cb .TLM_ACCEPTED .BegPartRespE 1 s1 with
    | .error e => .error e
    | .ok s2 => rresp_take ⟨32, 0⟩ s2

/-- The run `twoReadsTaken` followed by a wake-up of `rresp_t` with `r_ready` high. -/
def twoReadsRun : Except halt bridge :=
  match twoReadsTaken with
  | .error e => .error e
  | .ok s3 => rresp_loop .TLM_ACCEPTED [true] s3

/-- What a run shows of its final state: the notification `rresp_t` holds, the id it drives,
the time points handed to `react`, and the beat counters of the handles. -/
def resp_view (r : Except halt bridge) :
    Option (Option (Nat × Nat) × Nat × List (protocol_time_point_e × Nat) × List Nat) :=
  match r with
  | .ok s => some (s.rresp_cur, s.r_id, s.reacted, s.handles.map (fun h => h.beat_count))
  | .error _ => none

/-- The bridge `respBridge` after the `BegPartResp` callback on its read handle and the
`BegResp` callback on its write handle: one notification on each response queue. -/
def respPending : bridge :=
  { respBridge with
    active_resp_beat := fun c =>
      if c = .TLM_READ_COMMAND then some 0 else if c = .TLM_WRITE_COMMAND then some 1 else none
    rresp_vl := [(1, 0)]
    wresp_vl := [(3, 1)] }

/-! ## The bridge as a transition system -/

/-- The thread `ar_t` after the `wait(ar_end_req_evt)` has returned: `ar_ready` is raised. -/
def ar_raise (st : bridge) : Except halt bridge :=
  if st.ar_end_req_evt then
    let st := { st with ar_end_req_evt := false }
    .ok { st with ar_ready := true }
  else .error .blocked

/-- The thread `ar_t` after the `wait(clk_i.posedge_event())` that follows: `ar_ready` is
lowered and the loop starts over. -/
def ar_lower (st : bridge) : bridge :=
  { st with ar_ready := false }

/-- Where the thread `ar_t` stands: before the sampling of `ar_valid`, in
`wait(ar_end_req_evt)`, or in the `wait(clk_i.posedge_event())` with `ar_ready` raised. -/
inductive ar_state where
  | sampling
  | waiting
  | raised
  deriving DecidableEq

/-- Where the thread `wdata_t` stands: before the sampling of `w_valid`, or in
`wait(wdata_end_req_evt)` with the local `last` of the beat. -/
inductive w_state where
  | sampling
  | waiting (last : Bool)
  deriving DecidableEq

/-- The bridge with the positions of the threads that wait for an event of a callback. -/
structure system where
  br : bridge
  ar_pc : ar_state
  w_pc : w_state

/-- What can happen next: a thread runs from one `wait` to the next (with the pin values it
samples and the value the collaborator returns to a forward call made on the way), the
collaborator calls `nb_transport_bw`, or a scheduled time point is delivered. -/
inductive action where
  | ar_accept (pins : ar_pins) (ret : tlm_sync_enum)
  | ar_raise
  | ar_lower
  | aw_accept (pins : aw_pins)
  | w_accept (pins : w_pins) (ret : tlm_sync_enum)
  | w_resume
  | r_take
  | r_wake (r_ready : Bool) (ret : tlm_sync_enum)
  | b_take
  | b_wake (b_ready : Bool) (ret : tlm_sync_enum)
  | bw (tr : Nat) (phase : tlm_phase) (t : Nat)
  | deliver (ret : tlm_sync_enum)

/-- The result of a thread step as the next bridge, `none` when the thread stays suspended or
the run is aborted. -/
def ok_of (r : Except halt bridge) : Option bridge :=
  match r with
  | .ok st => some st
  | .error _ => none

/-- One step of the system; `none` when the action cannot happen in the state (the thread is
elsewhere, or its event has not come) or aborts the run.  A thread that enters
`wait(ar_end_req_evt)` or `wait(wdata_end_req_evt)` waits for a notification made after that:
an `sc_event` does not remember an earlier one. -/
def system.step (cfg : CFG) (a : action) (s : system) : Option system :=
  match a with
  | .ar_accept pins ret =>
    if s.ar_pc = .sampling then
      (ok_of (ar_sample pins ret s.br)).map
        (fun st => { s with br := { st with ar_end_req_evt := false }, ar_pc := .waiting })
    else none
  | .ar_raise =>
    if s.ar_pc = .waiting then
      (ok_of (ar_raise s.br)).map (fun st => { s with br := st, ar_pc := .raised })
    else none
  | .ar_lower =>
    if s.ar_pc = .raised then some { s with br := ar_lower s.br, ar_pc := .sampling }
    else none
  | .aw_accept pins => (ok_of (aw_sample pins s.br)).map (fun st => { s with br := st })
  | .w_accept pins ret =>
    if s.w_pc = .sampling then
      (ok_of (wdata_sample cfg pins ret s.br)).map
        (fun st => { s with br := { st with wdata_end_req_evt := false },
                            w_pc := .waiting pins.w_last })
    else none
  | .w_resume =>
    match s.w_pc with
    | .waiting last =>
      (ok_of (wdata_resume last s.br)).map (fun st => { s with br := st, w_pc := .sampling })
    | .sampling => none
  | .r_take =>
    if s.br.rresp_cur = none then
      (ok_of (rresp_take cfg s.br)).map (fun st => { s with br := st })
    else none
  | .r_wake r_ready ret =>
    (ok_of (rresp_wake r_ready ret s.br)).map (fun st => { s with br := st })
  | .b_take =>
    if s.br.bresp_cur = none then
      (ok_of (bresp_take s.br)).map (fun st => { s with br := st })
    else none
  | .b_wake b_ready ret =>
    (ok_of (bresp_wake b_ready ret s.br)).map (fun st => { s with br := st })
  | .bw tr phase t =>
    match nb_transport_bw tr phase t s.br with
    | (st, .ok _) => some { s with br := st }
    | (_, .error _) => none
  | .deliver ret => (ok_of (deliver ret s.br)).map (fun st => { s with br := st })

/-- A run of the system: the actions happen one after the other. -/
def system.run (cfg : CFG) : List action → system → Option system
  | [], s => some s
  | a :: rest, s =>
    match system.step cfg a s with
    | none => none
    | some s => system.run cfg rest s

/-- The system after construction: every thread before its first sampling. -/
def system.init (fresh fresh_be : Buffer) : system :=
  { br := bridge.init fresh fresh_be, ar_pc := .sampling, w_pc := .sampling }

/-- A run of two read bursts of one beat each, the first address accepted, its request ended
by the collaborator, `ar_ready` raised and lowered, and the second address accepted. -/
def twoAddressRun : List action :=
  [.ar_accept ⟨true, 7, 0x2000, 0, 2, 1, 0, 0, 0, 0, 0, 0, 0, false⟩ .TLM_ACCEPTED,
    .bw 0 .END_REQ 0, .deliver .TLM_ACCEPTED, .ar_raise, .ar_lower,
    .ar_accept ⟨true, 8, 0x4000, 0, 2, 1, 0, 0, 0, 0, 0, 0, 0, false⟩ .TLM_UPDATED]

/-- What a step that does not belong to `ar_t` may do to the members `ar_t` works with:
`ar_ready` stays, and either `active_req_beat[READ]` is null afterwards or it and the pending
notification of `ar_end_req_evt` stay. -/
def ar_frame (st st' : bridge) : Prop :=
  st'.ar_ready = st.ar_ready ∧
  (st'.active_req_beat .TLM_READ_COMMAND = none ∨
    (st'.active_req_beat .TLM_READ_COMMAND = st.active_req_beat .TLM_READ_COMMAND ∧
      st'.ar_end_req_evt = st.ar_end_req_evt))

/-- No transaction is opened between two states: the pending address entries and the number of
handles are the same. -/
def open_frame (st st' : bridge) : Prop :=
  st'.aw_que = st.aw_que ∧ st'.handles.length = st.handles.length

/-- The invariant of `ar_t`: before the sampling and while `ar_ready` is raised
`active_req_beat[READ]` is null, it is null once the awaited `ar_end_req_evt` has been
notified, and `ar_ready` is high only in the position `raised`. -/
def ar_inv (s : system) : Prop :=
  (s.ar_pc = .sampling → s.br.active_req_beat .TLM_READ_COMMAND = none) ∧
  (s.ar_pc = .raised → s.br.active_req_beat .TLM_READ_COMMAND = none) ∧
  (s.ar_pc = .waiting → s.br.ar_end_req_evt = true →
    s.br.active_req_beat .TLM_READ_COMMAND = none) ∧
  (s.br.ar_ready = true → s.ar_pc = .raised)

/-- The state after the first `n` actions of `twoAddressRun` on a bridge after construction. -/
def twoAddressState (n : Nat) : system :=
  (system.run ⟨32, 0⟩ (twoAddressRun.take n) (system.init rampBuffer (constBuffer 0))).getD
    (system.init rampBuffer (constBuffer 0))

end axi

namespace scc

/-! ## `configurable_tracer::get_trace_enabled` -/

/-- Why a call does not return: an error report of a library. -/
inductive failure where
  | report (msg : String)
  deriving DecidableEq

/-- An attribute of a SystemC object (`sc_core::sc_attr_base`) by what the
`dynamic_cast<const sc_core::sc_attribute<bool>*>` of `get_trace_enabled` makes of it: an
`sc_attribute<bool>` with its value, or an attribute of another type. -/
inductive sc_attr_base where
  | bool_attribute (value : Bool)
  | other_attribute
  deriving DecidableEq

/-- A SystemC object (`sc_core::sc_object`) as `get_trace_enabled` reads it: its hierarchical
name `name()` and its attributes by name (`get_attribute`, `none` for `nullptr`). -/
structure sc_object where
  name : String
  get_attribute : String → Option sc_attr_base

/-- A value of a CCI parameter (`cci::cci_value`): a boolean or a value of another kind. -/
inductive cci_value where
  | bool (b : Bool)
  | number (n : Int)
  | string (s : String)
  deriving DecidableEq

/-- The accessor `cci_value::get_bool`: the boolean of a boolean value, an error report for a
value of another kind. -/
def cci_value.get_bool : cci_value → Except failure Bool
  | .bool b => .ok b
  | _ => .error (.report "cci_value: type mismatch")

/-- The broker `cci_broker` as `get_trace_enabled` reads it: `get_param_handle(name)` followed
by `get_cci_value()`, `none` when the handle is not valid (no such parameter). -/
abbrev cci_broker := String → Option cci_value

/-- The name of the control attribute and parameter, `EN_TRACING_STR`. -/
def EN_TRACING_STR : String := "enableTracing"

/-- The function `configurable_tracer::get_trace_enabled`. -/
def get_trace_enabled (broker : cci_broker) (obj : sc_object) (fall_back : Bool) :
    Except failure Bool :=
  let attr := obj.get_attribute EN_TRACING_STR
  match attr with
  | some (.bool_attribute value) => .ok value
  | _ =>
    let hier_name := obj.name
    let h := broker (hier_name.append ("." ++ EN_TRACING_STR))
    match h with
    | some v => v.get_bool
    | none => .ok fall_back

/-- An object `top.dut` with the given attributes. -/
def sampleObject (attrs : String → Option sc_attr_base) : sc_object :=
  { name := "top.dut", get_attribute := attrs }

/-! ## The FST trace file (`fst_trace.cpp`) -/

/-- A trace object (`trace::fst_trace_t<T>` for an integral `T`): the members `is_alias`,
`is_triggered`, `fst_hndl`, the stored value `old_val`, and the value `act_val` the traced
object has now. -/
structure fst_trace where
  is_alias : Bool := false
  is_triggered : Bool := false
  fst_hndl : Nat := 0
  old_val : Int
  act_val : Int

/-- A call of the FST writer: `fstWriterEmitTimeChange`, or the `fstWriterEmitValueChange` of
`record` for the trace at index `trc` with the value it holds. -/
inductive fst_event where
  | time_change (time_stamp : Nat)
  | value_change (trc : Nat) (fst_hndl : Nat) (value : Int)
  deriving DecidableEq

/-- The members of `fst_trace_file` that `notify` and `cycle` work on.  A `fst_trace*` is the
index of the trace in `traces`; `all_traces`, `pull_traces`, `changed_traces` and
`triggered_traces` are the vectors of the same name; `emitted` lists the calls of the FST
writer so far. -/
structure fst_trace_file where
  traces : List fst_trace
  all_traces : List Nat
  pull_traces : List Nat := []
  changed_traces : List Nat := []
  triggered_traces : List Nat := []
  last_emitted_ts : Nat := 2 ^ 64 - 1
  emitted : List fst_event := []

/-- The value `std::numeric_limits<uint64_t>::max()`. -/
def ts_max : Nat := 2 ^ 64 - 1

/-- The traced object of trace `trc` takes the value `v` (done by the design under trace). -/
def fst_trace_file.set_value (f : fst_trace_file) (trc : Nat) (v : Int) : fst_trace_file :=
  match f.traces[trc]? with
  | none => f
  | some t => { f with traces := f.traces.set trc { t with act_val := v } }

/-- The function `changed<T>` (the `compare_and_update` of a trace entry): when the trace is no
alias and its stored value differs from the value of the object, the stored value is updated
and the result is true. -/
def compare_and_update (f : fst_trace_file) (trc : Nat) : fst_trace_file × Bool :=
  match f.traces[trc]? with
  | none => (f, false)
  | some t =>
    if !t.is_alias && t.old_val != t.act_val then
      ({ f with traces := f.traces.set trc { t with old_val := t.act_val } }, true)
    else (f, false)

/-- The function `fst_trace_file::trace_entry::notify` of the entry of trace `trc`. -/
def notify (f : fst_trace_file) (trc : Nat) : fst_trace_file × Bool :=
  match f.traces[trc]? with
  | none => (f, false)
  | some t =>
    if !t.is_alias then
      match compare_and_update f trc with
      | (f, true) => ({ f with triggered_traces := f.triggered_traces ++ [trc] }, !t.is_alias)
      | (f, false) => (f, !t.is_alias)
    else (f, !t.is_alias)

/-- The call `t->record(m_fst)`: the value change of the stored value is written. -/
def record (f : fst_trace_file) (trc : Nat) : fst_trace_file :=
  match f.traces[trc]? with
  | none => f
  | some t => { f with emitted := f.emitted ++ [fst_event.value_change trc t.fst_hndl t.old_val] }

/-- The call `update_and_record(m_fst)`. -/
def update_and_record (f : fst_trace_file) (trc : Nat) : fst_trace_file :=
  match f.traces[trc]? with
  | none => f
  | some t => record { f with traces := f.traces.set trc { t with old_val := t.act_val } } trc

/-- The loop of `std::unique` after its first element: an element equal to the last one kept is
dropped. -/
def unique_from (kept : Nat) : List Nat → List Nat
  | [] => []
  | b :: rest => if b = kept then unique_from kept rest else b :: unique_from b rest

/-- The range `std::unique` leaves in front of the iterator it returns: every run of
consecutive equal elements is reduced to its first element. -/
def unique : List Nat → List Nat
  | [] => []
  | a :: rest => a :: unique_from a rest

/-- The function `fst_trace_file::init`; what `scope.writeScopes` makes of a trace (whether it
is an alias, and its handle) is given by `alias_of` and `hndl_of`. -/
def fst_trace_file.init (alias_of : Nat → Bool) (hndl_of : Nat → Nat) (f : fst_trace_file) :
    fst_trace_file :=
  let f := f.all_traces.foldl (fun (f : fst_trace_file) e =>
    match f.traces[e]? with
    | none => f
    | some t => { f with
        traces := f.traces.set e { t with is_alias := alias_of e, fst_hndl := hndl_of e } }) f
  { f with pull_traces := f.pull_traces ++ f.all_traces.filter (fun e =>
      match f.traces[e]? with
      | none => false
      | some t => !(t.is_alias || t.is_triggered)) }

/-- The loop `for(auto e : pull_traces)` of `cycle`. -/
def pull (f : fst_trace_file) : fst_trace_file :=
  f.pull_traces.foldl (fun (f : fst_trace_file) e =>
    match compare_and_update f e with
    | (f, true) => { f with changed_traces := f.changed_traces ++ [e] }
    | (f, false) => f) f

/-- The statement `if(last_emitted_ts < time_stamp) fstWriterEmitTimeChange(m_fst, time_stamp)`
of `cycle`. -/
def emit_time_change (time_stamp : Nat) (f : fst_trace_file) : fst_trace_file :=
  if f.last_emitted_ts < time_stamp
  then { f with emitted := f.emitted ++ [fst_event.time_change time_stamp] } else f

/-- The block `if(triggered_traces.size())` of `cycle`: `std::unique` and `erase`, the loop
that records, and `clear`. -/
def record_triggered (f : fst_trace_file) : fst_trace_file :=
  if f.triggered_traces.length ≠ 0 then
    let f : fst_trace_file := { f with triggered_traces := unique f.triggered_traces }
    let f : fst_trace_file := f.triggered_traces.foldl record f
    { f with triggered_traces := [] }
  else f

/-- The block `if(changed_traces.size())` of `cycle`. -/
def record_changed (f : fst_trace_file) : fst_trace_file :=
  if f.changed_traces.length ≠ 0 then
    let f : fst_trace_file := f.changed_traces.foldl record f
    { f with changed_traces := [] }
  else f

/-- The function `fst_trace_file::cycle`.  The inputs are the argument `delta_cycle`, what
`check_enabled` is (`none` for an empty function, otherwise the value it returns), the time
stamp `sc_time_stamp().value() / (1_ps).value()`, and for the first call what `init` gets
from `writeScopes`. -/
def fst_trace_file.cycle (delta_cycle : Bool) (check_enabled : Option Bool) (time_stamp : Nat)
    (alias_of : Nat → Bool) (hndl_of : Nat → Nat) (f : fst_trace_file) : fst_trace_file :=
  if delta_cycle then f
  else if f.last_emitted_ts = ts_max then
    let f : fst_trace_file := fst_trace_file.init alias_of hndl_of f
    let f : fst_trace_file := { f with emitted := f.emitted ++ [fst_event.time_change time_stamp] }
    let f : fst_trace_file := f.all_traces.foldl (fun (f : fst_trace_file) e =>
      match f.traces[e]? with
      | none => f
      | some t => if !t.is_alias then update_and_record f e else f) f
    { f with last_emitted_ts := time_stamp }
  else
    if check_enabled = some false then f
    else
      let f : fst_trace_file := pull f
      if f.triggered_traces.length ≠ 0 ∨ f.changed_traces.length ≠ 0 then
        { record_changed (record_triggered (emit_time_change time_stamp f)) with
          last_emitted_ts := time_stamp }
      else f

/-- The value changes of trace `trc` among the events `evs`. -/
def records_of (trc : Nat) (evs : List fst_event) : Nat :=
  (evs.filter (fun e =>
    match e with
    | .value_change t _ _ => t = trc
    | .time_change _ => false)).length

/-- A trace file after its first cycle with two traces that are notified (indices 0 and 1),
both holding 0. -/
def twoTraces : fst_trace_file :=
  { traces := [{ is_triggered := true, fst_hndl := 1, old_val := 0, act_val := 0 },
      { is_triggered := true, fst_hndl := 2, old_val := 0, act_val := 0 }]
    all_traces := [0, 1]
    last_emitted_ts := 0 }

/-- The file `twoTraces` after trace 0 changes to 1 and notifies, trace 1 changes to 1 and
notifies, and trace 0 changes to 2 and notifies again. -/
def twoTracesNotified : fst_trace_file :=
  let f := (notify (twoTraces.set_value 0 1) 0).1
  let f := (notify (f.set_value 1 1) 1).1
  (notify (f.set_value 0 2) 0).1


/-- A store `*s = c` through a pointer at offset `i` of the vector `rawdata`; it is defined
only inside the vector. -/
def store (rawdata : List Nat) (i : Nat) (c : Nat) : Option (List Nat) :=
  if i < rawdata.length then some (rawdata.set i c) else none

/-- The character `'0' + ((old_val >> (8 * sizeof(T) - i - 1)) & 1)` of the generic `record`,
`old_val` being the value of the integral member. -/
def bit_char (sizeof_T : Nat) (old_val : Int) (i : Nat) : Nat :=
  48 + (Int.land (Int.shiftRight old_val (8 * sizeof_T - i - 1)) 1).toNat

/-- The loop `for(size_t i = 0; i < 8 * sizeof(T); ++i) *s++ = …` of the generic `record`
from index `i` on, `n` iterations being left. -/
def record_loop (sizeof_T : Nat) (old_val : Int) : Nat → Nat → List Nat → Option (List Nat)
  | 0, _, rawdata => some rawdata
  | n + 1, i, rawdata =>
    match store rawdata i (bit_char sizeof_T old_val i) with
    | none => none
    | some rawdata => record_loop sizeof_T old_val n (i + 1) rawdata

/-- The generic `fst_trace_t<T, OT>::record` up to the call of the writer: the loop and the
store `*s = 0`.  The result is the vector `rawdata` the writer is given, `none` when a store
falls outside of it. -/
def fst_trace_t.record (sizeof_T : Nat) (old_val : Int) (rawdata : List Nat) :
    Option (List Nat) :=
  match record_loop sizeof_T old_val (8 * sizeof_T) 0 rawdata with
  | none => none
  | some rawdata => store rawdata (8 * sizeof_T) 0

/-- The string a reader of `&rawdata[0]` sees: the characters before the first NUL. -/
def c_str (rawdata : List Nat) : List Nat :=
  rawdata.takeWhile (fun c => c != 0)
end scc

namespace axi

/-! ## Theorems

### Byte lanes of a bus word -/

theorem getLane_lt (d i : Nat) : getLane d i < 256 := Nat.mod_lt _ (by decide)

theorem getLane_zero (i : Nat) : getLane 0 i = 0 := by simp [getLane]

/-- A word split at lane `i`: high part, the lane, low part. -/
theorem word_split (d i : Nat) :
    d = (d / 2 ^ (8 * i) / 256) * (256 * 2 ^ (8 * i)) + getLane d i * 2 ^ (8 * i) + d % 2 ^ (8 * i) := by
  unfold getLane
  have h1 := Nat.div_add_mod d (2 ^ (8 * i))
  have h2 := Nat.div_add_mod (d / 2 ^ (8 * i)) 256
  generalize 2 ^ (8 * i) = P at *
  generalize d / P = a at *
  generalize d % P = r at *
  generalize a / 256 = q at *
  generalize a % 256 = l at *
  subst h1 h2
  ring

theorem setLane_eq (d i : Nat) (v : Byte) :
    setLane d i v = (d / 2 ^ (8 * i) / 256) * (256 * 2 ^ (8 * i)) + v.val * 2 ^ (8 * i) + d % 2 ^ (8 * i) := by
  unfold setLane
  have h := word_split d i
  omega

theorem getLane_of_split (q r v i j : Nat) (hv : v < 256) (hr : r < 2 ^ (8 * i)) :
    getLane (q * (256 * 2 ^ (8 * i)) + v * 2 ^ (8 * i) + r) j =
      if j = i then v else if j < i then getLane r j else getLane q (j - i - 1) := by
  have hP : 0 < 2 ^ (8 * i) := Nat.pos_pow_of_pos _ (by decide)
  unfold getLane
  rcases Nat.lt_trichotomy j i with hlt | heq | hgt
  · -- low lane
    simp only [if_neg (Nat.ne_of_lt hlt), if_pos hlt]
    obtain ⟨e, rfl⟩ : ∃ e, i = j + 1 + e := ⟨i - j - 1, by omega⟩
    have : q * (256 * 2 ^ (8 * (j + 1 + e))) + v * 2 ^ (8 * (j + 1 + e)) + r
        = r + 2 ^ (8 * j) * (256 * ((q * 256 + v) * 2 ^ (8 * e))) := by
      have : 2 ^ (8 * (j + 1 + e)) = 2 ^ (8 * j) * (256 * 2 ^ (8 * e)) := by
        rw [show 8 * (j + 1 + e) = 8 * j + (8 + 8 * e) by ring, pow_add, pow_add]; norm_num
      rw [this]; ring
    rw [this, Nat.add_mul_div_left _ _ (Nat.pos_pow_of_pos _ (by decide)), Nat.add_mul_mod_self_left]
  · subst heq
    simp only [if_pos]
    have : q * (256 * 2 ^ (8 * j)) + v * 2 ^ (8 * j) + r = r + 2 ^ (8 * j) * (v + 256 * q) := by ring
    rw [this, Nat.add_mul_div_left _ _ hP, Nat.div_eq_of_lt hr, Nat.zero_add, Nat.add_mul_mod_self_left,
      Nat.mod_eq_of_lt hv]
  · have hne : ¬ j = i := by omega
    have hnl : ¬ j < i := by omega
    simp only [if_neg hne, if_neg hnl]
    obtain ⟨e, rfl⟩ : ∃ e, j = i + 1 + e := ⟨j - i - 1, by omega⟩
    have he : i + 1 + e - i - 1 = e := by omega
    rw [he]
    have h2 : 2 ^ (8 * (i + 1 + e)) = (256 * 2 ^ (8 * i)) * 2 ^ (8 * e) := by
      rw [show 8 * (i + 1 + e) = 8 + 8 * i + 8 * e by ring, pow_add, pow_add]; norm_num
    have hlow : v * 2 ^ (8 * i) + r < 256 * 2 ^ (8 * i) := by nlinarith
    rw [h2, ← Nat.div_div_eq_div_mul]
    have : q * (256 * 2 ^ (8 * i)) + v * 2 ^ (8 * i) + r
        = (v * 2 ^ (8 * i) + r) + (256 * 2 ^ (8 * i)) * q := by ring
    rw [this, Nat.add_mul_div_left _ _ (by positivity), Nat.div_eq_of_lt hlow, Nat.zero_add]

theorem getLane_setLane (d i : Nat) (v : Byte) (j : Nat) :
    getLane (setLane d i v) j = if j = i then v.val else getLane d j := by
  rw [setLane_eq, getLane_of_split _ _ _ _ _ v.isLt (Nat.mod_lt _ (Nat.pos_pow_of_pos _ (by decide)))]
  by_cases h : j = i
  · simp [h]
  · simp only [if_neg h]
    conv_rhs => rw [word_split d i, getLane_of_split _ _ _ _ _ (getLane_lt d i) (Nat.mod_lt _ (Nat.pos_pow_of_pos _ (by decide)))]
    simp only [if_neg h]

/-! ### Loops as folds -/

theorem forIdx_true (n i : Nat) : forIdx (fun _ => true) n i = List.range' i n := by
  induction n generalizing i with
  | zero => rfl
  | succ n ih => simp [forIdx, ih, List.range']

theorem forIdx_run (cond : Nat → Bool) (n i : Nat) :
    ∃ m, m ≤ n ∧ forIdx cond n i = List.range' i m ∧
      (∀ j, i ≤ j → j < i + m → cond j = true) ∧ (m < n → cond (i + m) = false) := by
  induction n generalizing i with
  | zero => exact ⟨0, le_refl _, rfl, fun j h1 h2 => by omega, fun h => by omega⟩
  | succ n ih =>
    by_cases hc : cond i = true
    · obtain ⟨m, hm, he, hall, hstop⟩ := ih (i + 1)
      refine ⟨m + 1, by omega, ?_, ?_, ?_⟩
      · simp [forIdx, hc, he, List.range']
      · intro j h1 h2
        by_cases hj : j = i
        · subst hj; exact hc
        · exact hall j (by omega) (by omega)
      · intro h
        have := hstop (by omega)
        rwa [show i + (m + 1) = i + 1 + m by omega]
    · refine ⟨0, by omega, ?_, fun j h1 h2 => by omega, fun _ => by simpa using hc⟩
      simp [forIdx, hc]

theorem read_eq_fold (cfg : CFG) (h : fsm_handle) :
    get_read_data_for_beat cfg h =
      (beat_copies cfg h).foldl (fun d c => setLane d c.2 (h.trans.data c.1)) 0 := by
  unfold get_read_data_for_beat beat_copies
  simp only []
  split
  · split <;> simp [List.foldl_map]
  · simp [List.foldl_map]

theorem pack_eq_fold (cfg : CFG) (h : fsm_handle) (w strb : Nat) :
    wdata_pack cfg h w strb =
      (beat_copies cfg h).foldl (fun h' c => wdata_store w strb h' c.1 c.2) h := by
  unfold wdata_pack beat_copies
  simp only []
  split
  · split <;> simp [List.foldl_map]
  · simp [List.foldl_map]

/-! ### Folding the loop bodies over a list of copies -/

theorem fold_setLane_other (buf : Buffer) (L : List (Nat × Nat)) (d0 j : Nat)
    (hj : ∀ c ∈ L, c.2 ≠ j) :
    getLane (L.foldl (fun d c => setLane d c.2 (buf c.1)) d0) j = getLane d0 j := by
  induction L generalizing d0 with
  | nil => rfl
  | cons c L ih =>
    simp only [List.foldl_cons]
    rw [ih _ (fun c' hc' => hj c' (List.mem_cons_of_mem _ hc')), getLane_setLane]
    have := hj c (List.mem_cons_self _ _)
    simp [Ne.symm this]

theorem fold_setLane_mem (buf : Buffer) (L : List (Nat × Nat)) (d0 p l : Nat)
    (hnd : (L.map Prod.snd).Nodup) (hm : (p, l) ∈ L) :
    getLane (L.foldl (fun d c => setLane d c.2 (buf c.1)) d0) l = (buf p).val := by
  induction L generalizing d0 with
  | nil => cases hm
  | cons c L ih =>
    simp only [List.map_cons, List.nodup_cons] at hnd
    simp only [List.foldl_cons]
    rcases List.mem_cons.1 hm with rfl | hm'
    · rw [fold_setLane_other, getLane_setLane]
      · simp
      · intro c' hc' heq
        exact hnd.1 (List.mem_map.2 ⟨c', hc', heq⟩)
    · exact ih _ hnd.2 hm'

theorem wdata_store_frame (w strb : Nat) (h : fsm_handle) (p l : Nat) :
    (wdata_store w strb h p l).beat_count = h.beat_count ∧
    (wdata_store w strb h p l).trans.address = h.trans.address ∧
    (wdata_store w strb h p l).trans.command = h.trans.command ∧
    (wdata_store w strb h p l).trans.data_length = h.trans.data_length ∧
    (wdata_store w strb h p l).trans.byte_enable_length = h.trans.byte_enable_length ∧
    (wdata_store w strb h p l).trans.streaming_width = h.trans.streaming_width ∧
    (wdata_store w strb h p l).trans.ext = h.trans.ext :=
  ⟨rfl, rfl, rfl, rfl, rfl, rfl, rfl⟩

theorem fold_store_frame (w strb : Nat) (L : List (Nat × Nat)) (h : fsm_handle) :
    (L.foldl (fun h' c => wdata_store w strb h' c.1 c.2) h).beat_count = h.beat_count ∧
    (L.foldl (fun h' c => wdata_store w strb h' c.1 c.2) h).trans.address = h.trans.address ∧
    (L.foldl (fun h' c => wdata_store w strb h' c.1 c.2) h).trans.command = h.trans.command ∧
    (L.foldl (fun h' c => wdata_store w strb h' c.1 c.2) h).trans.data_length
      = h.trans.data_length ∧
    (L.foldl (fun h' c => wdata_store w strb h' c.1 c.2) h).trans.byte_enable_length
      = h.trans.byte_enable_length ∧
    (L.foldl (fun h' c => wdata_store w strb h' c.1 c.2) h).trans.streaming_width
      = h.trans.streaming_width ∧
    (L.foldl (fun h' c => wdata_store w strb h' c.1 c.2) h).trans.ext = h.trans.ext := by
  induction L generalizing h with
  | nil => exact ⟨rfl, rfl, rfl, rfl, rfl, rfl, rfl⟩
  | cons c L ih =>
    simp only [List.foldl_cons]
    obtain ⟨a1, a2, a3, a4, a5, a6, a7⟩ := ih (wdata_store w strb h c.1 c.2)
    exact ⟨a1, a2, a3, a4, a5, a6, a7⟩

theorem fold_store_other (w strb : Nat) (L : List (Nat × Nat)) (h : fsm_handle) (p : Nat)
    (hp : ∀ c ∈ L, c.1 ≠ p) :
    (L.foldl (fun h' c => wdata_store w strb h' c.1 c.2) h).trans.data p = h.trans.data p ∧
    (L.foldl (fun h' c => wdata_store w strb h' c.1 c.2) h).trans.byte_enable p
      = h.trans.byte_enable p := by
  induction L generalizing h with
  | nil => exact ⟨rfl, rfl⟩
  | cons c L ih =>
    simp only [List.foldl_cons]
    have hc := hp c (List.mem_cons_self _ _)
    obtain ⟨e1, e2⟩ := ih (wdata_store w strb h c.1 c.2)
      (fun c' hc' => hp c' (List.mem_cons_of_mem _ hc'))
    rw [e1, e2]
    simp [wdata_store, Buffer.write, Ne.symm hc]

theorem fold_store_mem (w strb : Nat) (L : List (Nat × Nat)) (h : fsm_handle) (p l : Nat)
    (hnd : (L.map Prod.fst).Nodup) (hm : (p, l) ∈ L) :
    (L.foldl (fun h' c => wdata_store w strb h' c.1 c.2) h).trans.data p = laneByte w l ∧
    (L.foldl (fun h' c => wdata_store w strb h' c.1 c.2) h).trans.byte_enable p
      = (if strb.testBit l then 0xff else 0) := by
  induction L generalizing h with
  | nil => cases hm
  | cons c L ih =>
    simp only [List.map_cons, List.nodup_cons] at hnd
    simp only [List.foldl_cons]
    rcases List.mem_cons.1 hm with rfl | hm'
    · obtain ⟨e1, e2⟩ := fold_store_other w strb L (wdata_store w strb h p l) p
        (fun c' hc' heq => hnd.1 (List.mem_map.2 ⟨c', hc', heq⟩))
      rw [e1, e2]
      simp [wdata_store, Buffer.write]
    · exact ih _ hnd.2 hm'

theorem fold_store_acc (w strb : Nat) (L : List (Nat × Nat)) (h : fsm_handle)
    (hacc : h.aux_i32_i0 < 2 ^ 32) :
    (L.foldl (fun h' c => wdata_store w strb h' c.1 c.2) h).aux_i32_i0
      = (h.aux_i32_i0 + (L.filter (fun c => strb.testBit c.2)).length) % 2 ^ 32 := by
  induction L generalizing h with
  | nil => simpa using (Nat.mod_eq_of_lt hacc).symm
  | cons c L ih =>
    simp only [List.foldl_cons]
    rw [ih (wdata_store w strb h c.1 c.2) (Nat.mod_lt _ (by decide))]
    by_cases hb : strb.testBit c.2 = true
    · simp [wdata_store, hb, List.filter_cons]
      omega
    · simp [wdata_store, hb, List.filter_cons]

/-! ### Shape of the copies of one beat -/

theorem copies_eq_aligned (cfg : CFG) (h : fsm_handle) (hu : unaligned_multi_beat cfg h = false) :
    beat_copies cfg h = (List.range' 0 (get_burst_size h.trans)).map
      (fun i => (beat_byte_offset h + i, beat_offset cfg h + i)) := by
  unfold beat_copies
  simp [hu, forIdx_true]

theorem copies_eq_first (cfg : CFG) (h : fsm_handle) (hu : unaligned_multi_beat cfg h = true)
    (hb : h.beat_count = 0) :
    beat_copies cfg h = (List.range' (beat_offset cfg h)
      (get_burst_size h.trans - beat_offset cfg h)).map (fun i => (i - beat_offset cfg h, i)) := by
  unfold beat_copies
  simp [hu, hb, forIdx_true]

theorem copies_eq_later (cfg : CFG) (h : fsm_handle) (hu : unaligned_multi_beat cfg h = true)
    (hb : h.beat_count ≠ 0) :
    ∃ m, m ≤ get_burst_size h.trans ∧
      beat_copies cfg h = (List.range' 0 m).map (fun i => ((beat_start_idx cfg h + i) % 2 ^ 64, i)) ∧
      (∀ i, i < m → (beat_start_idx cfg h + i) % 2 ^ 64 < h.trans.data_length) ∧
      (m < get_burst_size h.trans →
        ¬ (beat_start_idx cfg h + m) % 2 ^ 64 < h.trans.data_length) := by
  obtain ⟨m, hm, he, hall, hstop⟩ := forIdx_run
    (fun i => decide ((beat_start_idx cfg h + i) % 2 ^ 64 < h.trans.data_length))
    (get_burst_size h.trans) 0
  refine ⟨m, hm, ?_, ?_, ?_⟩
  · unfold beat_copies
    simp only [hu, if_true, if_neg hb, he]
  · intro i hi
    have := hall i (Nat.zero_le _) (by omega)
    simpa using this
  · intro hlt
    have := hstop hlt
    simpa using this

theorem copies_lanes_nodup (cfg : CFG) (h : fsm_handle) :
    ((beat_copies cfg h).map Prod.snd).Nodup := by
  by_cases hu : unaligned_multi_beat cfg h = true
  · by_cases hb : h.beat_count = 0
    · rw [copies_eq_first cfg h hu hb, List.map_map]
      exact (List.nodup_range' _ _).map_on (fun x _ y _ hxy => hxy)
    · obtain ⟨m, _, he, _, _⟩ := copies_eq_later cfg h hu hb
      rw [he, List.map_map]
      exact (List.nodup_range' _ _).map_on (fun x _ y _ hxy => hxy)
  · rw [copies_eq_aligned cfg h (by simpa using hu), List.map_map]
    exact (List.nodup_range' _ _).map_on (fun x _ y _ hxy => by simpa using hxy)

theorem copies_cells_nodup (cfg : CFG) (h : fsm_handle) (hs : get_burst_size h.trans ≤ 2 ^ 64) :
    ((beat_copies cfg h).map Prod.fst).Nodup := by
  by_cases hu : unaligned_multi_beat cfg h = true
  · by_cases hb : h.beat_count = 0
    · rw [copies_eq_first cfg h hu hb, List.map_map]
      refine (List.nodup_range' _ _).map_on (fun x hx y hy hxy => ?_)
      simp only [List.mem_range'_1] at hx hy
      simp only [Function.comp] at hxy
      omega
    · obtain ⟨m, hm, he, _, _⟩ := copies_eq_later cfg h hu hb
      rw [he, List.map_map]
      refine (List.nodup_range' _ _).map_on (fun x hx y hy hxy => ?_)
      simp only [List.mem_range'_1] at hx hy
      simp only [Function.comp] at hxy
      have h64 : (2 : Nat) ^ 64 = 18446744073709551616 := by norm_num
      rw [h64] at hxy hs
      omega
  · rw [copies_eq_aligned cfg h (by simpa using hu), List.map_map]
    exact (List.nodup_range' _ _).map_on (fun x _ y _ hxy => by simpa using hxy)

theorem beat_copies_congr (cfg : CFG) (h h' : fsm_handle)
    (hb : h'.beat_count = h.beat_count) (ha : h'.trans.address = h.trans.address)
    (hl : h'.trans.data_length = h.trans.data_length) (he : h'.trans.ext = h.trans.ext) :
    beat_copies cfg h' = beat_copies cfg h := by
  unfold beat_copies unaligned_multi_beat beat_start_idx beat_offset beat_byte_offset
    get_burst_size
  rw [hb, ha, hl, he]

theorem pack_copies (cfg : CFG) (h : fsm_handle) (w strb : Nat) :
    beat_copies cfg (wdata_pack cfg h w strb) = beat_copies cfg h := by
  rw [pack_eq_fold]
  obtain ⟨a1, a2, _, a4, _, _, a7⟩ := fold_store_frame w strb (beat_copies cfg h) h
  exact beat_copies_congr cfg h _ a1 a2 a4 a7

/-! ### The beat packers -/

theorem beat_offset_eq_mod (cfg : CFG) (h : fsm_handle) (k : Nat) (hW : cfg.BUSWIDTH / 8 = 2 ^ k)
    (hk : k ≤ 64) :
    beat_offset cfg h = (h.trans.address + beat_byte_offset h) % (cfg.BUSWIDTH / 8) := by
  unfold beat_offset
  rw [hW, Nat.and_pow_two_sub_one_eq_mod, Nat.mod_mod_of_dvd _ (Nat.pow_dvd_pow 2 hk)]

/-- C1: for a power-of-two bus width `W = BUSWIDTH / 8`, with `byte_offset = beat_count * size`
(the 32-bit product the code computes, equal to the product itself whenever that fits 32 bits)
and `offset = (address + byte_offset) mod W`: when `offset = 0` or `size + offset <= W`, the
word returned by `get_read_data_for_beat` carries data byte `byte_offset + i` on lane
`offset + i` for every `i < size`, and every other lane is 0. -/
theorem read_beat_single_window (cfg : CFG) (fsm_hndl : fsm_handle) (k : Nat)
    (hW : cfg.BUSWIDTH / 8 = 2 ^ k) (hk : k ≤ 64)
    (hbr : (fsm_hndl.trans.address + beat_byte_offset fsm_hndl) % (cfg.BUSWIDTH / 8) = 0 ∨
      get_burst_size fsm_hndl.trans
        + (fsm_hndl.trans.address + beat_byte_offset fsm_hndl) % (cfg.BUSWIDTH / 8)
        ≤ cfg.BUSWIDTH / 8) :
    (fsm_hndl.beat_count * get_burst_size fsm_hndl.trans < 2 ^ 32 →
      beat_byte_offset fsm_hndl = fsm_hndl.beat_count * get_burst_size fsm_hndl.trans) ∧
    (∀ i, i < get_burst_size fsm_hndl.trans →
      getLane (get_read_data_for_beat cfg fsm_hndl)
          ((fsm_hndl.trans.address + beat_byte_offset fsm_hndl) % (cfg.BUSWIDTH / 8) + i)
        = (fsm_hndl.trans.data (beat_byte_offset fsm_hndl + i)).val) ∧
    (∀ j, ¬ ((fsm_hndl.trans.address + beat_byte_offset fsm_hndl) % (cfg.BUSWIDTH / 8) ≤ j ∧
          j < (fsm_hndl.trans.address + beat_byte_offset fsm_hndl) % (cfg.BUSWIDTH / 8)
            + get_burst_size fsm_hndl.trans) →
      getLane (get_read_data_for_beat cfg fsm_hndl) j = 0) := by
  have hoff := beat_offset_eq_mod cfg fsm_hndl k hW hk
  rw [← hoff] at hbr ⊢
  have hu : unaligned_multi_beat cfg fsm_hndl = false := by
    unfold unaligned_multi_beat
    rcases hbr with h0 | hle
    · simp [h0]
    · simp only [Bool.and_eq_false_imp, decide_eq_true_eq, decide_eq_false_iff_not]
      intro _; omega
  rw [read_eq_fold, copies_eq_aligned cfg fsm_hndl hu]
  refine ⟨fun hlt => Nat.mod_eq_of_lt hlt, ?_, ?_⟩
  · intro i hi
    refine fold_setLane_mem _ _ _ _ _ ?_ ?_
    · rw [← copies_eq_aligned cfg fsm_hndl hu]; exact copies_lanes_nodup cfg fsm_hndl
    · exact List.mem_map.2 ⟨i, by simp [List.mem_range'_1, hi], rfl⟩
  · intro j hj
    rw [fold_setLane_other, getLane_zero]
    intro c hc heq
    obtain ⟨i, hi, rfl⟩ := List.mem_map.1 hc
    simp only [List.mem_range'_1] at hi
    exact hj ⟨by simp only at heq; omega, by simp only at heq; omega⟩

/-- Witness of C1: 64-bit bus (`W = 8`), beat size 4, address `0x103`, beat 0: lanes 3..6
carry buffer bytes 0..3 (here 0, 1, 2, 3) and lanes 0 and 7 are 0. -/
theorem read_beat_single_window_witness :
    getLane (get_read_data_for_beat ⟨64, 0⟩
      (sampleHandle .TLM_READ_COMMAND 0x103 2 0 0 0 rampBuffer rampBuffer)) 3 = 0 ∧
    getLane (get_read_data_for_beat ⟨64, 0⟩
      (sampleHandle .TLM_READ_COMMAND 0x103 2 0 0 0 rampBuffer rampBuffer)) 4 = 1 ∧
    getLane (get_read_data_for_beat ⟨64, 0⟩
      (sampleHandle .TLM_READ_COMMAND 0x103 2 0 0 0 rampBuffer rampBuffer)) 5 = 2 ∧
    getLane (get_read_data_for_beat ⟨64, 0⟩
      (sampleHandle .TLM_READ_COMMAND 0x103 2 0 0 0 rampBuffer rampBuffer)) 6 = 3 ∧
    getLane (get_read_data_for_beat ⟨64, 0⟩
      (sampleHandle .TLM_READ_COMMAND 0x103 2 0 0 0 rampBuffer rampBuffer)) 0 = 0 ∧
    getLane (get_read_data_for_beat ⟨64, 0⟩
      (sampleHandle .TLM_READ_COMMAND 0x103 2 0 0 0 rampBuffer rampBuffer)) 7 = 0 :=
  have key := read_beat_single_window ⟨64, 0⟩
    (sampleHandle .TLM_READ_COMMAND 0x103 2 0 0 0 rampBuffer rampBuffer) 3 (by decide) (by decide)
    (Or.inr (by decide))
  ⟨key.2.1 0 (by decide), key.2.1 1 (by decide), key.2.1 2 (by decide), key.2.1 3 (by decide),
    key.2.2 0 (by decide), key.2.2 7 (by decide)⟩

/-- C3: round trip of one beat.  With the beat size an `unsigned` value, after the write packer
has stored word `w` under strobe `strb`, `get_read_data_for_beat` on the resulting handle (same
transaction, same beat index) returns a word equal to `w` on every lane the beat copies whose
byte-enable entry the beat set to `0xff`. -/
theorem write_read_round_trip (cfg : CFG) (fsm_hndl : fsm_handle) (w strb : Nat)
    (hs : get_burst_size fsm_hndl.trans < 2 ^ 32) :
    ∀ c ∈ beat_copies cfg fsm_hndl,
      (wdata_pack cfg fsm_hndl w strb).trans.byte_enable c.1 = 0xff →
      getLane (get_read_data_for_beat cfg (wdata_pack cfg fsm_hndl w strb)) c.2 = getLane w c.2 := by
  intro c hc _
  have hs' : get_burst_size fsm_hndl.trans ≤ 2 ^ 64 := by
    have : (2 : Nat) ^ 32 ≤ 2 ^ 64 := by norm_num
    omega
  rw [read_eq_fold, pack_copies,
    fold_setLane_mem _ _ _ c.1 c.2 (copies_lanes_nodup cfg fsm_hndl) hc, pack_eq_fold,
    (fold_store_mem w strb _ fsm_hndl c.1 c.2 (copies_cells_nodup cfg fsm_hndl hs') hc).1]
  rfl

/-- Witness of C3: 32-bit bus, beat size 4, address 1, beat 1 of 2 (an un-aligned beat): cell 3
takes lane 0, its byte-enable entry is set to `0xff`, and lane 0 reads back as `0x55`. -/
theorem write_read_round_trip_witness :
    (3, 0) ∈ beat_copies ⟨32, 0⟩
      (sampleHandle .TLM_WRITE_COMMAND 1 2 1 1 3 (constBuffer 0) (constBuffer 0)) ∧
    (wdata_pack ⟨32, 0⟩ (sampleHandle .TLM_WRITE_COMMAND 1 2 1 1 3 (constBuffer 0) (constBuffer 0))
      0x88776655 0xf).trans.byte_enable 3 = 0xff ∧
    getLane (get_read_data_for_beat ⟨32, 0⟩
      (wdata_pack ⟨32, 0⟩ (sampleHandle .TLM_WRITE_COMMAND 1 2 1 1 3 (constBuffer 0) (constBuffer 0))
        0x88776655 0xf)) 0 = 0x55 :=
  ⟨by decide, by decide,
    write_read_round_trip ⟨32, 0⟩
      (sampleHandle .TLM_WRITE_COMMAND 1 2 1 1 3 (constBuffer 0) (constBuffer 0)) 0x88776655 0xf
      (by decide) (3, 0) (by decide) (by decide)⟩

/-- Counterexample to C4: 32-bit bus, beat size 4, address 0, beat 0, every cell `0x55` before
the beat, strobe 0 (no bit set): cell 0 is in the beat's range, strobe bit 0 is clear, and yet
cell 0 of the data buffer changes to lane 0 of the bus word. -/
theorem strobe_clear_data_overwritten :
    (0, 0) ∈ beat_copies ⟨32, 0⟩
      (sampleHandle .TLM_WRITE_COMMAND 0 2 0 0 0 (constBuffer 0x55) (constBuffer 0)) ∧
    Nat.testBit 0 0 = false ∧
    (sampleHandle .TLM_WRITE_COMMAND 0 2 0 0 0 (constBuffer 0x55) (constBuffer 0)).trans.data 0
      = 0x55 ∧
    (wdata_pack ⟨32, 0⟩
      (sampleHandle .TLM_WRITE_COMMAND 0 2 0 0 0 (constBuffer 0x55) (constBuffer 0))
      0x44332211 0).trans.data 0 = 0x11 := by
  decide

/-- C4 (amended): for every write beat, with beat size and accumulator in their 32-bit range,
every data cell in the beat's range takes the byte of the bus lane copied into it whether or
not the strobe bit of that lane is set, every data cell outside the range keeps its value, and
the accumulator grows (in 32-bit arithmetic) by the number of copied lanes whose strobe bit is
set, so a lane with a clear strobe bit never increments it. -/
theorem write_beat_data_unconditional (cfg : CFG) (fsm_hndl : fsm_handle) (w strb : Nat)
    (hs : get_burst_size fsm_hndl.trans < 2 ^ 32) (hacc : fsm_hndl.aux_i32_i0 < 2 ^ 32) :
    (∀ c ∈ beat_copies cfg fsm_hndl,
      (wdata_pack cfg fsm_hndl w strb).trans.data c.1 = laneByte w c.2) ∧
    (∀ p, p ∉ (beat_copies cfg fsm_hndl).map Prod.fst →
      (wdata_pack cfg fsm_hndl w strb).trans.data p = fsm_hndl.trans.data p) ∧
    (wdata_pack cfg fsm_hndl w strb).aux_i32_i0
      = (fsm_hndl.aux_i32_i0
          + ((beat_copies cfg fsm_hndl).filter (fun c => strb.testBit c.2)).length) % 2 ^ 32 := by
  have hs' : get_burst_size fsm_hndl.trans ≤ 2 ^ 64 := by
    have : (2 : Nat) ^ 32 ≤ 2 ^ 64 := by norm_num
    omega
  rw [pack_eq_fold]
  refine ⟨fun c hc => ?_, fun p hp => ?_, fold_store_acc w strb _ fsm_hndl hacc⟩
  · exact (fold_store_mem w strb _ fsm_hndl c.1 c.2 (copies_cells_nodup cfg fsm_hndl hs') hc).1
  · exact (fold_store_other w strb _ fsm_hndl p
      (fun c hc heq => hp (List.mem_map.2 ⟨c, hc, heq⟩))).1

/-- Witness of C4 (amended): 32-bit bus, beat size 4, address 0, beat 0, strobe `0b0101`. -/
theorem write_beat_data_unconditional_witness :
    (wdata_pack ⟨32, 0⟩
      (sampleHandle .TLM_WRITE_COMMAND 0 2 0 0 0 (constBuffer 0x55) (constBuffer 0))
      0x44332211 5).trans.data 1 = 0x22 ∧
    (wdata_pack ⟨32, 0⟩
      (sampleHandle .TLM_WRITE_COMMAND 0 2 0 0 0 (constBuffer 0x55) (constBuffer 0))
      0x44332211 5).trans.data 4 = 0x55 ∧
    (wdata_pack ⟨32, 0⟩
      (sampleHandle .TLM_WRITE_COMMAND 0 2 0 0 0 (constBuffer 0x55) (constBuffer 0))
      0x44332211 5).aux_i32_i0 = 2 :=
  have key := write_beat_data_unconditional ⟨32, 0⟩
    (sampleHandle .TLM_WRITE_COMMAND 0 2 0 0 0 (constBuffer 0x55) (constBuffer 0)) 0x44332211 5
    (by decide) (by decide)
  ⟨key.1 (1, 1) (by decide), key.2.1 4 (by decide), key.2.2⟩

/-- C5: for every write beat, with beat size and accumulator in their 32-bit range, each
byte-enable entry in the beat's range is `0xff` when the strobe bit of the lane copied into that
position is set and `0x00` otherwise, and the accumulator grows by the number of set strobe bits
among the copied lanes (exactly so when that sum fits 32 bits), contiguous or not. -/
theorem write_beat_byte_enable (cfg : CFG) (fsm_hndl : fsm_handle) (w strb : Nat)
    (hs : get_burst_size fsm_hndl.trans < 2 ^ 32) (hacc : fsm_hndl.aux_i32_i0 < 2 ^ 32) :
    (∀ c ∈ beat_copies cfg fsm_hndl,
      (wdata_pack cfg fsm_hndl w strb).trans.byte_enable c.1
        = if strb.testBit c.2 then 0xff else 0x00) ∧
    (wdata_pack cfg fsm_hndl w strb).aux_i32_i0
      = (fsm_hndl.aux_i32_i0
          + ((beat_copies cfg fsm_hndl).filter (fun c => strb.testBit c.2)).length) % 2 ^ 32 ∧
    (fsm_hndl.aux_i32_i0
        + ((beat_copies cfg fsm_hndl).filter (fun c => strb.testBit c.2)).length < 2 ^ 32 →
      (wdata_pack cfg fsm_hndl w strb).aux_i32_i0
        = fsm_hndl.aux_i32_i0
          + ((beat_copies cfg fsm_hndl).filter (fun c => strb.testBit c.2)).length) := by
  have hs' : get_burst_size fsm_hndl.trans ≤ 2 ^ 64 := by
    have : (2 : Nat) ^ 32 ≤ 2 ^ 64 := by norm_num
    omega
  rw [pack_eq_fold]
  refine ⟨fun c hc => ?_, fold_store_acc w strb _ fsm_hndl hacc, fun hlt => ?_⟩
  · exact (fold_store_mem w strb _ fsm_hndl c.1 c.2 (copies_cells_nodup cfg fsm_hndl hs') hc).2
  · rw [fold_store_acc w strb _ fsm_hndl hacc, Nat.mod_eq_of_lt hlt]

/-- Witness of C5: 32-bit bus, beat size 4, address 0, beat 0, scattered strobe `0b0101`:
entries 0 and 2 become `0xff`, entry 1 becomes `0x00`, the accumulator goes from 0 to 2. -/
theorem write_beat_byte_enable_witness :
    (wdata_pack ⟨32, 0⟩
      (sampleHandle .TLM_WRITE_COMMAND 0 2 0 0 0 (constBuffer 0) (constBuffer 0x55))
      0x44332211 5).trans.byte_enable 0 = 0xff ∧
    (wdata_pack ⟨32, 0⟩
      (sampleHandle .TLM_WRITE_COMMAND 0 2 0 0 0 (constBuffer 0) (constBuffer 0x55))
      0x44332211 5).trans.byte_enable 1 = 0x00 ∧
    (wdata_pack ⟨32, 0⟩
      (sampleHandle .TLM_WRITE_COMMAND 0 2 0 0 0 (constBuffer 0) (constBuffer 0x55))
      0x44332211 5).aux_i32_i0 = 2 :=
  have key := write_beat_byte_enable ⟨32, 0⟩
    (sampleHandle .TLM_WRITE_COMMAND 0 2 0 0 0 (constBuffer 0) (constBuffer 0x55)) 0x44332211 5
    (by decide) (by decide)
  ⟨key.1 (0, 0) (by decide), key.1 (1, 1) (by decide), key.2.2 (by decide)⟩

theorem pack_writes_only_cells (cfg : CFG) (h : fsm_handle) (b : Nat) (w strb p : Nat)
    (hp : p ∉ wdata_cells cfg h b) :
    (wdata_pack cfg (at_beat h b) w strb).trans.data p = h.trans.data p ∧
    (wdata_pack cfg (at_beat h b) w strb).trans.byte_enable p = h.trans.byte_enable p := by
  rw [pack_eq_fold]
  exact fold_store_other w strb _ (at_beat h b) p
    (fun c hc heq => hp (List.mem_map.2 ⟨c, hc, heq⟩))

theorem mul_add_le_of_lt {a b : Nat} (hab : a < b) (s : Nat) : a * s + s ≤ b * s := by
  have := Nat.mul_le_mul_right s (Nat.succ_le_of_lt hab)
  rwa [Nat.succ_mul] at this

theorem cells_interval (cfg : CFG) (h : fsm_handle) (k N b : Nat)
    (hW : cfg.BUSWIDTH / 8 = 2 ^ k) (hk : k ≤ 64)
    (hsW : get_burst_size h.trans ≤ cfg.BUSWIDTH / 8)
    (hcase : get_burst_size h.trans = cfg.BUSWIDTH / 8 ∨
      h.trans.address % get_burst_size h.trans = 0)
    (hlen : h.trans.data_length = N * get_burst_size h.trans)
    (hN : N * get_burst_size h.trans < 2 ^ 32) (hb : b < N) (p : Nat) :
    p ∈ wdata_cells cfg h b ↔
      (if b = 0 then 0 else b * get_burst_size h.trans - h.trans.address % get_burst_size h.trans)
          ≤ p ∧
        p < b * get_burst_size h.trans + get_burst_size h.trans
            - h.trans.address % get_burst_size h.trans := by
  have hspos : 0 < get_burst_size h.trans := Nat.pos_pow_of_pos _ (by decide)
  have hgs : get_burst_size (at_beat h b).trans = get_burst_size h.trans := rfl
  have hbs : b * get_burst_size h.trans + get_burst_size h.trans ≤ N * get_burst_size h.trans :=
    mul_add_le_of_lt hb _
  have hbo : beat_byte_offset (at_beat h b) = b * get_burst_size h.trans := by
    unfold beat_byte_offset
    rw [hgs]
    exact Nat.mod_eq_of_lt (by show b * get_burst_size h.trans < 2 ^ 32; omega)
  have hoff : beat_offset cfg (at_beat h b)
      = (h.trans.address + b * get_burst_size h.trans) % (cfg.BUSWIDTH / 8) := by
    rw [beat_offset_eq_mod cfg _ k hW hk, hbo]; rfl
  unfold wdata_cells
  by_cases ho : h.trans.address % get_burst_size h.trans = 0
  · -- every beat starts on a multiple of the beat size: the aligned loop
    have hdvdW : get_burst_size h.trans ∣ cfg.BUSWIDTH / 8 := by
      rw [hW]; unfold get_burst_size
      apply Nat.pow_dvd_pow
      have : (2 : Nat) ^ h.trans.ext.size ≤ 2 ^ k := by rw [← hW]; exact hsW
      exact (Nat.pow_le_pow_iff_right (by decide)).1 this
    have hdvdo : get_burst_size h.trans ∣ beat_offset cfg (at_beat h b) := by
      rw [hoff]
      exact (Nat.dvd_mod_iff hdvdW).2
        (dvd_add (Nat.dvd_of_mod_eq_zero ho) (Dvd.intro_left _ rfl))
    have hWpos : 0 < cfg.BUSWIDTH / 8 := by rw [hW]; exact Nat.pos_pow_of_pos _ (by decide)
    have holt : beat_offset cfg (at_beat h b) < cfg.BUSWIDTH / 8 := by
      rw [hoff]; exact Nat.mod_lt _ hWpos
    have hfit : get_burst_size h.trans + beat_offset cfg (at_beat h b) ≤ cfg.BUSWIDTH / 8 := by
      obtain ⟨q, hq⟩ := hdvdo
      obtain ⟨r, hr⟩ := hdvdW
      rw [hq, hr] at holt ⊢
      have hqr : q < r := lt_of_mul_lt_mul_left holt (Nat.zero_le _)
      have := Nat.mul_le_mul_left (get_burst_size h.trans) (Nat.succ_le_of_lt hqr)
      rw [Nat.mul_succ] at this
      omega
    have hu : unaligned_multi_beat cfg (at_beat h b) = false := by
      unfold unaligned_multi_beat
      simp only [Bool.and_eq_false_imp, decide_eq_true_eq, decide_eq_false_iff_not]
      intro _; rw [hgs]; omega
    rw [copies_eq_aligned cfg _ hu, List.map_map, hbo, hgs, ho]
    have hlo : (if b = 0 then 0 else b * get_burst_size h.trans) = b * get_burst_size h.trans := by
      by_cases hb0 : b = 0
      · simp [hb0]
      · simp [hb0]
    simp only [List.mem_map, List.mem_range'_1, Function.comp, Nat.sub_zero, hlo]
    constructor
    · rintro ⟨i, hi, rfl⟩
      omega
    · rintro ⟨h1, h2⟩
      exact ⟨p - b * get_burst_size h.trans, by omega, by omega⟩
  · -- full-width beats of an un-aligned burst
    have hs : get_burst_size h.trans = cfg.BUSWIDTH / 8 := by
      rcases hcase with h1 | h1
      · exact h1
      · exact absurd h1 ho
    have holt : h.trans.address % get_burst_size h.trans < get_burst_size h.trans :=
      Nat.mod_lt _ hspos
    have hoff' : beat_offset cfg (at_beat h b) = h.trans.address % get_burst_size h.trans := by
      rw [hoff, ← hs, Nat.add_mul_mod_self_right]
    have hu : unaligned_multi_beat cfg (at_beat h b) = true := by
      unfold unaligned_multi_beat
      simp only [Bool.and_eq_true, decide_eq_true_eq]
      rw [hoff', hgs, ← hs]
      exact ⟨ho, by omega⟩
    by_cases hb0 : b = 0
    · subst hb0
      rw [copies_eq_first cfg _ hu rfl, List.map_map, hoff', hgs]
      simp only [List.mem_map, List.mem_range'_1, Function.comp, if_true, Nat.zero_mul, Nat.zero_add]
      constructor
      · rintro ⟨i, hi, rfl⟩
        omega
      · rintro ⟨_, h2⟩
        exact ⟨p + h.trans.address % get_burst_size h.trans, by omega, by omega⟩
    · have hbpos : get_burst_size h.trans ≤ b * get_burst_size h.trans :=
        Nat.le_mul_of_pos_left _ (Nat.pos_of_ne_zero hb0)
      have h64 : (2 : Nat) ^ 64 = 18446744073709551616 := by norm_num
      have h32 : (2 : Nat) ^ 32 = 4294967296 := by norm_num
      have hbsi : beat_start_idx cfg (at_beat h b)
          = b * get_burst_size h.trans - h.trans.address % get_burst_size h.trans := by
        unfold beat_start_idx
        rw [hbo, hoff', h64]
        rw [h32] at hN
        omega
      obtain ⟨m, hm, he, _, hstop⟩ := copies_eq_later cfg _ hu hb0
      rw [hgs] at hm
      have hmeq : m = get_burst_size h.trans := by
        by_contra hne
        have hlt : m < get_burst_size h.trans := lt_of_le_of_ne hm hne
        apply hstop (by rw [hgs]; exact hlt)
        rw [hbsi, h64]
        show _ < h.trans.data_length
        rw [hlen]
        rw [h32] at hN
        omega
      rw [he, List.map_map, hbsi, hmeq, if_neg hb0]
      simp only [List.mem_map, List.mem_range'_1, Function.comp]
      rw [h32] at hN
      rw [h64]
      constructor
      · rintro ⟨i, hi, rfl⟩
        omega
      · rintro ⟨h1, h2⟩
        exact ⟨p - (b * get_burst_size h.trans - h.trans.address % get_burst_size h.trans),
          by omega, by omega⟩

/-- Counterexample to C2: 32-bit bus (`W = 4`), beat size 4, start address 1 (not a multiple of
4), two beats, declared data length 8: cell 7 lies in `[0, 2 * 4)` and is written by neither
beat 0 (cells 0..2) nor beat 1 (cells 3..6). -/
theorem unaligned_burst_last_cell_unwritten :
    1 % ((⟨32, 0⟩ : CFG).BUSWIDTH / 8) = 1 ∧
    get_burst_size
      (sampleHandle .TLM_WRITE_COMMAND 1 2 1 0 0 (constBuffer 0) (constBuffer 0)).trans = 4 ∧
    (sampleHandle .TLM_WRITE_COMMAND 1 2 1 0 0 (constBuffer 0) (constBuffer 0)).trans.data_length
      = 2 * 4 ∧
    7 < 2 * 4 ∧
    wdata_cells ⟨32, 0⟩
      (sampleHandle .TLM_WRITE_COMMAND 1 2 1 0 0 (constBuffer 0) (constBuffer 0)) 0 = [0, 1, 2] ∧
    wdata_cells ⟨32, 0⟩
      (sampleHandle .TLM_WRITE_COMMAND 1 2 1 0 0 (constBuffer 0) (constBuffer 0)) 1
      = [3, 4, 5, 6] ∧
    7 ∉ wdata_cells ⟨32, 0⟩
      (sampleHandle .TLM_WRITE_COMMAND 1 2 1 0 0 (constBuffer 0) (constBuffer 0)) 0 ∧
    7 ∉ wdata_cells ⟨32, 0⟩
      (sampleHandle .TLM_WRITE_COMMAND 1 2 1 0 0 (constBuffer 0) (constBuffer 0)) 1 := by
  decide

/-- C2 (amended): for every write burst of `N` beats on a power-of-two bus whose beat size equals
the bus width in bytes or whose start address is a multiple of the beat size, with declared data
length `N * beat_size` (a 32-bit value), the sets of buffer cells written on beats `0..N-1` are
pairwise disjoint and their union is exactly `[0, N * beat_size - address mod beat_size)`: an
un-aligned burst leaves the last `address mod beat_size` cells of the declared length unwritten. -/
theorem write_burst_cells_partition (cfg : CFG) (fsm_hndl : fsm_handle) (k N : Nat)
    (hW : cfg.BUSWIDTH / 8 = 2 ^ k) (hk : k ≤ 64)
    (hsW : get_burst_size fsm_hndl.trans ≤ cfg.BUSWIDTH / 8)
    (hcase : get_burst_size fsm_hndl.trans = cfg.BUSWIDTH / 8 ∨
      fsm_hndl.trans.address % get_burst_size fsm_hndl.trans = 0)
    (hlen : fsm_hndl.trans.data_length = N * get_burst_size fsm_hndl.trans)
    (hN : N * get_burst_size fsm_hndl.trans < 2 ^ 32) :
    (∀ b1 b2, b1 < N → b2 < N → b1 ≠ b2 →
      ∀ p, p ∈ wdata_cells cfg fsm_hndl b1 → p ∉ wdata_cells cfg fsm_hndl b2) ∧
    (∀ p, (∃ b, b < N ∧ p ∈ wdata_cells cfg fsm_hndl b) ↔
      p < N * get_burst_size fsm_hndl.trans
        - fsm_hndl.trans.address % get_burst_size fsm_hndl.trans) := by
  have hspos : 0 < get_burst_size fsm_hndl.trans := Nat.pos_pow_of_pos _ (by decide)
  have holt := Nat.mod_lt fsm_hndl.trans.address hspos
  have hint := fun b hb p => cells_interval cfg fsm_hndl k N b hW hk hsW hcase hlen hN hb p
  have key : ∀ b1 b2, b1 < b2 → b2 < N →
      ∀ p, p ∈ wdata_cells cfg fsm_hndl b1 → p ∉ wdata_cells cfg fsm_hndl b2 := by
    intro b1 b2 h12 h2 p hp1 hp2
    have e1 := ((hint b1 (by omega) p).1 hp1).2
    have e2 := ((hint b2 h2 p).1 hp2).1
    rw [if_neg (by omega : ¬ b2 = 0)] at e2
    have := mul_add_le_of_lt h12 (get_burst_size fsm_hndl.trans)
    omega
  constructor
  · intro b1 b2 h1 h2 hne p hp1 hp2
    rcases Nat.lt_or_gt_of_ne hne with hlt | hgt
    · exact key b1 b2 hlt h2 p hp1 hp2
    · exact key b2 b1 hgt h1 p hp2 hp1
  · intro p
    constructor
    · rintro ⟨b, hb, hp⟩
      have e := ((hint b hb p).1 hp).2
      have := mul_add_le_of_lt hb (get_burst_size fsm_hndl.trans)
      omega
    · intro hp
      have hq1 := Nat.div_add_mod (p + fsm_hndl.trans.address % get_burst_size fsm_hndl.trans)
        (get_burst_size fsm_hndl.trans)
      have hq2 := Nat.mod_lt (p + fsm_hndl.trans.address % get_burst_size fsm_hndl.trans) hspos
      have hqN : (p + fsm_hndl.trans.address % get_burst_size fsm_hndl.trans)
          / get_burst_size fsm_hndl.trans < N :=
        (Nat.div_lt_iff_lt_mul hspos).2 (by omega)
      rw [Nat.mul_comm] at hq1
      generalize (p + fsm_hndl.trans.address % get_burst_size fsm_hndl.trans)
        / get_burst_size fsm_hndl.trans = q at hq1 hqN
      refine ⟨q, hqN, (hint q hqN p).2 ?_⟩
      by_cases hq0 : q = 0
      · subst hq0
        simp only [if_true, Nat.zero_mul, Nat.zero_add] at hq1 ⊢
        omega
      · rw [if_neg hq0]
        omega

/-- Witness of C2 (amended): 32-bit bus, beat size 4, start address 1, two beats: the cells of
beats 0 and 1 are disjoint and cover exactly `[0, 7)`. -/
theorem write_burst_cells_partition_witness :
    (∀ b1 b2, b1 < 2 → b2 < 2 → b1 ≠ b2 →
      ∀ p, p ∈ wdata_cells ⟨32, 0⟩
          (sampleHandle .TLM_WRITE_COMMAND 1 2 1 0 0 (constBuffer 0) (constBuffer 0)) b1 →
        p ∉ wdata_cells ⟨32, 0⟩
          (sampleHandle .TLM_WRITE_COMMAND 1 2 1 0 0 (constBuffer 0) (constBuffer 0)) b2) ∧
    (∀ p, (∃ b, b < 2 ∧ p ∈ wdata_cells ⟨32, 0⟩
          (sampleHandle .TLM_WRITE_COMMAND 1 2 1 0 0 (constBuffer 0) (constBuffer 0)) b) ↔
      p < 7) :=
  write_burst_cells_partition ⟨32, 0⟩
    (sampleHandle .TLM_WRITE_COMMAND 1 2 1 0 0 (constBuffer 0) (constBuffer 0)) 2 2
    (by decide) (by decide) (by decide) (Or.inl (by decide)) (by decide) (by decide)

theorem pack_request_begun (cfg : CFG) (h : fsm_handle) (w strb : Nat) :
    (wdata_pack cfg h w strb).request_begun = h.request_begun := by
  rw [pack_eq_fold]
  generalize beat_copies cfg h = L
  induction L generalizing h with
  | nil => rfl
  | cons c L ih => simp only [List.foldl_cons]; rw [ih]; rfl

theorem truncate_frame (last : Bool) (h : fsm_handle) :
    (wdata_truncate last h).beat_count = h.beat_count ∧
    (wdata_truncate last h).request_begun = h.request_begun ∧
    (wdata_truncate last h).aux_i32_i0 = h.aux_i32_i0 ∧
    (wdata_truncate last h).trans.command = h.trans.command ∧
    (wdata_truncate last h).trans.address = h.trans.address ∧
    (wdata_truncate last h).trans.ext = h.trans.ext := by
  unfold wdata_truncate
  cases last <;> exact ⟨rfl, rfl, rfl, rfl, rfl, rfl⟩

theorem write_beat_step (cfg : CFG) (pins : w_pins) (ret : tlm_sync_enum) (st : bridge)
    (hid : Nat) (h : fsm_handle)
    (hv : pins.w_valid = true) (hact : st.active_req .TLM_WRITE_COMMAND = some hid)
    (hh : st.handles[hid]? = some h) (hcmd : h.trans.command = .TLM_WRITE_COMMAND)
    (hfresh : h.request_begun = false → h.beat_count = 0)
    (hsch : st.scheduled = []) (hret : ret ≠ .TLM_COMPLETED) :
    write_beat cfg pins ret st
      = if wdata_stores_valid cfg h then .ok (after_beat cfg pins hid h st)
        else .error .fault := by
  have hlt : hid < st.handles.length := by
    rcases Nat.lt_or_ge hid st.handles.length with h1 | h1
    · exact h1
    · rw [List.getElem?_eq_none h1] at hh; cases hh
  obtain ⟨f1, f2, f3, f4, f5, f6⟩ := truncate_frame pins.w_last (wdata_pack cfg h pins.w_data pins.w_strb)
  have g1 := pack_request_begun cfg h pins.w_data pins.w_strb
  obtain ⟨p1, p2, p3, p4, p5, p6, p7⟩ := fold_store_frame pins.w_data pins.w_strb (beat_copies cfg h) h
  rw [← pack_eq_fold] at p1 p2 p3 p4 p5 p6 p7
  obtain ⟨v, data, strb, last⟩ := pins
  simp only at hv f1 f2 f3 f4 f5 f6 g1 p1 p2 p3 p4 p5 p6 p7 ⊢
  subst hv
  by_cases hval : wdata_stores_valid cfg h = true
  · rw [if_pos hval]
    cases last <;> cases ret <;> cases hb : h.request_begun <;>
      simp [write_beat, wdata_sample, react, cb, hact, hh, end_request, deliver, wdata_resume,
        nb_transport_bw, nb_transport_fw, schedule, bridge.set_handle, hsch, hlt, hcmd, hb,
        f1, f2, f3, f4, f5, f6, g1, p1, p2, p3, p4, p5, p6, p7, beat_done, slots.set,
        after_beat, beg_tp, end_tp, hval] at hret ⊢ <;>
      rw [hfresh hb]
  · rw [if_neg hval]
    simp [write_beat, wdata_sample, hact, hh, hval]

/-! ### The bridge: transport, callbacks and the write-data thread -/

/-- C9: `nb_transport_bw` ends in the fatal report exactly when the phase is none of
`END_PARTIAL_REQ`, `END_REQ`, `BEGIN_PARTIAL_RESP`, `BEGIN_RESP`; for each of these four it
schedules exactly one time point for the transaction (`EndPartReqE`, `EndReqE`, `BegPartRespE`,
`BegRespE` respectively) and returns `TLM_ACCEPTED`; for every other phase the state, and with
it the queue of scheduled time points, is unchanged. -/
theorem nb_transport_bw_phases (trans : Nat) (phase : tlm_phase) (t : Nat) (st : bridge) :
    ((∃ msg, (nb_transport_bw trans phase t st).2 = .error (.fatal msg)) ↔
      ¬ (phase = .END_PARTIAL_REQ ∨ phase = .END_REQ ∨ phase = .BEGIN_PARTIAL_RESP ∨
        phase = .BEGIN_RESP)) ∧
    (phase = .END_PARTIAL_REQ →
      (nb_transport_bw trans phase t st).1.scheduled
          = st.scheduled ++ [⟨.EndPartReqE, trans, t, false⟩] ∧
        (nb_transport_bw trans phase t st).2 = .ok .TLM_ACCEPTED) ∧
    (phase = .END_REQ →
      (nb_transport_bw trans phase t st).1.scheduled
          = st.scheduled ++ [⟨.EndReqE, trans, t, false⟩] ∧
        (nb_transport_bw trans phase t st).2 = .ok .TLM_ACCEPTED) ∧
    (phase = .BEGIN_PARTIAL_RESP →
      (nb_transport_bw trans phase t st).1.scheduled
          = st.scheduled ++ [⟨.BegPartRespE, trans, t, false⟩] ∧
        (nb_transport_bw trans phase t st).2 = .ok .TLM_ACCEPTED) ∧
    (phase = .BEGIN_RESP →
      (nb_transport_bw trans phase t st).1.scheduled
          = st.scheduled ++ [⟨.BegRespE, trans, t, false⟩] ∧
        (nb_transport_bw trans phase t st).2 = .ok .TLM_ACCEPTED) ∧
    (¬ (phase = .END_PARTIAL_REQ ∨ phase = .END_REQ ∨ phase = .BEGIN_PARTIAL_RESP ∨
        phase = .BEGIN_RESP) →
      (nb_transport_bw trans phase t st).1 = st) := by
  cases phase <;> simp [nb_transport_bw, schedule]

theorem allocate_facts (sz : Nat) (be : Bool) (mem be_mem : Buffer) :
    (allocate sz be mem be_mem).address = 0 ∧
    (allocate sz be mem be_mem).command = .TLM_IGNORE_COMMAND ∧
    (allocate sz be mem be_mem).data_length = sz ∧
    (allocate sz be mem be_mem).byte_enable_length = (if be then sz else 0) ∧
    (allocate sz be mem be_mem).streaming_width = 0 ∧
    (allocate sz be mem be_mem).ext = {} ∧
    (allocate sz be mem be_mem).data = mem ∧
    (allocate sz be mem be_mem).byte_enable = be_mem := by
  by_cases h0 : sz = 0 <;> cases be <;>
    simp [allocate, h0, add_data_ptr, payload.with_ext, payload.set_data_ptr,
      payload.set_data_length, payload.set_byte_enable_ptr, payload.set_byte_enable_length]

theorem ar_sample_eq (pins : ar_pins) (ret : tlm_sync_enum) (st : bridge)
    (hv : pins.ar_valid = true) :
    ar_sample pins ret st = .ok { st with
      handles := st.handles ++ [⟨ar_payload pins st.fresh st.fresh_be, 0, 0, true⟩]
      active_req_beat := st.active_req_beat.set .TLM_READ_COMMAND (some st.handles.length)
      reacted := st.reacted ++ [(.BegReqE, st.handles.length)]
      fw_calls := st.fw_calls ++ [(.BEGIN_REQ, ar_payload pins st.fresh st.fresh_be)]
      scheduled := if ret = .TLM_UPDATED
        then st.scheduled ++ [⟨.EndReqE, st.handles.length, 0, true⟩] else st.scheduled } := by
  cases ret <;>
    simp [ar_sample, hv, find_or_create, react, cb, bridge.set_handle, nb_transport_fw, schedule]

/-- C10: when `ar_t` accepts an address-read beat, the transaction it creates (owned by the new
handle in `active_req_beat[READ]`, and the payload of the `BEGIN_REQ` it forwards) is a read
command at `ar_addr` whose extension carries the sampled id, length, size, burst, cache, prot,
qos, region, domain, snoop and barrier, and whose exclusive flag equals `ar_lock`. -/
theorem ar_accept_attributes (pins : ar_pins) (ret : tlm_sync_enum) (st : bridge)
    (hv : pins.ar_valid = true) :
    ∃ st' h, ar_sample pins ret st = .ok st' ∧
      st'.active_req_beat .TLM_READ_COMMAND = some st.handles.length ∧
      st'.handles[st.handles.length]? = some h ∧
      st'.fw_calls = st.fw_calls ++ [(.BEGIN_REQ, h.trans)] ∧
      h.trans.command = .TLM_READ_COMMAND ∧
      h.trans.address = pins.ar_addr ∧
      h.trans.ext.id = pins.ar_id ∧
      h.trans.ext.length = pins.ar_len ∧
      h.trans.ext.size = pins.ar_size ∧
      h.trans.ext.burst = pins.ar_burst ∧
      h.trans.ext.cache = pins.ar_cache ∧
      h.trans.ext.prot = pins.ar_prot ∧
      h.trans.ext.qos = pins.ar_qos ∧
      h.trans.ext.region = pins.ar_region ∧
      h.trans.ext.domain = pins.ar_domain ∧
      h.trans.ext.snoop = pins.ar_snoop ∧
      h.trans.ext.barrier = pins.ar_bar ∧
      h.trans.ext.exclusive = pins.ar_lock := by
  refine ⟨_, ⟨ar_payload pins st.fresh st.fresh_be, 0, 0, true⟩, ar_sample_eq pins ret st hv,
    ?_, ?_, rfl, ?_⟩
  · simp [slots.set]
  · simp
  · obtain ⟨a1, a2, a3, a4, a5, a6, _, _⟩ := allocate_facts
      ((1 <<< pins.ar_size) * (pins.ar_len + 1)) false st.fresh st.fresh_be
    cases hl : pins.ar_lock <;> simp [ar_payload, hl, payload.with_ext, ace_extension.set_barrier,
      ace_extension.set_snoop, ace_extension.set_domain, ace_extension.set_region,
      ace_extension.set_qos, ace_extension.set_prot, ace_extension.set_cache,
      ace_extension.set_burst, ace_extension.set_size, ace_extension.set_exclusive,
      ace_extension.set_length, ace_extension.set_id, payload.set_streaming_width,
      payload.set_command, payload.set_address, a1, a2, a3, a4, a5, a6, into]

theorem wdata_open_eq (cfg : CFG) (st : bridge) (awd : aw_data) (rest : List aw_data)
    (hq : st.aw_que = awd :: rest) :
    wdata_open cfg st = .ok (after_open cfg awd rest st) := by
  simp [wdata_open, hq, find_or_create, bridge.set_handle, slots.set, opened_handle, after_open]

theorem write_beat_opening (cfg : CFG) (pins : w_pins) (ret : tlm_sync_enum) (st : bridge)
    (awd : aw_data) (rest : List aw_data) (hnone : st.active_req .TLM_WRITE_COMMAND = none)
    (hq : st.aw_que = awd :: rest) :
    write_beat cfg pins ret st = write_beat cfg pins ret (after_open cfg awd rest st) := by
  unfold write_beat wdata_sample
  simp [hnone, wdata_open_eq cfg st awd rest hq, slots.set, after_open]

theorem write_beats_append (cfg : CFG) (bs cs : List (w_pins × tlm_sync_enum)) (st st' : bridge)
    (h : write_beats cfg bs st = .ok st') :
    write_beats cfg (bs ++ cs) st = write_beats cfg cs st' := by
  induction bs generalizing st with
  | nil => simp [write_beats] at h; subst h; rfl
  | cons b bs ih =>
    obtain ⟨p, r⟩ := b
    simp only [List.cons_append, write_beats] at h ⊢
    cases hb : write_beat cfg p r st with
    | error e => rw [hb] at h; cases h
    | ok s1 => rw [hb] at h; simp only; exact ih s1 h

theorem beat_done_facts (cfg : CFG) (p : w_pins) (h : fsm_handle) :
    (beat_done cfg p h).beat_count = (h.beat_count + 1) % 2 ^ 32 ∧
    (beat_done cfg p h).request_begun = true ∧
    (beat_done cfg p h).aux_i32_i0 = (wdata_pack cfg h p.w_data p.w_strb).aux_i32_i0 ∧
    (beat_done cfg p h).trans.command = h.trans.command ∧
    (beat_done cfg p h).trans.address = h.trans.address ∧
    (beat_done cfg p h).trans.ext = h.trans.ext := by
  obtain ⟨_, _, f3, f4, f5, f6⟩ := truncate_frame p.w_last (wdata_pack cfg h p.w_data p.w_strb)
  obtain ⟨_, p2, p3, _, _, _, p7⟩ := fold_store_frame p.w_data p.w_strb (beat_copies cfg h) h
  rw [← pack_eq_fold] at p2 p3 p7
  exact ⟨rfl, rfl, f3, f4.trans p3, f5.trans p2, f6.trans p7⟩

theorem beat_done_lengths (cfg : CFG) (p : w_pins) (h : fsm_handle) :
    (p.w_last = false →
      (beat_done cfg p h).trans.data_length = h.trans.data_length ∧
      (beat_done cfg p h).trans.byte_enable_length = h.trans.byte_enable_length ∧
      (beat_done cfg p h).trans.streaming_width = h.trans.streaming_width) ∧
    (p.w_last = true →
      (beat_done cfg p h).trans.data_length = (wdata_pack cfg h p.w_data p.w_strb).aux_i32_i0 ∧
      (beat_done cfg p h).trans.byte_enable_length
        = (wdata_pack cfg h p.w_data p.w_strb).aux_i32_i0 ∧
      (beat_done cfg p h).trans.streaming_width
        = (wdata_pack cfg h p.w_data p.w_strb).aux_i32_i0) := by
  obtain ⟨_, _, _, p4, p5, p6, _⟩ := fold_store_frame p.w_data p.w_strb (beat_copies cfg h) h
  rw [← pack_eq_fold] at p4 p5 p6
  constructor
  · intro hl
    simp only [beat_done, wdata_truncate, hl]
    exact ⟨p4, p5, p6⟩
  · intro hl
    simp only [beat_done, wdata_truncate, hl]
    exact ⟨rfl, rfl, rfl⟩

theorem pack_acc (cfg : CFG) (h : fsm_handle) (w strb : Nat) (hacc : h.aux_i32_i0 < 2 ^ 32) :
    (wdata_pack cfg h w strb).aux_i32_i0 = (h.aux_i32_i0 + written_count cfg h strb) % 2 ^ 32 := by
  rw [pack_eq_fold]
  exact fold_store_acc w strb _ h hacc

theorem burst_handle_nonlast (cfg : CFG) (h0 : fsm_handle) (ps : List w_pins) :
    ∀ (h : fsm_handle) (k : Nat), (∀ p ∈ ps, p.w_last = false) → h.beat_count = k →
      k + ps.length < 2 ^ 32 → h.trans.address = h0.trans.address →
      h.trans.ext = h0.trans.ext → h.trans.data_length = h0.trans.data_length →
      h.aux_i32_i0 < 2 ^ 32 →
      (burst_handle cfg ps h).beat_count = k + ps.length ∧
      (burst_handle cfg ps h).trans.address = h.trans.address ∧
      (burst_handle cfg ps h).trans.ext = h.trans.ext ∧
      (burst_handle cfg ps h).trans.command = h.trans.command ∧
      (burst_handle cfg ps h).trans.data_length = h.trans.data_length ∧
      (burst_handle cfg ps h).trans.byte_enable_length = h.trans.byte_enable_length ∧
      (burst_handle cfg ps h).trans.streaming_width = h.trans.streaming_width ∧
      (burst_handle cfg ps h).aux_i32_i0 = (h.aux_i32_i0 + burst_written cfg h0 ps k) % 2 ^ 32 ∧
      (burst_handle cfg ps h).aux_i32_i0 < 2 ^ 32 ∧
      (ps ≠ [] → (burst_handle cfg ps h).request_begun = true) := by
  induction ps with
  | nil =>
    intro h k _ hk _ _ _ _ hacc
    exact ⟨by simpa [burst_handle] using hk, rfl, rfl, rfl, rfl, rfl, rfl,
      (Nat.mod_eq_of_lt hacc).symm, hacc, fun hne => absurd rfl hne⟩
  | cons p ps ih =>
    intro h k hall hk hbound ha he hl hacc
    have hpl : p.w_last = false := hall p (List.mem_cons_self _ _)
    obtain ⟨d1, d2, d3, d4, d5, d6⟩ := beat_done_facts cfg p h
    obtain ⟨l1, l2, l3⟩ := (beat_done_lengths cfg p h).1 hpl
    have h32 : (2 : Nat) ^ 32 = 4294967296 := by norm_num
    simp only [List.length_cons] at hbound
    have hcount : (beat_done cfg p h).beat_count = k + 1 := by
      rw [d1, hk, h32]; rw [h32] at hbound; omega
    have hwc : written_count cfg h p.w_strb = written_count cfg (at_beat h0 k) p.w_strb := by
      unfold written_count
      rw [beat_copies_congr cfg (at_beat h0 k) h hk ha hl he]
    have hacc1 : (beat_done cfg p h).aux_i32_i0
        = (h.aux_i32_i0 + written_count cfg (at_beat h0 k) p.w_strb) % 2 ^ 32 := by
      rw [d3, pack_acc cfg h _ _ hacc, hwc]
    obtain ⟨i1, i2, i3, i4, i5, i6, i7, i8, i9, i10⟩ := ih (beat_done cfg p h) (k + 1)
      (fun q hq => hall q (List.mem_cons_of_mem _ hq)) hcount (by omega) (d5.trans ha)
      (d6.trans he) (l1.trans hl) (by rw [hacc1]; exact Nat.mod_lt _ (by norm_num))
    simp only [burst_handle, burst_written, List.length_cons]
    refine ⟨by omega, i2.trans d5, i3.trans d6, i4.trans d4, i5.trans l1, i6.trans l2,
      i7.trans l3, ?_, i9, fun _ => ?_⟩
    · rw [i8, hacc1, h32]; omega
    · by_cases hps : ps = []
      · subst hps; exact d2
      · exact i10 hps

theorem getElem?_lt_length {α : Type} (l : List α) (i : Nat) (a : α) (h : l[i]? = some a) :
    i < l.length := by
  rcases Nat.lt_or_ge i l.length with h1 | h1
  · exact h1
  · rw [List.getElem?_eq_none h1] at h; cases h

theorem write_beats_nonlast (cfg : CFG) (bs : List (w_pins × tlm_sync_enum)) :
    ∀ (st : bridge) (hid : Nat) (h : fsm_handle),
      st.active_req .TLM_WRITE_COMMAND = some hid → st.handles[hid]? = some h →
      h.trans.command = .TLM_WRITE_COMMAND → (h.request_begun = false → h.beat_count = 0) →
      st.scheduled = [] →
      (∀ b ∈ bs, b.1.w_valid = true ∧ b.1.w_last = false ∧ b.2 ≠ .TLM_COMPLETED) →
      h.beat_count + bs.length < 2 ^ 32 →
      burst_stores_valid cfg (bs.map Prod.fst) h = true →
      ∃ st', write_beats cfg bs st = .ok st' ∧
        st'.active_req .TLM_WRITE_COMMAND = some hid ∧
        st'.handles[hid]? = some (burst_handle cfg (bs.map Prod.fst) h) ∧
        st'.scheduled = [] ∧
        st'.handles.length = st.handles.length ∧
        st'.packed = st.packed ++ (List.range' h.beat_count bs.length).map (fun k => (hid, k)) ∧
        st'.reacted = st.reacted ++ (List.replicate bs.length
          [(protocol_time_point_e.BegPartReqE, hid), (protocol_time_point_e.EndPartReqE, hid)]).flatten ∧
        st'.fw_calls.map Prod.fst = st.fw_calls.map Prod.fst
          ++ List.replicate bs.length tlm_phase.BEGIN_PARTIAL_REQ ∧
        st'.aw_que = st.aw_que := by
  induction bs with
  | nil =>
    intro st hid h hact hh _ _ hsch _ _ _
    exact ⟨st, rfl, hact, hh, hsch, rfl, (List.append_nil _).symm, (List.append_nil _).symm,
      (List.append_nil _).symm, rfl⟩
  | cons b bs ih =>
    intro st hid h hact hh hcmd hfresh hsch hall hbound hvalid
    obtain ⟨p, r⟩ := b
    obtain ⟨hv, hl, hr⟩ := hall (p, r) (List.mem_cons_self _ _)
    simp only at hv hl hr
    simp only [List.map_cons, burst_stores_valid, Bool.and_eq_true] at hvalid
    have hlt := getElem?_lt_length _ _ _ hh
    obtain ⟨d1, d2, _, d4, _, _⟩ := beat_done_facts cfg p h
    have h32 : (2 : Nat) ^ 32 = 4294967296 := by norm_num
    simp only [List.length_cons] at hbound
    have hcount : (beat_done cfg p h).beat_count = h.beat_count + 1 := by
      rw [d1, h32]; rw [h32] at hbound; omega
    have hstep := write_beat_step cfg p r st hid h hv hact hh hcmd hfresh hsch hr
    rw [if_pos hvalid.1] at hstep
    obtain ⟨st', e1, e2, e3, e4, e5, e6, e7, e8, e9⟩ := ih (after_beat cfg p hid h st) hid
      (beat_done cfg p h)
      (by simp [after_beat, hl, hact]) (by simp [after_beat, hlt]) (d4.trans hcmd)
      (fun hf => by rw [d2] at hf; cases hf) rfl
      (fun b hb => hall b (List.mem_cons_of_mem _ hb)) (by omega) hvalid.2
    refine ⟨st', ?_, e2, ?_, e4, ?_, ?_, ?_, ?_, by simpa [after_beat] using e9⟩
    · simp only [write_beats, hstep]; exact e1
    · simpa [burst_handle] using e3
    · simpa [after_beat] using e5
    · rw [e6, hcount]
      simp [after_beat, List.range'_succ]
    · rw [e7]
      simp [after_beat, hl, List.replicate_succ, beg_tp, end_tp]
    · rw [e8]
      simp [after_beat, hl, List.replicate_succ]

theorem write_beats_error (cfg : CFG) (bs cs : List (w_pins × tlm_sync_enum)) (st : bridge)
    (e : halt) (h : write_beats cfg bs st = .error e) :
    write_beats cfg (bs ++ cs) st = .error e := by
  induction bs generalizing st with
  | nil => simp [write_beats] at h
  | cons b bs ih =>
    obtain ⟨p, r⟩ := b
    simp only [List.cons_append, write_beats] at h ⊢
    cases hb : write_beat cfg p r st with
    | error e' => rw [hb] at h; exact h
    | ok s1 => rw [hb] at h; simp only; exact ih s1 h

theorem write_beats_nonlast_fault (cfg : CFG) (bs : List (w_pins × tlm_sync_enum)) :
    ∀ (st : bridge) (hid : Nat) (h : fsm_handle),
      st.active_req .TLM_WRITE_COMMAND = some hid → st.handles[hid]? = some h →
      h.trans.command = .TLM_WRITE_COMMAND → (h.request_begun = false → h.beat_count = 0) →
      st.scheduled = [] →
      (∀ b ∈ bs, b.1.w_valid = true ∧ b.1.w_last = false ∧ b.2 ≠ .TLM_COMPLETED) →
      h.beat_count + bs.length < 2 ^ 32 →
      burst_stores_valid cfg (bs.map Prod.fst) h = false →
      write_beats cfg bs st = .error .fault := by
  induction bs with
  | nil =>
    intro st hid h _ _ _ _ _ _ _ hvalid
    simp [burst_stores_valid] at hvalid
  | cons b bs ih =>
    intro st hid h hact hh hcmd hfresh hsch hall hbound hvalid
    obtain ⟨p, r⟩ := b
    obtain ⟨hv, hl, hr⟩ := hall (p, r) (List.mem_cons_self _ _)
    simp only at hv hl hr
    have hlt := getElem?_lt_length _ _ _ hh
    obtain ⟨d1, d2, _, d4, _, _⟩ := beat_done_facts cfg p h
    have h32 : (2 : Nat) ^ 32 = 4294967296 := by norm_num
    simp only [List.length_cons] at hbound
    have hstep := write_beat_step cfg p r st hid h hv hact hh hcmd hfresh hsch hr
    simp only [write_beats]
    by_cases hval : wdata_stores_valid cfg h = true
    · rw [if_pos hval] at hstep
      rw [hstep]
      simp only [List.map_cons, burst_stores_valid, hval, Bool.true_and] at hvalid
      exact ih (after_beat cfg p hid h st) hid (beat_done cfg p h)
        (by simp [after_beat, hl, hact]) (by simp [after_beat, hlt]) (d4.trans hcmd)
        (fun hf => by rw [d2] at hf; cases hf) rfl
        (fun b hb => hall b (List.mem_cons_of_mem _ hb))
        (by rw [d1, h32]; rw [h32] at hbound; omega) hvalid
    · rw [if_neg hval] at hstep
      rw [hstep]

theorem burst_stores_valid_append (cfg : CFG) (ps qs : List w_pins) :
    ∀ h : fsm_handle, burst_stores_valid cfg (ps ++ qs) h
      = (burst_stores_valid cfg ps h && burst_stores_valid cfg qs (burst_handle cfg ps h)) := by
  induction ps with
  | nil => intro h; simp [burst_stores_valid, burst_handle]
  | cons p ps ih =>
    intro h
    show (wdata_stores_valid cfg h && burst_stores_valid cfg (ps ++ qs) (beat_done cfg p h)) = _
    rw [ih]
    simp only [burst_stores_valid, burst_handle, Bool.and_assoc]

theorem aw_payload_facts (cfg : CFG) (awd : aw_data) (mem be_mem : Buffer) :
    (aw_payload cfg awd mem be_mem).command = .TLM_WRITE_COMMAND ∧
    (aw_payload cfg awd mem be_mem).address = awd.addr ∧
    (aw_payload cfg awd mem be_mem).data_length = 2 ^ awd.size * (awd.len + 1) ∧
    (aw_payload cfg awd mem be_mem).byte_enable_length = 2 ^ awd.size * (awd.len + 1) ∧
    (aw_payload cfg awd mem be_mem).streaming_width = 0 ∧
    (aw_payload cfg awd mem be_mem).ext.size = awd.size ∧
    (aw_payload cfg awd mem be_mem).ext.length = awd.len := by
  obtain ⟨a1, a2, a3, a4, a5, a6, _, _⟩ := allocate_facts
    ((1 <<< awd.size) * (awd.len + 1)) true mem be_mem
  simp only [Nat.one_shiftLeft, if_true] at a1 a2 a3 a4 a5 a6
  by_cases hu : cfg.USERWIDTH = 0 <;>
    simp [aw_payload, hu, payload.with_ext, ace_extension.set_user, ace_extension.set_exclusive,
      ace_extension.set_stash_lpid, ace_extension.set_stash_nid, ace_extension.set_barrier,
      ace_extension.set_snoop, ace_extension.set_region, ace_extension.set_cache,
      ace_extension.set_qos, ace_extension.set_prot, ace_extension.set_burst,
      ace_extension.set_size, ace_extension.set_length, ace_extension.set_id,
      payload.set_command, payload.set_address, a1, a2, a3, a4, a5, a6, Nat.one_shiftLeft, into]

theorem write_beats_opening (cfg : CFG) (bs : List (w_pins × tlm_sync_enum)) (st : bridge)
    (awd : aw_data) (rest : List aw_data) (hne : bs ≠ [])
    (hnone : st.active_req .TLM_WRITE_COMMAND = none) (hq : st.aw_que = awd :: rest) :
    write_beats cfg bs st = write_beats cfg bs (after_open cfg awd rest st) := by
  cases bs with
  | nil => exact absurd rfl hne
  | cons b bs =>
    obtain ⟨p, r⟩ := b
    simp only [write_beats, write_beat_opening cfg p r st awd rest hnone hq]

theorem opened_handle_get (cfg : CFG) (awd : aw_data) (rest : List aw_data) (st : bridge) :
    (after_open cfg awd rest st).handles[st.handles.length]?
      = some (opened_handle cfg awd st.fresh st.fresh_be) := by
  simp [after_open]

/-- A whole write burst: the beats `pre` without `w_last` followed by the beat `pl` with
`w_last`, started with no burst open and the address entry `awd` pending.  `stp` is the bridge
before the last beat. -/
theorem write_burst_run (cfg : CFG) (st : bridge) (awd : aw_data) (rest : List aw_data)
    (pre : List (w_pins × tlm_sync_enum)) (pl : w_pins) (rl : tlm_sync_enum)
    (hnone : st.active_req .TLM_WRITE_COMMAND = none) (hq : st.aw_que = awd :: rest)
    (hsch : st.scheduled = [])
    (hpre : ∀ b ∈ pre, b.1.w_valid = true ∧ b.1.w_last = false ∧ b.2 ≠ .TLM_COMPLETED)
    (hv : pl.w_valid = true) (hr : rl ≠ .TLM_COMPLETED)
    (hN : pre.length + 1 < 2 ^ 32)
    (hvalid : burst_stores_valid cfg (pre.map Prod.fst ++ [pl])
      (opened_handle cfg awd st.fresh st.fresh_be) = true) :
    ∃ stp, write_beats cfg (pre ++ [(pl, rl)]) st
        = .ok (after_beat cfg pl st.handles.length
            (burst_handle cfg (pre.map Prod.fst) (opened_handle cfg awd st.fresh st.fresh_be))
            stp) ∧
      stp.active_req .TLM_WRITE_COMMAND = some st.handles.length ∧
      stp.handles.length = st.handles.length + 1 ∧
      stp.packed = st.packed ++ (List.range' 0 pre.length).map (fun k => (st.handles.length, k)) ∧
      stp.reacted = st.reacted ++ (List.replicate pre.length
        [(protocol_time_point_e.BegPartReqE, st.handles.length),
         (protocol_time_point_e.EndPartReqE, st.handles.length)]).flatten ∧
      stp.fw_calls.map Prod.fst = st.fw_calls.map Prod.fst
        ++ List.replicate pre.length tlm_phase.BEGIN_PARTIAL_REQ ∧
      stp.aw_que = rest := by
  obtain ⟨c1, _⟩ := aw_payload_facts cfg awd st.fresh st.fresh_be
  rw [burst_stores_valid_append, Bool.and_eq_true] at hvalid
  obtain ⟨hvpre, hvlast⟩ := hvalid
  simp only [burst_stores_valid, Bool.and_true] at hvlast
  obtain ⟨stp, e1, e2, e3, e4, e5, e6, e7, e8, e9⟩ := write_beats_nonlast cfg pre
    (after_open cfg awd rest st) st.handles.length (opened_handle cfg awd st.fresh st.fresh_be)
    (by simp [after_open, slots.set]) (opened_handle_get cfg awd rest st) c1 (fun _ => rfl)
    (by simpa [after_open] using hsch) hpre (by simpa [opened_handle] using by omega) hvpre
  have hb0 : (opened_handle cfg awd st.fresh st.fresh_be).beat_count = 0 := rfl
  obtain ⟨n1, _, _, n4, _, _, _, _, _, n10⟩ := burst_handle_nonlast cfg
    (opened_handle cfg awd st.fresh st.fresh_be) (pre.map Prod.fst)
    (opened_handle cfg awd st.fresh st.fresh_be) 0
    (fun p hp => by
      obtain ⟨b, hb, rfl⟩ := List.mem_map.1 hp
      exact (hpre b hb).2.1)
    rfl (by simpa using by omega) rfl rfl rfl (by simp [opened_handle])
  refine ⟨stp, ?_, e2, by simpa [after_open] using e5, by simpa [after_open, hb0] using e6,
    by simpa [after_open] using e7, by simpa [after_open] using e8,
    by simpa [after_open] using e9⟩
  rw [write_beats_opening cfg _ st awd rest (by simp) hnone hq,
    write_beats_append cfg pre [(pl, rl)] _ stp e1]
  simp only [write_beats]
  rw [write_beat_step cfg pl rl stp st.handles.length _ hv e2 e3 (n4.trans c1)
    (fun hf => by
      by_cases hp : pre.map Prod.fst = []
      · rw [hp]; rfl
      · rw [n10 hp] at hf; cases hf)
    e4 hr, if_pos hvlast]

/-- A write burst on which a store of the packer is not defined: the run ends in the fault. -/
theorem write_burst_fault (cfg : CFG) (st : bridge) (awd : aw_data) (rest : List aw_data)
    (pre : List (w_pins × tlm_sync_enum)) (pl : w_pins) (rl : tlm_sync_enum)
    (hnone : st.active_req .TLM_WRITE_COMMAND = none) (hq : st.aw_que = awd :: rest)
    (hsch : st.scheduled = [])
    (hpre : ∀ b ∈ pre, b.1.w_valid = true ∧ b.1.w_last = false ∧ b.2 ≠ .TLM_COMPLETED)
    (hv : pl.w_valid = true) (hr : rl ≠ .TLM_COMPLETED)
    (hN : pre.length + 1 < 2 ^ 32)
    (hvalid : burst_stores_valid cfg (pre.map Prod.fst ++ [pl])
      (opened_handle cfg awd st.fresh st.fresh_be) = false) :
    write_beats cfg (pre ++ [(pl, rl)]) st = .error .fault := by
  obtain ⟨c1, _⟩ := aw_payload_facts cfg awd st.fresh st.fresh_be
  rw [write_beats_opening cfg _ st awd rest (by simp) hnone hq]
  rw [burst_stores_valid_append] at hvalid
  cases hvpre : burst_stores_valid cfg (pre.map Prod.fst)
      (opened_handle cfg awd st.fresh st.fresh_be) with
  | false =>
    exact write_beats_error cfg pre _ _ _ (write_beats_nonlast_fault cfg pre
      (after_open cfg awd rest st) st.handles.length
      (opened_handle cfg awd st.fresh st.fresh_be)
      (by simp [after_open, slots.set]) (opened_handle_get cfg awd rest st) c1 (fun _ => rfl)
      (by simpa [after_open] using hsch) hpre (by simpa [opened_handle] using by omega) hvpre)
  | true =>
    rw [hvpre] at hvalid
    simp only [Bool.true_and, burst_stores_valid, Bool.and_true] at hvalid
    obtain ⟨stp, e1, e2, e3, e4, _⟩ := write_beats_nonlast cfg pre
      (after_open cfg awd rest st) st.handles.length
      (opened_handle cfg awd st.fresh st.fresh_be)
      (by simp [after_open, slots.set]) (opened_handle_get cfg awd rest st) c1 (fun _ => rfl)
      (by simpa [after_open] using hsch) hpre (by simpa [opened_handle] using by omega) hvpre
    obtain ⟨_, _, _, n4, _, _, _, _, _, n10⟩ := burst_handle_nonlast cfg
      (opened_handle cfg awd st.fresh st.fresh_be) (pre.map Prod.fst)
      (opened_handle cfg awd st.fresh st.fresh_be) 0
      (fun p hp => by
        obtain ⟨b, hb, rfl⟩ := List.mem_map.1 hp
        exact (hpre b hb).2.1)
      rfl (by simpa using by omega) rfl rfl rfl (by simp [opened_handle])
    rw [write_beats_append cfg pre [(pl, rl)] _ stp e1]
    simp only [write_beats]
    rw [write_beat_step cfg pl rl stp st.handles.length _ hv e2 e3 (n4.trans c1)
      (fun hf => by
        by_cases hp : pre.map Prod.fst = []
        · rw [hp]; rfl
        · rw [n10 hp] at hf; cases hf)
      e4 hr, if_neg (by rw [hvalid]; exact Bool.false_ne_true)]

theorem burst_written_append (cfg : CFG) (h0 : fsm_handle) (ps : List w_pins) (p : w_pins) :
    ∀ k, burst_written cfg h0 (ps ++ [p]) k
      = burst_written cfg h0 ps k + written_count cfg (at_beat h0 (k + ps.length)) p.w_strb := by
  induction ps with
  | nil => intro k; simp [burst_written]
  | cons q ps ih =>
    intro k
    have e := ih (k + 1)
    rw [show k + 1 + ps.length = k + (ps.length + 1) by omega] at e
    show written_count cfg (at_beat h0 k) q.w_strb + burst_written cfg h0 (ps ++ [p]) (k + 1) = _
    rw [e]
    simp only [burst_written, List.length_cons]
    omega

/-- The handle at the end of a whole burst: its accumulator is the written-byte count of all
beats, and when the last beat carries `w_last` so are its three lengths and those of the
payload forwarded with `BEGIN_REQ`. -/
theorem burst_final_handle (cfg : CFG) (awd : aw_data) (mem be_mem : Buffer) (pre : List w_pins)
    (pl : w_pins) (hpre : ∀ p ∈ pre, p.w_last = false) (hN : pre.length + 1 < 2 ^ 32) :
    (beat_done cfg pl (burst_handle cfg pre (opened_handle cfg awd mem be_mem))).aux_i32_i0
      = burst_written cfg (opened_handle cfg awd mem be_mem) (pre ++ [pl]) 0 % 2 ^ 32 ∧
    (beat_done cfg pl (burst_handle cfg pre (opened_handle cfg awd mem be_mem))).beat_count
      = pre.length + 1 ∧
    (wdata_truncate pl.w_last (wdata_pack cfg (burst_handle cfg pre
        (opened_handle cfg awd mem be_mem)) pl.w_data pl.w_strb)).trans
      = (beat_done cfg pl (burst_handle cfg pre (opened_handle cfg awd mem be_mem))).trans ∧
    (pl.w_last = true →
      (beat_done cfg pl (burst_handle cfg pre (opened_handle cfg awd mem be_mem))).trans.data_length
        = burst_written cfg (opened_handle cfg awd mem be_mem) (pre ++ [pl]) 0 % 2 ^ 32 ∧
      (beat_done cfg pl (burst_handle cfg pre
          (opened_handle cfg awd mem be_mem))).trans.byte_enable_length
        = burst_written cfg (opened_handle cfg awd mem be_mem) (pre ++ [pl]) 0 % 2 ^ 32 ∧
      (beat_done cfg pl (burst_handle cfg pre
          (opened_handle cfg awd mem be_mem))).trans.streaming_width
        = burst_written cfg (opened_handle cfg awd mem be_mem) (pre ++ [pl]) 0 % 2 ^ 32) := by
  have h32 : (2 : Nat) ^ 32 = 4294967296 := by norm_num
  obtain ⟨n1, n2, n3, _, n5, _, _, n8, n9, _⟩ := burst_handle_nonlast cfg
    (opened_handle cfg awd mem be_mem) pre (opened_handle cfg awd mem be_mem) 0 hpre rfl
    (by omega) rfl rfl rfl (by simp [opened_handle])
  obtain ⟨d1, _, d3, _, _, _⟩ := beat_done_facts cfg pl
    (burst_handle cfg pre (opened_handle cfg awd mem be_mem))
  have hwc : written_count cfg (burst_handle cfg pre (opened_handle cfg awd mem be_mem)) pl.w_strb
      = written_count cfg (at_beat (opened_handle cfg awd mem be_mem) (0 + pre.length))
          pl.w_strb := by
    unfold written_count
    rw [beat_copies_congr cfg (at_beat (opened_handle cfg awd mem be_mem) (0 + pre.length)) _
      n1 n2 n5 n3]
  have hacc : (beat_done cfg pl (burst_handle cfg pre
      (opened_handle cfg awd mem be_mem))).aux_i32_i0
      = burst_written cfg (opened_handle cfg awd mem be_mem) (pre ++ [pl]) 0 % 2 ^ 32 := by
    rw [d3, pack_acc cfg _ _ _ n9, n8, hwc, burst_written_append, h32]
    simp only [opened_handle, Nat.zero_add]
    omega
  refine ⟨hacc, ?_, rfl, fun hl => ?_⟩
  · rw [d1, n1, h32]; rw [h32] at hN; omega
  · obtain ⟨l1, l2, l3⟩ := (beat_done_lengths cfg pl _).2 hl
    rw [l1, l2, l3, ← d3, hacc]
    exact ⟨rfl, rfl, rfl⟩

theorem aligned_full_count (cfg : CFG) (awd : aw_data) (mem be_mem : Buffer) (k j strb : Nat)
    (hW : cfg.BUSWIDTH / 8 = 2 ^ k) (hk : k ≤ 64)
    (haddr : awd.addr % (cfg.BUSWIDTH / 8) = 0) (hsize : 2 ^ awd.size = cfg.BUSWIDTH / 8)
    (hstrb : ∀ l, l < cfg.BUSWIDTH / 8 → strb.testBit l = true)
    (hj : j * (cfg.BUSWIDTH / 8) < 2 ^ 32) :
    written_count cfg (at_beat (opened_handle cfg awd mem be_mem) j) strb = cfg.BUSWIDTH / 8 := by
  obtain ⟨_, c2, _, _, _, c6, _⟩ := aw_payload_facts cfg awd mem be_mem
  have hgs : get_burst_size (at_beat (opened_handle cfg awd mem be_mem) j).trans
      = cfg.BUSWIDTH / 8 := by
    show 2 ^ (aw_payload cfg awd mem be_mem).ext.size = _
    rw [c6, hsize]
  have hbo : beat_byte_offset (at_beat (opened_handle cfg awd mem be_mem) j)
      = j * (cfg.BUSWIDTH / 8) := by
    unfold beat_byte_offset
    rw [hgs]
    exact Nat.mod_eq_of_lt hj
  have hoff : beat_offset cfg (at_beat (opened_handle cfg awd mem be_mem) j) = 0 := by
    rw [beat_offset_eq_mod cfg _ k hW hk, hbo]
    show ((aw_payload cfg awd mem be_mem).address + _) % _ = 0
    rw [c2, Nat.add_mul_mod_self_right, haddr]
  have hu : unaligned_multi_beat cfg (at_beat (opened_handle cfg awd mem be_mem) j) = false := by
    unfold unaligned_multi_beat
    simp [hoff]
  unfold written_count
  rw [copies_eq_aligned cfg _ hu, hgs, hoff, List.filter_eq_self.2, List.length_map,
    List.length_range']
  intro c hc
  obtain ⟨i, hi, rfl⟩ := List.mem_map.1 hc
  simp only [List.mem_range'_1] at hi
  simpa using hstrb i (by omega)

theorem aligned_full_written (cfg : CFG) (awd : aw_data) (mem be_mem : Buffer) (k : Nat)
    (hW : cfg.BUSWIDTH / 8 = 2 ^ k) (hk : k ≤ 64)
    (haddr : awd.addr % (cfg.BUSWIDTH / 8) = 0) (hsize : 2 ^ awd.size = cfg.BUSWIDTH / 8)
    (ps : List w_pins) :
    ∀ j, (∀ p ∈ ps, ∀ l, l < cfg.BUSWIDTH / 8 → p.w_strb.testBit l = true) →
      (j + ps.length) * (cfg.BUSWIDTH / 8) < 2 ^ 32 →
      burst_written cfg (opened_handle cfg awd mem be_mem) ps j
        = ps.length * (cfg.BUSWIDTH / 8) := by
  induction ps with
  | nil => intro j _ _; simp [burst_written]
  | cons p ps ih =>
    intro j hall hb
    simp only [List.length_cons] at hb
    have hj : j * (cfg.BUSWIDTH / 8) < 2 ^ 32 :=
      lt_of_le_of_lt (Nat.mul_le_mul_right _ (by omega)) hb
    simp only [burst_written, List.length_cons]
    rw [aligned_full_count cfg awd mem be_mem k j p.w_strb hW hk haddr hsize
        (hall p (List.mem_cons_self _ _)) hj,
      ih (j + 1) (fun q hq => hall q (List.mem_cons_of_mem _ hq))
        (by rw [show j + 1 + ps.length = j + (ps.length + 1) by omega]; exact hb)]
    rw [Nat.succ_mul]
    omega

/-- Witness of C10: an address-read beat with `ar_lock` asserted, accepted by a bridge after
construction. -/
theorem ar_accept_attributes_witness :
    ∃ st' h, ar_sample ⟨true, 7, 0x2000, 3, 2, 1, 0xb, 2, 5, 9, 1, 0, 0, true⟩ .TLM_ACCEPTED
        (bridge.init (constBuffer 0) (constBuffer 0)) = .ok st' ∧
      st'.active_req_beat .TLM_READ_COMMAND = some 0 ∧
      st'.handles[0]? = some h ∧
      st'.fw_calls = [] ++ [(.BEGIN_REQ, h.trans)] ∧
      h.trans.command = .TLM_READ_COMMAND ∧
      h.trans.address = 0x2000 ∧
      h.trans.ext.id = 7 ∧
      h.trans.ext.length = 3 ∧
      h.trans.ext.size = 2 ∧
      h.trans.ext.burst = 1 ∧
      h.trans.ext.cache = 0xb ∧
      h.trans.ext.prot = 2 ∧
      h.trans.ext.qos = 5 ∧
      h.trans.ext.region = 9 ∧
      h.trans.ext.domain = 1 ∧
      h.trans.ext.snoop = 0 ∧
      h.trans.ext.barrier = 0 ∧
      h.trans.ext.exclusive = true :=
  ar_accept_attributes ⟨true, 7, 0x2000, 3, 2, 1, 0xb, 2, 5, 9, 1, 0, 0, true⟩ .TLM_ACCEPTED
    (bridge.init (constBuffer 0) (constBuffer 0)) rfl

/-! ## The address-write channel and the attributes of a write transaction -/

theorem aw_payload_attrs (cfg : CFG) (awd : aw_data) (mem be_mem : Buffer) :
    (aw_payload cfg awd mem be_mem).ext.id = awd.id ∧
    (aw_payload cfg awd mem be_mem).ext.burst = awd.burst ∧
    (aw_payload cfg awd mem be_mem).ext.cache = awd.cache ∧
    (aw_payload cfg awd mem be_mem).ext.prot = awd.prot ∧
    (aw_payload cfg awd mem be_mem).ext.qos = awd.qos ∧
    (aw_payload cfg awd mem be_mem).ext.region = awd.region ∧
    (aw_payload cfg awd mem be_mem).ext.snoop = awd.snoop ∧
    (aw_payload cfg awd mem be_mem).ext.barrier = awd.bar ∧
    (aw_payload cfg awd mem be_mem).ext.exclusive = awd.lock ∧
    (aw_payload cfg awd mem be_mem).ext.stash_nid = awd.stashnid ∧
    (aw_payload cfg awd mem be_mem).ext.stash_lpid = awd.stashlpid ∧
    (aw_payload cfg awd mem be_mem).ext.domain = 0 := by
  obtain ⟨a1, a2, a3, a4, a5, a6, _, _⟩ := allocate_facts
    ((1 <<< awd.size) * (awd.len + 1)) true mem be_mem
  by_cases hu : cfg.USERWIDTH = 0 <;>
    simp [aw_payload, hu, payload.with_ext, ace_extension.set_user, ace_extension.set_exclusive,
      ace_extension.set_stash_lpid, ace_extension.set_stash_nid, ace_extension.set_barrier,
      ace_extension.set_snoop, ace_extension.set_region, ace_extension.set_cache,
      ace_extension.set_qos, ace_extension.set_prot, ace_extension.set_burst,
      ace_extension.set_size, ace_extension.set_length, ace_extension.set_id,
      payload.set_command, payload.set_address, a1, a2, a3, a4, a5, a6, into]

theorem aw_sample_eq (pins : aw_pins) (st : bridge) (hv : pins.aw_valid = true) :
    aw_sample pins st
      = .ok { st with aw_que := st.aw_que ++ [aw_entry pins], aw_ready := false } := by
  simp [aw_sample, hv]

/-- C11: when `aw_t` accepts an address-write beat it appends one entry to the pending-address
queue, and whenever `wdata_t` opens a burst with that entry the oldest in the queue, the
transaction it creates (owned by the new handle in `active_req[WRITE]`) is a write command at
`aw_addr` whose extension carries id, length, size, burst, cache, prot, qos, region, snoop and
barrier as sampled from the pins, and whose exclusive flag equals `aw_lock`. -/
theorem write_open_attributes (cfg : CFG) (pins : aw_pins) (st : bridge)
    (hv : pins.aw_valid = true) :
    ∃ st1 awd, aw_sample pins st = .ok st1 ∧ st1.aw_que = st.aw_que ++ [awd] ∧
      ∀ (st2 : bridge) (rest : List aw_data), st2.aw_que = awd :: rest →
        ∃ st3 h, wdata_open cfg st2 = .ok st3 ∧
          st3.aw_que = rest ∧
          st3.active_req .TLM_WRITE_COMMAND = some st2.handles.length ∧
          st3.active_req_beat .TLM_WRITE_COMMAND = some st2.handles.length ∧
          st3.handles[st2.handles.length]? = some h ∧
          h.trans.command = .TLM_WRITE_COMMAND ∧
          h.trans.address = pins.aw_addr ∧
          h.trans.ext.id = pins.aw_id ∧
          h.trans.ext.length = pins.aw_len ∧
          h.trans.ext.size = pins.aw_size ∧
          h.trans.ext.burst = pins.aw_burst ∧
          h.trans.ext.cache = pins.aw_cache ∧
          h.trans.ext.prot = pins.aw_prot ∧
          h.trans.ext.qos = pins.aw_qos ∧
          h.trans.ext.region = pins.aw_region ∧
          h.trans.ext.snoop = pins.aw_snoop ∧
          h.trans.ext.barrier = pins.aw_bar ∧
          h.trans.ext.exclusive = pins.aw_lock := by
  refine ⟨_, aw_entry pins, aw_sample_eq pins st hv, rfl, ?_⟩
  intro st2 rest hq
  obtain ⟨f1, f2, _, _, _, f6, f7⟩ := aw_payload_facts cfg (aw_entry pins) st2.fresh st2.fresh_be
  obtain ⟨g1, g2, g3, g4, g5, g6, g7, g8, g9, _, _, _⟩ :=
    aw_payload_attrs cfg (aw_entry pins) st2.fresh st2.fresh_be
  refine ⟨_, opened_handle cfg (aw_entry pins) st2.fresh st2.fresh_be,
    wdata_open_eq cfg st2 (aw_entry pins) rest hq, rfl, ?_, ?_,
    opened_handle_get cfg (aw_entry pins) rest st2, f1, f2, g1, f7, f6, g2, g3, g4, g5, g6, g7,
    g8, ?_⟩
  · simp [after_open, slots.set]
  · simp [after_open, slots.set]
  · rw [show (opened_handle cfg (aw_entry pins) st2.fresh st2.fresh_be).trans
        = aw_payload cfg (aw_entry pins) st2.fresh st2.fresh_be from rfl, g9]
    cases hl : pins.aw_lock <;> simp [aw_entry, hl]

/-- Witness of C11: an address-write beat with `aw_lock` asserted, accepted by a bridge after
construction, and the transaction opened from it. -/
theorem write_open_attributes_witness :
    (sampleAwPins 1 false 5 false 3).aw_valid = true ∧
    (∃ st1 awd, aw_sample (sampleAwPins 1 false 5 false 3)
          (bridge.init (constBuffer 0) (constBuffer 0)) = .ok st1 ∧
        st1.aw_que = [] ++ [awd] ∧
        ∀ (st2 : bridge) (rest : List aw_data), st2.aw_que = awd :: rest →
          ∃ st3 h, wdata_open ⟨64, 0⟩ st2 = .ok st3 ∧
            st3.aw_que = rest ∧
            st3.active_req .TLM_WRITE_COMMAND = some st2.handles.length ∧
            st3.active_req_beat .TLM_WRITE_COMMAND = some st2.handles.length ∧
            st3.handles[st2.handles.length]? = some h ∧
            h.trans.command = .TLM_WRITE_COMMAND ∧
            h.trans.address = 0x3000 ∧
            h.trans.ext.id = 7 ∧
            h.trans.ext.length = 3 ∧
            h.trans.ext.size = 2 ∧
            h.trans.ext.burst = 1 ∧
            h.trans.ext.cache = 0xb ∧
            h.trans.ext.prot = 2 ∧
            h.trans.ext.qos = 5 ∧
            h.trans.ext.region = 9 ∧
            h.trans.ext.snoop = 1 ∧
            h.trans.ext.barrier = 2 ∧
            h.trans.ext.exclusive = true) ∧
    (opened_trans ⟨64, 0⟩ (sampleAwPins 1 false 5 false 3)).map
        (fun gp => (gp.command, gp.address, gp.ext.id, gp.ext.length, gp.ext.size, gp.ext.burst,
          gp.ext.exclusive))
      = some (.TLM_WRITE_COMMAND, 0x3000, 7, 3, 2, 1, true) :=
  ⟨rfl, write_open_attributes ⟨64, 0⟩ (sampleAwPins 1 false 5 false 3)
    (bridge.init (constBuffer 0) (constBuffer 0)) rfl, rfl⟩

/-- C12: the code at the failing input.  The thread `wdata_t` never sets the domain of the
transaction it opens, so the domain is that of a newly created extension whatever `aw_t`
sampled: with `aw_domain = 1` the pending entry holds domain 1 and the opened transaction has
domain 0, while `ar_t` hands the same pin value 1 on `ar_domain` through to the read
transaction. -/
theorem write_open_domain_dropped :
    (∀ (cfg : CFG) (awd : aw_data) (mem be_mem : Buffer),
      (aw_payload cfg awd mem be_mem).ext.domain = 0) ∧
    (aw_entry (sampleAwPins 1 false 0 false 0)).domain = 1 ∧
    (opened_trans ⟨64, 0⟩ (sampleAwPins 1 false 0 false 0)).map (fun gp => gp.ext.domain)
      = some 0 ∧
    (ar_payload ⟨true, 7, 0x3000, 3, 2, 1, 0xb, 2, 5, 9, 1, 1, 2, true⟩ (constBuffer 0)
      (constBuffer 0)).ext.domain = 1 :=
  ⟨fun cfg awd mem be_mem => (aw_payload_attrs cfg awd mem be_mem).2.2.2.2.2.2.2.2.2.2.2,
    rfl, rfl, rfl⟩

/-- C13: the code at the failing input.  The initialiser of `aw_t` selects `0U` when the enable
pin is asserted and the pin value when it is not: with `aw_stashniden` and `aw_stashlpiden`
asserted, `aw_stashnid = 5` and `aw_stashlpid = 3`, the opened transaction carries stash
node-id 0 and stash logical-partition-id 0; with both enables deasserted it carries 5 and 3. -/
theorem write_open_stash_inverted :
    (∀ pins : aw_pins,
      (aw_entry pins).stashnid = (if pins.aw_stashniden then 0 else pins.aw_stashnid) ∧
      (aw_entry pins).stashlpid = (if pins.aw_stashlpiden then 0 else pins.aw_stashlpid)) ∧
    (∀ (cfg : CFG) (awd : aw_data) (mem be_mem : Buffer),
      (aw_payload cfg awd mem be_mem).ext.stash_nid = awd.stashnid ∧
      (aw_payload cfg awd mem be_mem).ext.stash_lpid = awd.stashlpid) ∧
    (opened_trans ⟨64, 0⟩ (sampleAwPins 0 true 5 true 3)).map
        (fun gp => (gp.ext.stash_nid, gp.ext.stash_lpid)) = some (0, 0) ∧
    (opened_trans ⟨64, 0⟩ (sampleAwPins 0 false 5 false 3)).map
        (fun gp => (gp.ext.stash_nid, gp.ext.stash_lpid)) = some (5, 3) :=
  ⟨fun _ => ⟨rfl, rfl⟩,
    fun cfg awd mem be_mem =>
      ⟨(aw_payload_attrs cfg awd mem be_mem).2.2.2.2.2.2.2.2.2.1,
        (aw_payload_attrs cfg awd mem be_mem).2.2.2.2.2.2.2.2.2.2.1⟩,
    rfl, rfl⟩

/-! ## The declared lengths of a transaction -/

theorem ar_payload_lengths (pins : ar_pins) (mem be_mem : Buffer) :
    (ar_payload pins mem be_mem).data_length = (pins.ar_len + 1) * 2 ^ pins.ar_size ∧
    (ar_payload pins mem be_mem).streaming_width = (pins.ar_len + 1) * 2 ^ pins.ar_size := by
  obtain ⟨a1, a2, a3, a4, a5, a6, _, _⟩ := allocate_facts
    ((1 <<< pins.ar_size) * (pins.ar_len + 1)) false mem be_mem
  simp only [Nat.one_shiftLeft] at a1 a2 a3 a4 a5 a6
  rw [Nat.mul_comm (pins.ar_len + 1)]
  cases hl : pins.ar_lock <;> simp [ar_payload, hl, payload.with_ext,
    payload.set_streaming_width, payload.set_command, payload.set_address, a3,
    Nat.one_shiftLeft]


/-! ## The allocator -/

theorem create_small_byte_enable (sz : Nat) (h : sz ≤ 4096) :
    ∃ n, (tlm_gp_mm.create sz true).be_ptr = some n ∧ sz ≤ n ∧
      (tlm_gp_mm.create sz true).data_ptr = n := by
  unfold tlm_gp_mm.create tlm_gp_mm_t
  simp only [↓reduceIte]
  split_ifs with h1 h2 h3 h4 h5
  · omega
  · exact ⟨4096, rfl, h, rfl⟩
  · exact ⟨1024, rfl, by omega, rfl⟩
  · exact ⟨256, rfl, by omega, rfl⟩
  · exact ⟨64, rfl, by omega, rfl⟩
  · exact ⟨16, rfl, by omega, rfl⟩

/-- C15: the code at the failing input.  For `sz = 4097` and `be = true` the function
`tlm_gp_mm::create` returns a `tlm_gp_mm_v`, whose `be_ptr` is `nullptr`, and `add_data_ptr`
leaves the payload with a null byte-enable pointer and byte-enable length 4097; so does
`wdata_t` for a burst of 256 beats of 32 bytes.  The same holds for every `sz > 4096`, while
for `sz ≤ 4096` the byte-enable array is there and holds at least `sz` bytes. -/
theorem create_large_no_byte_enable :
    (tlm_gp_mm.create 4097 true).be_ptr = none ∧
    (add_data_ptr 4097 (allocate 0 false (constBuffer 0) (constBuffer 0)) true).byte_enable_ptr
      = none ∧
    (add_data_ptr 4097 (allocate 0 false (constBuffer 0) (constBuffer 0)) true).byte_enable_length
      = 4097 ∧
    (aw_payload ⟨256, 0⟩ (sampleAw 0 5 255) (constBuffer 0) (constBuffer 0)).byte_enable_ptr
      = none ∧
    (aw_payload ⟨256, 0⟩ (sampleAw 0 5 255) (constBuffer 0) (constBuffer 0)).byte_enable_length
      = 8192 ∧
    (∀ (sz : Nat) (gp : payload), 4096 < sz →
      (tlm_gp_mm.create sz true).be_ptr = none ∧
      (add_data_ptr sz gp true).byte_enable_ptr = none ∧
      (add_data_ptr sz gp true).byte_enable_length = sz) ∧
    (∀ (sz : Nat) (gp : payload), sz ≤ 4096 →
      ∃ n, (tlm_gp_mm.create sz true).be_ptr = some n ∧ sz ≤ n ∧
        (add_data_ptr sz gp true).byte_enable_ptr = some n ∧
        (add_data_ptr sz gp true).byte_enable_length = sz) := by
  refine ⟨rfl, rfl, rfl, rfl, rfl, ?_, ?_⟩
  · intro sz gp h
    have hc : tlm_gp_mm.create sz true = tlm_gp_mm_v sz := by
      simp [tlm_gp_mm.create, h]
    simp [add_data_ptr, hc, tlm_gp_mm_v, payload.set_byte_enable_length,
      payload.set_byte_enable_ptr, payload.set_data_length, payload.set_data_ptr]
  · intro sz gp h
    obtain ⟨n, h1, h2, _⟩ := create_small_byte_enable sz h
    exact ⟨n, h1, h2, by
      simp [add_data_ptr, h1, payload.set_byte_enable_length,
        payload.set_byte_enable_ptr, payload.set_data_length, payload.set_data_ptr]⟩

theorem create_data_facts (sz : Nat) (be : Bool) :
    (tlm_gp_mm.create sz be).data_size = sz ∧
    (tlm_gp_mm.create sz be).data_ptr =
      if sz > 4096 then sz else if sz > 1024 then 4096 else if sz > 256 then 1024
      else if sz > 64 then 256 else if sz > 16 then 64 else 16 := by
  unfold tlm_gp_mm.create tlm_gp_mm_t tlm_gp_mm_v
  split_ifs <;> exact ⟨rfl, rfl⟩

theorem create_data_ge (sz : Nat) (be : Bool) : sz ≤ (tlm_gp_mm.create sz be).data_ptr := by
  rw [(create_data_facts sz be).2]
  split_ifs <;> omega

/-- C28: for every requested size `sz` and either value of `be`, the extension returned by
`tlm_gp_mm::create` has `data_size = sz` and a data array of at least `sz` bytes; for
`sz <= 4096` the array has the smallest of the sizes 16, 64, 256, 1024, 4096 that is at least
`sz`, and for `sz > 4096` it has exactly `sz` bytes. -/
theorem create_capacity (sz : Nat) (be : Bool) :
    (tlm_gp_mm.create sz be).data_size = sz ∧
    sz ≤ (tlm_gp_mm.create sz be).data_ptr ∧
    (sz ≤ 16 → (tlm_gp_mm.create sz be).data_ptr = 16) ∧
    (16 < sz → sz ≤ 64 → (tlm_gp_mm.create sz be).data_ptr = 64) ∧
    (64 < sz → sz ≤ 256 → (tlm_gp_mm.create sz be).data_ptr = 256) ∧
    (256 < sz → sz ≤ 1024 → (tlm_gp_mm.create sz be).data_ptr = 1024) ∧
    (1024 < sz → sz ≤ 4096 → (tlm_gp_mm.create sz be).data_ptr = 4096) ∧
    (4096 < sz → (tlm_gp_mm.create sz be).data_ptr = sz) ∧
    (tlm_gp_mm.create 0 false).data_ptr = 16 ∧
    (tlm_gp_mm.create 16 true).data_ptr = 16 ∧
    (tlm_gp_mm.create 17 false).data_ptr = 64 ∧
    (tlm_gp_mm.create 4096 true).data_ptr = 4096 ∧
    (tlm_gp_mm.create 4097 true).data_ptr = 4097 := by
  obtain ⟨k1, k2⟩ := create_data_facts sz be
  refine ⟨k1, ?_, ?_, ?_, ?_, ?_, ?_, ?_, rfl, rfl, rfl, rfl, rfl⟩ <;>
    (rw [k2]; split_ifs <;> omega)

/-! ## Idempotence of the beat packers -/

theorem beat_copies_congr_size (cfg : CFG) (h h' : fsm_handle)
    (hb : h'.beat_count = h.beat_count) (ha : h'.trans.address = h.trans.address)
    (hl : h'.trans.data_length = h.trans.data_length)
    (hs : h'.trans.ext.size = h.trans.ext.size) :
    beat_copies cfg h' = beat_copies cfg h := by
  unfold beat_copies unaligned_multi_beat beat_start_idx beat_offset beat_byte_offset
    get_burst_size
  rw [hb, ha, hl, hs]

theorem fold_store_agree (w strb : Nat) (L : List (Nat × Nat)) (h h' : fsm_handle)
    (hd : ∀ p, (∀ c ∈ L, c.1 ≠ p) → h.trans.data p = h'.trans.data p)
    (he : ∀ p, (∀ c ∈ L, c.1 ≠ p) → h.trans.byte_enable p = h'.trans.byte_enable p) (p : Nat) :
    (L.foldl (fun x c => wdata_store w strb x c.1 c.2) h).trans.data p
      = (L.foldl (fun x c => wdata_store w strb x c.1 c.2) h').trans.data p ∧
    (L.foldl (fun x c => wdata_store w strb x c.1 c.2) h).trans.byte_enable p
      = (L.foldl (fun x c => wdata_store w strb x c.1 c.2) h').trans.byte_enable p := by
  induction L generalizing h h' with
  | nil => exact ⟨hd p (fun _ hc => by cases hc), he p (fun _ hc => by cases hc)⟩
  | cons c L ih =>
    simp only [List.foldl_cons]
    apply ih
    · intro q hq
      by_cases hqc : c.1 = q
      · simp [wdata_store, Buffer.write, hqc]
      · have := hd q (fun c' hc' => by
          rcases List.mem_cons.1 hc' with rfl | hm
          · exact hqc
          · exact hq c' hm)
        simp [wdata_store, Buffer.write, Ne.symm hqc, this]
    · intro q hq
      by_cases hqc : c.1 = q
      · simp [wdata_store, Buffer.write, hqc]
      · have := he q (fun c' hc' => by
          rcases List.mem_cons.1 hc' with rfl | hm
          · exact hqc
          · exact hq c' hm)
        simp [wdata_store, Buffer.write, Ne.symm hqc, this]

/-- C16: the word returned by `get_read_data_for_beat` is a function of the beat counter, the
address, the size attribute, the data length and the data buffer of the transaction alone (two
handles that agree on these give the same word, so a run with unchanged inputs repeats the
word), and the write packer of `wdata_t` applied a second time with the same data word and
strobe leaves the data buffer and the byte-enable buffer, and the attributes and lengths of
the transaction, as they are after the first application. -/
theorem packer_idempotent (cfg : CFG) (h h' : fsm_handle) (w strb : Nat) :
    (h'.beat_count = h.beat_count → h'.trans.address = h.trans.address →
      h'.trans.ext.size = h.trans.ext.size → h'.trans.data_length = h.trans.data_length →
      h'.trans.data = h.trans.data →
      get_read_data_for_beat cfg h' = get_read_data_for_beat cfg h) ∧
    (wdata_pack cfg (wdata_pack cfg h w strb) w strb).trans.data
      = (wdata_pack cfg h w strb).trans.data ∧
    (wdata_pack cfg (wdata_pack cfg h w strb) w strb).trans.byte_enable
      = (wdata_pack cfg h w strb).trans.byte_enable ∧
    (wdata_pack cfg (wdata_pack cfg h w strb) w strb).trans.address
      = (wdata_pack cfg h w strb).trans.address ∧
    (wdata_pack cfg (wdata_pack cfg h w strb) w strb).trans.data_length
      = (wdata_pack cfg h w strb).trans.data_length ∧
    (wdata_pack cfg (wdata_pack cfg h w strb) w strb).trans.byte_enable_length
      = (wdata_pack cfg h w strb).trans.byte_enable_length ∧
    (wdata_pack cfg (wdata_pack cfg h w strb) w strb).trans.ext
      = (wdata_pack cfg h w strb).trans.ext ∧
    (wdata_pack cfg (wdata_pack cfg h w strb) w strb).beat_count
      = (wdata_pack cfg h w strb).beat_count := by
  have key : ∀ p,
      (wdata_pack cfg (wdata_pack cfg h w strb) w strb).trans.data p
        = (wdata_pack cfg h w strb).trans.data p ∧
      (wdata_pack cfg (wdata_pack cfg h w strb) w strb).trans.byte_enable p
        = (wdata_pack cfg h w strb).trans.byte_enable p := by
    intro p
    rw [pack_eq_fold cfg (wdata_pack cfg h w strb), pack_copies, pack_eq_fold]
    exact fold_store_agree w strb (beat_copies cfg h) _ h
      (fun q hq => (fold_store_other w strb _ h q hq).1)
      (fun q hq => (fold_store_other w strb _ h q hq).2) p
  obtain ⟨a1, a2, _, a4, a5, _, a7⟩ :=
    fold_store_frame w strb (beat_copies cfg (wdata_pack cfg h w strb)) (wdata_pack cfg h w strb)
  rw [← pack_eq_fold] at a1 a2 a4 a5 a7
  refine ⟨?_, funext fun p => (key p).1, funext fun p => (key p).2, a2, a4, a5, a7, a1⟩
  intro hb ha hs hl hd
  rw [read_eq_fold, read_eq_fold, beat_copies_congr_size cfg h h' hb ha hl hs, hd]

/-! ## The un-aligned multi-beat branch -/

theorem unaligned_of_conds (cfg : CFG) (h : fsm_handle) (hoff : beat_offset cfg h ≠ 0)
    (hsp : get_burst_size h.trans + beat_offset cfg h > cfg.BUSWIDTH / 8) :
    unaligned_multi_beat cfg h = true := by
  simp [unaligned_multi_beat, hoff, hsp]

theorem copies_first_list (cfg : CFG) (h : fsm_handle) (hu : unaligned_multi_beat cfg h = true)
    (hb : h.beat_count = 0) :
    beat_copies cfg h = (List.range (get_burst_size h.trans - beat_offset cfg h)).map
      (fun j => (j, beat_offset cfg h + j)) := by
  rw [copies_eq_first cfg h hu hb, List.range'_eq_map_range, List.map_map]
  apply List.map_congr_left
  intro j _
  simp

/-- C18: beat 0 of an access that takes the un-aligned multi-beat branch (`offset != 0` and
`size + offset > BUSWIDTH / 8`).  Both copy loops visit the pairs (buffer byte `j`, bus lane
`offset + j`) for `j < size - offset` (none when `offset >= size`) and no other: the word
returned by `get_read_data_for_beat` carries data byte `j` on lane `offset + j` and 0 on every
lane outside `[offset, size)`; the write packer of `wdata_t` stores lane `offset + j` into data
byte `j`, sets byte-enable entry `j` after strobe bit `offset + j`, and leaves the data and
byte-enable bytes from `size - offset` on as they were. -/
theorem first_beat_unaligned (cfg : CFG) (fsm_hndl : fsm_handle) (w strb : Nat)
    (hoff : beat_offset cfg fsm_hndl ≠ 0)
    (hsp : get_burst_size fsm_hndl.trans + beat_offset cfg fsm_hndl > cfg.BUSWIDTH / 8)
    (hb : fsm_hndl.beat_count = 0) :
    beat_copies cfg fsm_hndl
      = (List.range (get_burst_size fsm_hndl.trans - beat_offset cfg fsm_hndl)).map
          (fun j => (j, beat_offset cfg fsm_hndl + j)) ∧
    (∀ j, j < get_burst_size fsm_hndl.trans - beat_offset cfg fsm_hndl →
      getLane (get_read_data_for_beat cfg fsm_hndl) (beat_offset cfg fsm_hndl + j)
        = (fsm_hndl.trans.data j).val) ∧
    (∀ l, (l < beat_offset cfg fsm_hndl ∨ get_burst_size fsm_hndl.trans ≤ l) →
      getLane (get_read_data_for_beat cfg fsm_hndl) l = 0) ∧
    (∀ j, j < get_burst_size fsm_hndl.trans - beat_offset cfg fsm_hndl →
      (wdata_pack cfg fsm_hndl w strb).trans.data j
        = laneByte w (beat_offset cfg fsm_hndl + j) ∧
      (wdata_pack cfg fsm_hndl w strb).trans.byte_enable j
        = (if strb.testBit (beat_offset cfg fsm_hndl + j) then 0xff else 0)) ∧
    (∀ p, get_burst_size fsm_hndl.trans - beat_offset cfg fsm_hndl ≤ p →
      (wdata_pack cfg fsm_hndl w strb).trans.data p = fsm_hndl.trans.data p ∧
      (wdata_pack cfg fsm_hndl w strb).trans.byte_enable p = fsm_hndl.trans.byte_enable p) := by
  have hu := unaligned_of_conds cfg fsm_hndl hoff hsp
  have hc := copies_first_list cfg fsm_hndl hu hb
  have hmem : ∀ j, j < get_burst_size fsm_hndl.trans - beat_offset cfg fsm_hndl →
      (j, beat_offset cfg fsm_hndl + j) ∈ beat_copies cfg fsm_hndl := fun j hj => by
    rw [hc]; exact List.mem_map.2 ⟨j, List.mem_range.2 hj, rfl⟩
  have hcells : ((beat_copies cfg fsm_hndl).map Prod.fst).Nodup := by
    rw [hc, List.map_map]
    exact (List.nodup_range _).map_on (fun x _ y _ hxy => by simpa using hxy)
  refine ⟨hc, ?_, ?_, ?_, ?_⟩
  · intro j hj
    rw [read_eq_fold]
    exact fold_setLane_mem _ _ _ _ _ (copies_lanes_nodup cfg fsm_hndl) (hmem j hj)
  · intro l hl
    rw [read_eq_fold, fold_setLane_other, getLane_zero]
    intro c hcm heq
    rw [hc] at hcm
    obtain ⟨j, hj, rfl⟩ := List.mem_map.1 hcm
    have hj' := List.mem_range.1 hj
    simp only at heq
    omega
  · intro j hj
    rw [pack_eq_fold]
    exact fold_store_mem w strb _ fsm_hndl j _ hcells (hmem j hj)
  · intro p hp
    rw [pack_eq_fold]
    refine fold_store_other w strb _ fsm_hndl p ?_
    intro c hcm heq
    rw [hc] at hcm
    obtain ⟨j, hj, rfl⟩ := List.mem_map.1 hcm
    have hj' := List.mem_range.1 hj
    simp only at heq
    omega

/-- Witness of C18: 64-bit bus, beat size 8, address 3, beat 0 (`offset = 3`): five bytes are
copied, data bytes 0..4 on lanes 3..7. -/
theorem first_beat_unaligned_witness :
    beat_offset ⟨64, 0⟩ (sampleHandle .TLM_WRITE_COMMAND 3 3 1 0 0 rampBuffer (constBuffer 0x55))
      = 3 ∧
    beat_copies ⟨64, 0⟩ (sampleHandle .TLM_WRITE_COMMAND 3 3 1 0 0 rampBuffer (constBuffer 0x55))
      = [(0, 3), (1, 4), (2, 5), (3, 6), (4, 7)] ∧
    getLane (get_read_data_for_beat ⟨64, 0⟩
      (sampleHandle .TLM_WRITE_COMMAND 3 3 1 0 0 rampBuffer (constBuffer 0x55))) 4 = 1 ∧
    getLane (get_read_data_for_beat ⟨64, 0⟩
      (sampleHandle .TLM_WRITE_COMMAND 3 3 1 0 0 rampBuffer (constBuffer 0x55))) 7 = 4 ∧
    getLane (get_read_data_for_beat ⟨64, 0⟩
      (sampleHandle .TLM_WRITE_COMMAND 3 3 1 0 0 rampBuffer (constBuffer 0x55))) 2 = 0 ∧
    (wdata_pack ⟨64, 0⟩
      (sampleHandle .TLM_WRITE_COMMAND 3 3 1 0 0 rampBuffer (constBuffer 0x55))
      0x8877665544332211 0xff).trans.data 0 = 0x44 ∧
    (wdata_pack ⟨64, 0⟩
      (sampleHandle .TLM_WRITE_COMMAND 3 3 1 0 0 rampBuffer (constBuffer 0x55))
      0x8877665544332211 0xff).trans.data 4 = 0x88 ∧
    (wdata_pack ⟨64, 0⟩
      (sampleHandle .TLM_WRITE_COMMAND 3 3 1 0 0 rampBuffer (constBuffer 0x55))
      0x8877665544332211 0xff).trans.data 5 = 5 ∧
    (wdata_pack ⟨64, 0⟩
      (sampleHandle .TLM_WRITE_COMMAND 3 3 1 0 0 rampBuffer (constBuffer 0x55))
      0x8877665544332211 0xff).trans.byte_enable 5 = 0x55 :=
  have key := first_beat_unaligned ⟨64, 0⟩
    (sampleHandle .TLM_WRITE_COMMAND 3 3 1 0 0 rampBuffer (constBuffer 0x55))
    0x8877665544332211 0xff (by decide) (by decide) rfl
  ⟨by decide, key.1, key.2.1 1 (by decide), key.2.1 4 (by decide),
    key.2.2.1 2 (Or.inl (by decide)), (key.2.2.2.1 0 (by decide)).1,
    (key.2.2.2.1 4 (by decide)).1, (key.2.2.2.2 5 (by decide)).1,
    (key.2.2.2.2 5 (by decide)).2⟩

theorem later_start_idx (cfg : CFG) (h : fsm_handle)
    (hprod : h.beat_count * get_burst_size h.trans < 2 ^ 32)
    (hle : beat_offset cfg h ≤ h.beat_count * get_burst_size h.trans) :
    beat_byte_offset h = h.beat_count * get_burst_size h.trans ∧
    beat_start_idx cfg h = h.beat_count * get_burst_size h.trans - beat_offset cfg h := by
  have hbo : beat_byte_offset h = h.beat_count * get_burst_size h.trans :=
    Nat.mod_eq_of_lt hprod
  refine ⟨hbo, ?_⟩
  unfold beat_start_idx
  rw [hbo]
  have h32 : (2 : Nat) ^ 32 = 4294967296 := by norm_num
  have h64 : (2 : Nat) ^ 64 = 18446744073709551616 := by norm_num
  rw [h32] at hprod
  rw [h64]
  omega

theorem later_beat_copies (cfg : CFG) (h : fsm_handle)
    (hu : unaligned_multi_beat cfg h = true) (hb : h.beat_count ≠ 0)
    (hprod : h.beat_count * get_burst_size h.trans < 2 ^ 32)
    (hle : beat_offset cfg h ≤ h.beat_count * get_burst_size h.trans) :
    beat_copies cfg h
      = (List.range (min (get_burst_size h.trans)
          (h.trans.data_length
            - (h.beat_count * get_burst_size h.trans - beat_offset cfg h)))).map
        (fun i => (h.beat_count * get_burst_size h.trans - beat_offset cfg h + i, i)) := by
  obtain ⟨_, hbsi⟩ := later_start_idx cfg h hprod hle
  obtain ⟨m, hm, hc, hin, hout⟩ := copies_eq_later cfg h hu hb
  have h32 : (2 : Nat) ^ 32 = 4294967296 := by norm_num
  have h64 : (2 : Nat) ^ 64 = 18446744073709551616 := by norm_num
  have hspos : 0 < get_burst_size h.trans := Nat.pos_pow_of_pos _ (by decide)
  have hs : get_burst_size h.trans ≤ h.beat_count * get_burst_size h.trans :=
    Nat.le_mul_of_pos_left _ (Nat.pos_of_ne_zero hb)
  rw [hbsi] at hc hin hout
  rw [h32] at hprod
  have hmod : ∀ i, i ≤ get_burst_size h.trans →
      (h.beat_count * get_burst_size h.trans - beat_offset cfg h + i) % 2 ^ 64
        = h.beat_count * get_burst_size h.trans - beat_offset cfg h + i := fun i hi => by
    apply Nat.mod_eq_of_lt
    rw [h64]; omega
  have hmin : min (get_burst_size h.trans)
      (h.trans.data_length - (h.beat_count * get_burst_size h.trans - beat_offset cfg h))
      = m := by
    rcases Nat.lt_or_ge m (get_burst_size h.trans) with hlt | hge
    · have h1 := hout hlt
      rw [hmod m hm] at h1
      rcases Nat.eq_zero_or_pos m with h0 | hpos
      · omega
      · have h2 := hin (m - 1) (by omega)
        rw [hmod (m - 1) (by omega)] at h2
        omega
    · have hms : m = get_burst_size h.trans := by omega
      have h2 := hin (m - 1) (by omega)
      rw [hmod (m - 1) (by omega)] at h2
      omega
  rw [hmin, hc, List.range_eq_range']
  apply List.map_congr_left
  intro i hi
  have hi' : i < m := by simpa [List.mem_range'_1] using hi
  simp only [Prod.mk.injEq, and_true]
  exact hmod i (by omega)

theorem later_beat_bounds (cfg : CFG) (h : fsm_handle)
    (hu : unaligned_multi_beat cfg h = true) (hb : h.beat_count ≠ 0) :
    ∀ c ∈ beat_copies cfg h, c.1 < h.trans.data_length ∧ c.2 < get_burst_size h.trans := by
  obtain ⟨m, hm, hc, hin, _⟩ := copies_eq_later cfg h hu hb
  intro c hcm
  rw [hc] at hcm
  obtain ⟨i, hi, rfl⟩ := List.mem_map.1 hcm
  have hi' : i < m := by simpa [List.mem_range'_1] using hi
  exact ⟨hin i hi', by simp only; omega⟩

theorem later_beat_no_wrap (cfg : CFG) (h : fsm_handle) (w strb : Nat)
    (hu : unaligned_multi_beat cfg h = true) (hb : h.beat_count ≠ 0)
    (hprod : h.beat_count * get_burst_size h.trans < 2 ^ 32)
    (hle : beat_offset cfg h ≤ h.beat_count * get_burst_size h.trans) :
    beat_start_idx cfg h = spec_beat_start_idx cfg h ∧
    beat_copies cfg h = (List.range (spec_copy_count cfg h)).map
      (fun i => (spec_beat_start_idx cfg h + i, i)) ∧
    (∀ i, i < spec_copy_count cfg h →
      getLane (get_read_data_for_beat cfg h) i
        = (h.trans.data (spec_beat_start_idx cfg h + i)).val) ∧
    (∀ l, spec_copy_count cfg h ≤ l → getLane (get_read_data_for_beat cfg h) l = 0) ∧
    (∀ i, i < spec_copy_count cfg h →
      (wdata_pack cfg h w strb).trans.data (spec_beat_start_idx cfg h + i) = laneByte w i ∧
      (wdata_pack cfg h w strb).trans.byte_enable (spec_beat_start_idx cfg h + i)
        = (if strb.testBit i then 0xff else 0)) ∧
    (∀ p, (p < spec_beat_start_idx cfg h ∨
        spec_beat_start_idx cfg h + spec_copy_count cfg h ≤ p) →
      (wdata_pack cfg h w strb).trans.data p = h.trans.data p ∧
      (wdata_pack cfg h w strb).trans.byte_enable p = h.trans.byte_enable p) := by
  have hc : beat_copies cfg h = (List.range (spec_copy_count cfg h)).map
      (fun i => (spec_beat_start_idx cfg h + i, i)) := later_beat_copies cfg h hu hb hprod hle
  have hmem : ∀ i, i < spec_copy_count cfg h →
      (spec_beat_start_idx cfg h + i, i) ∈ beat_copies cfg h := fun i hi => by
    rw [hc]; exact List.mem_map.2 ⟨i, List.mem_range.2 hi, rfl⟩
  have hcells : ((beat_copies cfg h).map Prod.fst).Nodup := by
    rw [hc, List.map_map]
    exact (List.nodup_range _).map_on (fun x _ y _ hxy => by simpa using hxy)
  refine ⟨(later_start_idx cfg h hprod hle).2, hc, ?_, ?_, ?_, ?_⟩
  · intro i hi
    rw [read_eq_fold]
    exact fold_setLane_mem _ _ _ _ _ (copies_lanes_nodup cfg h) (hmem i hi)
  · intro l hl
    rw [read_eq_fold, fold_setLane_other, getLane_zero]
    intro c hcm heq
    rw [hc] at hcm
    obtain ⟨i, hi, rfl⟩ := List.mem_map.1 hcm
    have hi' := List.mem_range.1 hi
    simp only at heq
    omega
  · intro i hi
    rw [pack_eq_fold]
    exact fold_store_mem w strb _ h _ _ hcells (hmem i hi)
  · intro p hp
    rw [pack_eq_fold]
    refine fold_store_other w strb _ h p ?_
    intro c hcm heq
    rw [hc] at hcm
    obtain ⟨i, hi, rfl⟩ := List.mem_map.1 hcm
    have hi' := List.mem_range.1 hi
    simp only at heq
    omega

/-- C19: the code at the failing input, and where the claim holds.  On a 64-bit bus, beat 1 of
a burst of two 4-byte beats at address 3 (data length 8) takes the un-aligned multi-beat
branch with `byte_offset = 4` and `offset = 7`: the unsigned difference `byte_offset - offset`
wraps to `2^64 - 3`, the loop condition fails at `i = 0`, and both packers copy nothing (the
read word is 0, the write packer leaves buffers and accumulator as they were), where
`min(beat_size, data_length - beat_start_idx)` is 4.  In every later beat of the branch the
buffer bytes touched lie below the data length and the lanes below the beat size; and when the
difference does not wrap (`offset <= b * beat_size`, the product a 32-bit value) the copied
bytes are exactly those of the claim. -/
theorem later_beat_start_wraps :
    (unaligned_multi_beat ⟨64, 0⟩
        (sampleHandle .TLM_WRITE_COMMAND 3 2 1 1 0 rampBuffer (constBuffer 0x55)) = true ∧
      beat_byte_offset (sampleHandle .TLM_WRITE_COMMAND 3 2 1 1 0 rampBuffer (constBuffer 0x55))
        = 4 ∧
      beat_offset ⟨64, 0⟩
        (sampleHandle .TLM_WRITE_COMMAND 3 2 1 1 0 rampBuffer (constBuffer 0x55)) = 7 ∧
      beat_start_idx ⟨64, 0⟩
        (sampleHandle .TLM_WRITE_COMMAND 3 2 1 1 0 rampBuffer (constBuffer 0x55))
        = 2 ^ 64 - 3 ∧
      spec_copy_count ⟨64, 0⟩
        (sampleHandle .TLM_WRITE_COMMAND 3 2 1 1 0 rampBuffer (constBuffer 0x55)) = 4 ∧
      beat_copies ⟨64, 0⟩
        (sampleHandle .TLM_WRITE_COMMAND 3 2 1 1 0 rampBuffer (constBuffer 0x55)) = [] ∧
      get_read_data_for_beat ⟨64, 0⟩
        (sampleHandle .TLM_READ_COMMAND 3 2 1 1 0 rampBuffer (constBuffer 0x55)) = 0 ∧
      (wdata_pack ⟨64, 0⟩
        (sampleHandle .TLM_WRITE_COMMAND 3 2 1 1 0 rampBuffer (constBuffer 0x55))
        0x8877665544332211 0xff).trans.data = rampBuffer ∧
      (wdata_pack ⟨64, 0⟩
        (sampleHandle .TLM_WRITE_COMMAND 3 2 1 1 0 rampBuffer (constBuffer 0x55))
        0x8877665544332211 0xff).trans.byte_enable = constBuffer 0x55 ∧
      (wdata_pack ⟨64, 0⟩
        (sampleHandle .TLM_WRITE_COMMAND 3 2 1 1 0 rampBuffer (constBuffer 0x55))
        0x8877665544332211 0xff).aux_i32_i0 = 0) ∧
    (∀ (cfg : CFG) (h : fsm_handle), unaligned_multi_beat cfg h = true → h.beat_count ≠ 0 →
      ∀ c ∈ beat_copies cfg h, c.1 < h.trans.data_length ∧ c.2 < get_burst_size h.trans) ∧
    (∀ (cfg : CFG) (h : fsm_handle) (w strb : Nat), unaligned_multi_beat cfg h = true →
      h.beat_count ≠ 0 → h.beat_count * get_burst_size h.trans < 2 ^ 32 →
      beat_offset cfg h ≤ h.beat_count * get_burst_size h.trans →
      beat_start_idx cfg h = spec_beat_start_idx cfg h ∧
      beat_copies cfg h = (List.range (spec_copy_count cfg h)).map
        (fun i => (spec_beat_start_idx cfg h + i, i)) ∧
      (∀ i, i < spec_copy_count cfg h →
        getLane (get_read_data_for_beat cfg h) i
          = (h.trans.data (spec_beat_start_idx cfg h + i)).val) ∧
      (∀ l, spec_copy_count cfg h ≤ l → getLane (get_read_data_for_beat cfg h) l = 0) ∧
      (∀ i, i < spec_copy_count cfg h →
        (wdata_pack cfg h w strb).trans.data (spec_beat_start_idx cfg h + i) = laneByte w i ∧
        (wdata_pack cfg h w strb).trans.byte_enable (spec_beat_start_idx cfg h + i)
          = (if strb.testBit i then 0xff else 0)) ∧
      (∀ p, (p < spec_beat_start_idx cfg h ∨
          spec_beat_start_idx cfg h + spec_copy_count cfg h ≤ p) →
        (wdata_pack cfg h w strb).trans.data p = h.trans.data p ∧
        (wdata_pack cfg h w strb).trans.byte_enable p = h.trans.byte_enable p)) :=
  ⟨⟨by decide, by decide, by decide, by decide, by decide, by decide, by decide, rfl, rfl, rfl⟩,
    later_beat_bounds, later_beat_no_wrap⟩
/-! ## Stores of the write packer and the arrays of the transaction -/

theorem copies_cells_lt (cfg : CFG) (h : fsm_handle)
    (hb : h.beat_count ≤ h.trans.ext.length)
    (hl : h.trans.data_length ≤ (h.trans.ext.length + 1) * get_burst_size h.trans) :
    ∀ c ∈ beat_copies cfg h, c.1 < (h.trans.ext.length + 1) * get_burst_size h.trans := by
  have hspos : 0 < get_burst_size h.trans := Nat.pos_pow_of_pos _ (by decide)
  have hN : (h.trans.ext.length + 1) * get_burst_size h.trans
      = h.trans.ext.length * get_burst_size h.trans + get_burst_size h.trans :=
    Nat.succ_mul _ _
  have hbs : h.beat_count * get_burst_size h.trans
      ≤ h.trans.ext.length * get_burst_size h.trans := Nat.mul_le_mul_right _ hb
  have hbo : beat_byte_offset h ≤ h.beat_count * get_burst_size h.trans := Nat.mod_le _ _
  intro c hc
  cases hu : unaligned_multi_beat cfg h with
  | false =>
    rw [copies_eq_aligned cfg h hu] at hc
    obtain ⟨i, hi, rfl⟩ := List.mem_map.1 hc
    have hi' : i < get_burst_size h.trans := by simpa [List.mem_range'_1] using hi
    simp only
    omega
  | true =>
    by_cases hb0 : h.beat_count = 0
    · rw [copies_first_list cfg h hu hb0] at hc
      obtain ⟨j, hj, rfl⟩ := List.mem_map.1 hc
      have hj' := List.mem_range.1 hj
      simp only
      omega
    · have := (later_beat_bounds cfg h hu hb0 c hc).1
      omega

theorem stores_valid_of_fits (cfg : CFG) (h : fsm_handle) (dc bc : Nat)
    (hd : h.trans.data_ptr = some dc) (hbe : h.trans.byte_enable_ptr = some bc)
    (hb : h.beat_count ≤ h.trans.ext.length)
    (hl : h.trans.data_length ≤ (h.trans.ext.length + 1) * get_burst_size h.trans)
    (h1 : (h.trans.ext.length + 1) * get_burst_size h.trans ≤ dc)
    (h2 : (h.trans.ext.length + 1) * get_burst_size h.trans ≤ bc) :
    wdata_stores_valid cfg h = true := by
  unfold wdata_stores_valid
  rw [List.all_eq_true]
  intro c hc
  have := copies_cells_lt cfg h hb hl c hc
  simp only [hd, hbe, Bool.and_eq_true, decide_eq_true_eq]
  omega

theorem stores_valid_null (cfg : CFG) (h : fsm_handle) (hbe : h.trans.byte_enable_ptr = none)
    (hv : wdata_stores_valid cfg h = true) : beat_copies cfg h = [] := by
  unfold wdata_stores_valid at hv
  rw [List.all_eq_true] at hv
  cases hc : beat_copies cfg h with
  | nil => rfl
  | cons c L =>
    have := hv c (by rw [hc]; exact List.mem_cons_self _ _)
    simp [hbe] at this

theorem fold_store_ptrs (w strb : Nat) (L : List (Nat × Nat)) (h : fsm_handle) :
    (L.foldl (fun h' c => wdata_store w strb h' c.1 c.2) h).trans.data_ptr = h.trans.data_ptr ∧
    (L.foldl (fun h' c => wdata_store w strb h' c.1 c.2) h).trans.byte_enable_ptr
      = h.trans.byte_enable_ptr := by
  induction L generalizing h with
  | nil => exact ⟨rfl, rfl⟩
  | cons c L ih =>
    simp only [List.foldl_cons]
    exact ih (wdata_store w strb h c.1 c.2)

theorem beat_done_ptrs (cfg : CFG) (p : w_pins) (h : fsm_handle) :
    (beat_done cfg p h).trans.data_ptr = h.trans.data_ptr ∧
    (beat_done cfg p h).trans.byte_enable_ptr = h.trans.byte_enable_ptr := by
  obtain ⟨p1, p2⟩ := fold_store_ptrs p.w_data p.w_strb (beat_copies cfg h) h
  rw [← pack_eq_fold] at p1 p2
  unfold beat_done wdata_truncate
  cases p.w_last <;> exact ⟨p1, p2⟩

theorem burst_handle_ptrs (cfg : CFG) (ps : List w_pins) :
    ∀ h : fsm_handle, (burst_handle cfg ps h).trans.data_ptr = h.trans.data_ptr ∧
      (burst_handle cfg ps h).trans.byte_enable_ptr = h.trans.byte_enable_ptr := by
  induction ps with
  | nil => intro h; exact ⟨rfl, rfl⟩
  | cons p ps ih =>
    intro h
    obtain ⟨a1, a2⟩ := ih (beat_done cfg p h)
    obtain ⟨b1, b2⟩ := beat_done_ptrs cfg p h
    exact ⟨a1.trans b1, a2.trans b2⟩

theorem aw_payload_ptrs (cfg : CFG) (awd : aw_data) (mem be_mem : Buffer) :
    (aw_payload cfg awd mem be_mem).data_ptr
      = some (tlm_gp_mm.create (2 ^ awd.size * (awd.len + 1)) true).data_ptr ∧
    (aw_payload cfg awd mem be_mem).byte_enable_ptr
      = (tlm_gp_mm.create (2 ^ awd.size * (awd.len + 1)) true).be_ptr := by
  have hpos : 2 ^ awd.size * (awd.len + 1) ≠ 0 :=
    Nat.mul_ne_zero (Nat.pos_iff_ne_zero.1 (Nat.pos_pow_of_pos _ (by decide))) (by omega)
  by_cases hu : cfg.USERWIDTH = 0 <;>
    simp [aw_payload, allocate, add_data_ptr, hu, hpos, payload.with_ext, payload.set_command,
      payload.set_address, payload.set_data_ptr, payload.set_data_length,
      payload.set_byte_enable_ptr, payload.set_byte_enable_length, Nat.one_shiftLeft]

theorem burst_valid_of_fits (cfg : CFG) (ps : List w_pins) (dc bc : Nat) :
    ∀ h : fsm_handle, (∀ p ∈ ps, p.w_last = false) →
      h.trans.data_ptr = some dc → h.trans.byte_enable_ptr = some bc →
      h.beat_count + ps.length ≤ h.trans.ext.length + 1 →
      h.beat_count + ps.length < 2 ^ 32 →
      h.trans.data_length ≤ (h.trans.ext.length + 1) * get_burst_size h.trans →
      (h.trans.ext.length + 1) * get_burst_size h.trans ≤ dc →
      (h.trans.ext.length + 1) * get_burst_size h.trans ≤ bc →
      burst_stores_valid cfg ps h = true := by
  induction ps with
  | nil => intro h _ _ _ _ _ _ _ _; rfl
  | cons p ps ih =>
    intro h hall hd hbe hcnt h32 hl h1 h2
    simp only [List.length_cons] at hcnt h32
    have hpl : p.w_last = false := hall p (List.mem_cons_self _ _)
    obtain ⟨d1, _, _, _, _, d6⟩ := beat_done_facts cfg p h
    obtain ⟨l1, _, _⟩ := (beat_done_lengths cfg p h).1 hpl
    obtain ⟨q1, q2⟩ := beat_done_ptrs cfg p h
    have e32 : (2 : Nat) ^ 32 = 4294967296 := by norm_num
    have hcount : (beat_done cfg p h).beat_count = h.beat_count + 1 := by
      rw [d1, e32]; rw [e32] at h32; omega
    have hsz : get_burst_size (beat_done cfg p h).trans = get_burst_size h.trans := by
      show 2 ^ (beat_done cfg p h).trans.ext.size = 2 ^ h.trans.ext.size
      rw [d6]
    simp only [burst_stores_valid, Bool.and_eq_true]
    refine ⟨stores_valid_of_fits cfg h dc bc hd hbe (by omega) hl h1 h2, ?_⟩
    exact ih (beat_done cfg p h) (fun q hq => hall q (List.mem_cons_of_mem _ hq))
      (q1.trans hd) (q2.trans hbe) (by rw [hcount, d6]; omega) (by rw [hcount]; omega)
      (by rw [l1, d6, hsz]; exact hl) (by rw [d6, hsz]; exact h1) (by rw [d6, hsz]; exact h2)

theorem opened_handle_fits (cfg : CFG) (awd : aw_data) (mem be_mem : Buffer)
    (hfit : 2 ^ awd.size * (awd.len + 1) ≤ 4096) :
    ∃ dc bc, (opened_handle cfg awd mem be_mem).trans.data_ptr = some dc ∧
      (opened_handle cfg awd mem be_mem).trans.byte_enable_ptr = some bc ∧
      (opened_handle cfg awd mem be_mem).trans.ext.length = awd.len ∧
      get_burst_size (opened_handle cfg awd mem be_mem).trans = 2 ^ awd.size ∧
      (opened_handle cfg awd mem be_mem).trans.data_length = (awd.len + 1) * 2 ^ awd.size ∧
      (awd.len + 1) * 2 ^ awd.size ≤ dc ∧ (awd.len + 1) * 2 ^ awd.size ≤ bc := by
  obtain ⟨_, _, c3, _, _, c6, c7⟩ := aw_payload_facts cfg awd mem be_mem
  obtain ⟨r1, r2⟩ := aw_payload_ptrs cfg awd mem be_mem
  obtain ⟨n, b1, b2, b3⟩ := create_small_byte_enable (2 ^ awd.size * (awd.len + 1)) hfit
  refine ⟨n, n, ?_, ?_, c7, ?_, ?_, ?_, ?_⟩
  · show (aw_payload cfg awd mem be_mem).data_ptr = some n
    rw [r1, b3]
  · show (aw_payload cfg awd mem be_mem).byte_enable_ptr = some n
    rw [r2, b1]
  · show 2 ^ (aw_payload cfg awd mem be_mem).ext.size = _
    rw [c6]
  · show (aw_payload cfg awd mem be_mem).data_length = _
    rw [c3, Nat.mul_comm]
  · rw [Nat.mul_comm]; exact b2
  · rw [Nat.mul_comm]; exact b2

theorem write_prefix_valid (cfg : CFG) (awd : aw_data) (mem be_mem : Buffer) (pre : List w_pins)
    (hpre : ∀ p ∈ pre, p.w_last = false) (hfit : 2 ^ awd.size * (awd.len + 1) ≤ 4096)
    (hlen : pre.length ≤ awd.len + 1) :
    burst_stores_valid cfg pre (opened_handle cfg awd mem be_mem) = true := by
  obtain ⟨dc, bc, o1, o2, o3, o4, o5, o6, o7⟩ := opened_handle_fits cfg awd mem be_mem hfit
  have hpos : 0 < 2 ^ awd.size := Nat.pos_pow_of_pos _ (by decide)
  have hle : awd.len + 1 ≤ 4096 :=
    Nat.le_trans (Nat.le_mul_of_pos_left _ hpos) hfit
  have hb0 : (opened_handle cfg awd mem be_mem).beat_count = 0 := rfl
  exact burst_valid_of_fits cfg pre dc bc _ hpre o1 o2 (by rw [hb0, o3]; omega)
    (by rw [hb0]; norm_num; omega) (by rw [o5, o3, o4]) (by rw [o3, o4]; exact o6)
    (by rw [o3, o4]; exact o7)

theorem write_burst_valid (cfg : CFG) (awd : aw_data) (mem be_mem : Buffer) (pre : List w_pins)
    (pl : w_pins) (hpre : ∀ p ∈ pre, p.w_last = false)
    (hfit : 2 ^ awd.size * (awd.len + 1) ≤ 4096) (hlen : pre.length ≤ awd.len) :
    burst_stores_valid cfg (pre ++ [pl]) (opened_handle cfg awd mem be_mem) = true := by
  obtain ⟨dc, bc, o1, o2, o3, o4, o5, o6, o7⟩ := opened_handle_fits cfg awd mem be_mem hfit
  have hpos : 0 < 2 ^ awd.size := Nat.pos_pow_of_pos _ (by decide)
  have hle : awd.len + 1 ≤ 4096 :=
    Nat.le_trans (Nat.le_mul_of_pos_left _ hpos) hfit
  obtain ⟨n1, _, n3, _, n5, _⟩ := burst_handle_nonlast cfg (opened_handle cfg awd mem be_mem)
    pre (opened_handle cfg awd mem be_mem) 0 hpre rfl (by norm_num; omega) rfl rfl rfl
    (by simp [opened_handle])
  obtain ⟨q1, q2⟩ := burst_handle_ptrs cfg pre (opened_handle cfg awd mem be_mem)
  have hsz : get_burst_size (burst_handle cfg pre (opened_handle cfg awd mem be_mem)).trans
      = 2 ^ awd.size := by
    show 2 ^ (burst_handle cfg pre (opened_handle cfg awd mem be_mem)).trans.ext.size = _
    rw [n3]; exact o4
  rw [burst_stores_valid_append, Bool.and_eq_true]
  refine ⟨write_prefix_valid cfg awd mem be_mem pre hpre hfit (by omega), ?_⟩
  simp only [burst_stores_valid, Bool.and_true]
  exact stores_valid_of_fits cfg _ dc bc (q1.trans o1) (q2.trans o2)
    (by rw [n1, n3, o3]; omega) (by rw [n5, n3, o3, hsz, o5])
    (by rw [n3, o3, hsz]; exact o6) (by rw [n3, o3, hsz]; exact o7)

/-! ## Whole write bursts -/

theorem write_burst_counts_of_fits (cfg : CFG) (st : bridge) (awd : aw_data)
    (rest : List aw_data) (pre : List (w_pins × tlm_sync_enum)) (pl : w_pins)
    (rl : tlm_sync_enum)
    (hnone : st.active_req .TLM_WRITE_COMMAND = none) (hq : st.aw_que = awd :: rest)
    (hsch : st.scheduled = [])
    (hpre : ∀ b ∈ pre, b.1.w_valid = true ∧ b.1.w_last = false ∧ b.2 ≠ .TLM_COMPLETED)
    (hv : pl.w_valid = true) (hr : rl ≠ .TLM_COMPLETED)
    (hfit : 2 ^ awd.size * (awd.len + 1) ≤ 4096) (hlen : pre.length ≤ awd.len) :
    ∃ st', write_beats cfg (pre ++ [(pl, rl)]) st = .ok st' ∧
      st'.packed = st.packed
        ++ (List.range (pre.length + 1)).map (fun k => (st.handles.length, k)) ∧
      ∃ h, st'.handles[st.handles.length]? = some h ∧ h.beat_count = pre.length + 1 := by
  have hpos : 0 < 2 ^ awd.size := Nat.pos_pow_of_pos _ (by decide)
  have hle : awd.len + 1 ≤ 4096 := Nat.le_trans (Nat.le_mul_of_pos_left _ hpos) hfit
  have hN : pre.length + 1 < 2 ^ 32 := by norm_num; omega
  have hpre' : ∀ p ∈ pre.map Prod.fst, p.w_last = false := fun p hp => by
    obtain ⟨b, hb, rfl⟩ := List.mem_map.1 hp
    exact (hpre b hb).2.1
  obtain ⟨stp, e1, _, e3, e4, _, _, _⟩ :=
    write_burst_run cfg st awd rest pre pl rl hnone hq hsch hpre hv hr hN
      (write_burst_valid cfg awd st.fresh st.fresh_be (pre.map Prod.fst) pl hpre' hfit
        (by simpa using hlen))
  obtain ⟨_, f2, _, _⟩ := burst_final_handle cfg awd st.fresh st.fresh_be (pre.map Prod.fst) pl
    hpre' (by simpa using hN)
  obtain ⟨n1, _⟩ := burst_handle_nonlast cfg (opened_handle cfg awd st.fresh st.fresh_be)
    (pre.map Prod.fst) (opened_handle cfg awd st.fresh st.fresh_be) 0 hpre' rfl
    (by simpa using by omega) rfl rfl rfl (by simp [opened_handle])
  refine ⟨_, e1, ?_, _, ?_, by simpa using f2⟩
  · simp only [after_beat, e4, n1, List.length_map, Nat.zero_add, List.range_succ,
      List.map_append, List.map_cons, List.map_nil, List.append_assoc, List.range_eq_range']
  · simp [after_beat, e3]

/-- C8: the code at the failing input, and where the claim holds.  On a 256-bit bus a burst of
256 beats of 32 bytes (8192 bytes) gets a transaction whose byte-enable pointer is null, the
stores of the packer on beat 0 are not defined, and the run of the 256 beats ends in the fault
on the first of them: the packer does not run once per beat.  For every write burst of `N`
beats whose declared length `(AWLEN+1) * 2^AWSIZE` is at most 4096 bytes and that has at most
`AWLEN + 1` beats (the beats `pre` without `w_last` and a final beat `pl`, each valid and each
with its request phase ended before the next beat is sampled, started with no burst open), the
run completes, the packer runs exactly once per beat, reading `beat_count = k` on the `k`-th
beat, and the beat counter ends at `N`; so it is for four beats of 4 bytes on a 32-bit bus. -/
theorem write_burst_beat_counts :
    (opened_handle ⟨256, 0⟩ (sampleAw 0 5 255) (constBuffer 0)
      (constBuffer 0)).trans.byte_enable_ptr = none ∧
    wdata_stores_valid ⟨256, 0⟩
      (opened_handle ⟨256, 0⟩ (sampleAw 0 5 255) (constBuffer 0) (constBuffer 0)) = false ∧
    write_beats ⟨256, 0⟩ (fullBeats 255 0) (sampleBridge (sampleAw 0 5 255))
      = .error .fault ∧
    (∀ (cfg : CFG) (st : bridge) (awd : aw_data) (rest : List aw_data)
      (pre : List (w_pins × tlm_sync_enum)) (pl : w_pins) (rl : tlm_sync_enum),
      st.active_req .TLM_WRITE_COMMAND = none → st.aw_que = awd :: rest →
      st.scheduled = [] →
      (∀ b ∈ pre, b.1.w_valid = true ∧ b.1.w_last = false ∧ b.2 ≠ .TLM_COMPLETED) →
      pl.w_valid = true → rl ≠ .TLM_COMPLETED →
      2 ^ awd.size * (awd.len + 1) ≤ 4096 → pre.length ≤ awd.len →
      ∃ st', write_beats cfg (pre ++ [(pl, rl)]) st = .ok st' ∧
        st'.packed = st.packed
          ++ (List.range (pre.length + 1)).map (fun k => (st.handles.length, k)) ∧
        ∃ h, st'.handles[st.handles.length]? = some h ∧ h.beat_count = pre.length + 1) ∧
    (∃ st', write_beats ⟨32, 0⟩
        ([((⟨true, 0x44332211, 0xf, false⟩ : w_pins), tlm_sync_enum.TLM_ACCEPTED),
          (⟨true, 0x88776655, 0xf, false⟩, .TLM_UPDATED),
          (⟨true, 0xccbbaa99, 0xf, false⟩, .TLM_ACCEPTED)]
          ++ [(⟨true, 0x00ffeedd, 0xf, true⟩, .TLM_UPDATED)])
        (sampleBridge (sampleAw 0x100 2 3)) = .ok st' ∧
      st'.packed = [] ++ (List.range (3 + 1)).map (fun k => (0, k)) ∧
      ∃ h, st'.handles[0]? = some h ∧ h.beat_count = 3 + 1) :=
  ⟨rfl, rfl, rfl,
    fun cfg st awd rest pre pl rl hnone hq hsch hpre hv hr hfit hlen =>
      write_burst_counts_of_fits cfg st awd rest pre pl rl hnone hq hsch hpre hv hr hfit hlen,
    write_burst_counts_of_fits ⟨32, 0⟩ (sampleBridge (sampleAw 0x100 2 3)) (sampleAw 0x100 2 3)
      []
      [(⟨true, 0x44332211, 0xf, false⟩, .TLM_ACCEPTED),
        (⟨true, 0x88776655, 0xf, false⟩, .TLM_UPDATED),
        (⟨true, 0xccbbaa99, 0xf, false⟩, .TLM_ACCEPTED)]
      ⟨true, 0x00ffeedd, 0xf, true⟩ .TLM_UPDATED rfl rfl rfl (by decide) rfl (by decide)
      (by decide) (by decide)⟩

theorem aligned_burst_of_fits (cfg : CFG) (st : bridge) (awd : aw_data) (rest : List aw_data)
    (pre : List (w_pins × tlm_sync_enum)) (pl : w_pins) (rl : tlm_sync_enum) (k : Nat)
    (hnone : st.active_req .TLM_WRITE_COMMAND = none) (hq : st.aw_que = awd :: rest)
    (hsch : st.scheduled = [])
    (hW : cfg.BUSWIDTH / 8 = 2 ^ k) (hk : k ≤ 64)
    (haddr : awd.addr % (cfg.BUSWIDTH / 8) = 0) (hsize : 2 ^ awd.size = cfg.BUSWIDTH / 8)
    (hpre : ∀ b ∈ pre, b.1.w_valid = true ∧ b.1.w_last = false ∧ b.2 ≠ .TLM_COMPLETED)
    (hpres : ∀ b ∈ pre, ∀ l, l < cfg.BUSWIDTH / 8 → b.1.w_strb.testBit l = true)
    (hv : pl.w_valid = true) (hl : pl.w_last = true) (hr : rl ≠ .TLM_COMPLETED)
    (hpls : ∀ l, l < cfg.BUSWIDTH / 8 → pl.w_strb.testBit l = true)
    (hfit : 2 ^ awd.size * (awd.len + 1) ≤ 4096) (hlen : pre.length ≤ awd.len) :
    ∃ st', write_beats cfg (pre ++ [(pl, rl)]) st = .ok st' ∧
      st'.handles.length = st.handles.length + 1 ∧
      st'.aw_que = rest ∧
      st'.reacted = st.reacted
        ++ (List.replicate pre.length
            [(protocol_time_point_e.BegPartReqE, st.handles.length),
             (protocol_time_point_e.EndPartReqE, st.handles.length)]).flatten
        ++ [(protocol_time_point_e.BegReqE, st.handles.length),
            (protocol_time_point_e.EndReqE, st.handles.length)] ∧
      ∃ h, st'.handles[st.handles.length]? = some h ∧
        h.aux_i32_i0 = (pre.length + 1) * (cfg.BUSWIDTH / 8) ∧
        h.trans.data_length = (pre.length + 1) * (cfg.BUSWIDTH / 8) ∧
        h.trans.byte_enable_length = (pre.length + 1) * (cfg.BUSWIDTH / 8) ∧
        h.trans.streaming_width = (pre.length + 1) * (cfg.BUSWIDTH / 8) := by
  have hWpos : 0 < cfg.BUSWIDTH / 8 := by rw [hW]; exact Nat.pos_pow_of_pos _ (by decide)
  have hN : (pre.length + 1) * (cfg.BUSWIDTH / 8) < 2 ^ 32 := by
    have h1 : (pre.length + 1) * (cfg.BUSWIDTH / 8) ≤ (awd.len + 1) * (cfg.BUSWIDTH / 8) :=
      Nat.mul_le_mul_right _ (by omega)
    rw [← hsize, Nat.mul_comm (awd.len + 1)] at h1
    rw [← hsize]
    norm_num
    omega
  have hN1 : pre.length + 1 < 2 ^ 32 :=
    lt_of_le_of_lt (Nat.le_mul_of_pos_right _ hWpos) hN
  have hpre' : ∀ p ∈ pre.map Prod.fst, p.w_last = false := fun p hp => by
    obtain ⟨b, hb, rfl⟩ := List.mem_map.1 hp
    exact (hpre b hb).2.1
  obtain ⟨stp, e1, _, e3, _, e5, _, e7⟩ :=
    write_burst_run cfg st awd rest pre pl rl hnone hq hsch hpre hv hr hN1
      (write_burst_valid cfg awd st.fresh st.fresh_be (pre.map Prod.fst) pl hpre' hfit
        (by simpa using hlen))
  obtain ⟨f1, _, _, f4⟩ := burst_final_handle cfg awd st.fresh st.fresh_be (pre.map Prod.fst) pl
    hpre' (by simpa using hN1)
  obtain ⟨g1, g2, g3⟩ := f4 hl
  have hsum : burst_written cfg (opened_handle cfg awd st.fresh st.fresh_be)
      (pre.map Prod.fst ++ [pl]) 0 % 2 ^ 32 = (pre.length + 1) * (cfg.BUSWIDTH / 8) := by
    rw [aligned_full_written cfg awd st.fresh st.fresh_be k hW hk haddr hsize _ 0
      (fun p hp l hlt => by
        rcases List.mem_append.1 hp with hp | hp
        · obtain ⟨b, hb, rfl⟩ := List.mem_map.1 hp
          exact hpres b hb l hlt
        · rw [List.mem_singleton.1 hp]; exact hpls l hlt)
      (by simpa using hN)]
    simp only [List.length_append, List.length_map, List.length_singleton]
    exact Nat.mod_eq_of_lt hN
  refine ⟨_, e1, by simp [after_beat, e3], by simp [after_beat, e7], ?_, _, ?_,
    f1.trans hsum, g1.trans hsum, g2.trans hsum, g3.trans hsum⟩
  · simp [after_beat, e5, hl, beg_tp, end_tp]
  · simp [after_beat, e3]

/-- C7: the code at the failing input, and where the claim holds.  On a 256-bit bus the
aligned burst of 256 beats of 32 bytes at address 0 with every strobe bit set and `w_last` on
beat 255 is given a transaction whose byte-enable pointer is null; the stores of beat 0 are not
defined and the run ends in the fault on beat 0, before any `BegPartReq`.  For every aligned
write burst of `N >= 1` beats on a power-of-two bus (address a multiple of the bus width in
bytes, beat size equal to the bus width, every strobe bit set, `w_last` exactly on the last
beat, every request phase ended before the next beat) whose declared length is at most 4096
bytes and that has at most `AWLEN + 1` beats, started with no burst open: `wdata_t` opens
exactly one transaction, injects `BegPartReq` on each of beats `0..N-2` and `BegReq` once on
beat `N-1` (each followed by its end of request), and the accumulator and the three truncated
lengths end at `N * beat_size`; so it is on a 32-bit bus for four beats of 4 bytes at
`0x100`, which end at 16. -/
theorem aligned_write_burst :
    (opened_handle ⟨256, 0⟩ (sampleAw 0 5 255) (constBuffer 0)
      (constBuffer 0)).trans.byte_enable_ptr = none ∧
    (opened_handle ⟨256, 0⟩ (sampleAw 0 5 255) (constBuffer 0)
      (constBuffer 0)).trans.byte_enable_length = 8192 ∧
    wdata_stores_valid ⟨256, 0⟩
      (opened_handle ⟨256, 0⟩ (sampleAw 0 5 255) (constBuffer 0) (constBuffer 0)) = false ∧
    write_beats ⟨256, 0⟩ (fullBeats 255 0) (sampleBridge (sampleAw 0 5 255))
      = .error .fault ∧
    (∀ (cfg : CFG) (st : bridge) (awd : aw_data) (rest : List aw_data)
      (pre : List (w_pins × tlm_sync_enum)) (pl : w_pins) (rl : tlm_sync_enum) (k : Nat),
      st.active_req .TLM_WRITE_COMMAND = none → st.aw_que = awd :: rest →
      st.scheduled = [] →
      cfg.BUSWIDTH / 8 = 2 ^ k → k ≤ 64 →
      awd.addr % (cfg.BUSWIDTH / 8) = 0 → 2 ^ awd.size = cfg.BUSWIDTH / 8 →
      (∀ b ∈ pre, b.1.w_valid = true ∧ b.1.w_last = false ∧ b.2 ≠ .TLM_COMPLETED) →
      (∀ b ∈ pre, ∀ l, l < cfg.BUSWIDTH / 8 → b.1.w_strb.testBit l = true) →
      pl.w_valid = true → pl.w_last = true → rl ≠ .TLM_COMPLETED →
      (∀ l, l < cfg.BUSWIDTH / 8 → pl.w_strb.testBit l = true) →
      2 ^ awd.size * (awd.len + 1) ≤ 4096 → pre.length ≤ awd.len →
      ∃ st', write_beats cfg (pre ++ [(pl, rl)]) st = .ok st' ∧
        st'.handles.length = st.handles.length + 1 ∧
        st'.aw_que = rest ∧
        st'.reacted = st.reacted
          ++ (List.replicate pre.length
              [(protocol_time_point_e.BegPartReqE, st.handles.length),
               (protocol_time_point_e.EndPartReqE, st.handles.length)]).flatten
          ++ [(protocol_time_point_e.BegReqE, st.handles.length),
              (protocol_time_point_e.EndReqE, st.handles.length)] ∧
        ∃ h, st'.handles[st.handles.length]? = some h ∧
          h.aux_i32_i0 = (pre.length + 1) * (cfg.BUSWIDTH / 8) ∧
          h.trans.data_length = (pre.length + 1) * (cfg.BUSWIDTH / 8) ∧
          h.trans.byte_enable_length = (pre.length + 1) * (cfg.BUSWIDTH / 8) ∧
          h.trans.streaming_width = (pre.length + 1) * (cfg.BUSWIDTH / 8)) ∧
    (∃ st', write_beats ⟨32, 0⟩
        ([((⟨true, 0x44332211, 0xf, false⟩ : w_pins), tlm_sync_enum.TLM_ACCEPTED),
          (⟨true, 0x88776655, 0xf, false⟩, .TLM_UPDATED),
          (⟨true, 0xccbbaa99, 0xf, false⟩, .TLM_ACCEPTED)]
          ++ [(⟨true, 0x00ffeedd, 0xf, true⟩, .TLM_UPDATED)])
        (sampleBridge (sampleAw 0x100 2 3)) = .ok st' ∧
      st'.handles.length = 0 + 1 ∧
      st'.aw_que = [] ∧
      st'.reacted = []
        ++ (List.replicate 3
            [(protocol_time_point_e.BegPartReqE, 0), (protocol_time_point_e.EndPartReqE, 0)]).flatten
        ++ [(protocol_time_point_e.BegReqE, 0), (protocol_time_point_e.EndReqE, 0)] ∧
      ∃ h, st'.handles[0]? = some h ∧
        h.aux_i32_i0 = 16 ∧ h.trans.data_length = 16 ∧
        h.trans.byte_enable_length = 16 ∧ h.trans.streaming_width = 16) :=
  ⟨rfl, rfl, rfl, rfl,
    fun cfg st awd rest pre pl rl k hnone hq hsch hW hk haddr hsize hpre hpres hv hl hr hpls
        hfit hlen =>
      aligned_burst_of_fits cfg st awd rest pre pl rl k hnone hq hsch hW hk haddr hsize hpre
        hpres hv hl hr hpls hfit hlen,
    aligned_burst_of_fits ⟨32, 0⟩ (sampleBridge (sampleAw 0x100 2 3)) (sampleAw 0x100 2 3) []
      [(⟨true, 0x44332211, 0xf, false⟩, .TLM_ACCEPTED),
        (⟨true, 0x88776655, 0xf, false⟩, .TLM_UPDATED),
        (⟨true, 0xccbbaa99, 0xf, false⟩, .TLM_ACCEPTED)]
      ⟨true, 0x00ffeedd, 0xf, true⟩ .TLM_UPDATED 2 rfl rfl rfl (by decide) (by decide)
      (by decide) (by decide) (by decide) (by decide) rfl rfl (by decide) (by decide)
      (by decide) (by decide)⟩

theorem burst_truncation_of_fits (cfg : CFG) (st : bridge) (awd : aw_data)
    (rest : List aw_data) (pre : List (w_pins × tlm_sync_enum)) (pl : w_pins)
    (rl : tlm_sync_enum)
    (hnone : st.active_req .TLM_WRITE_COMMAND = none) (hq : st.aw_que = awd :: rest)
    (hsch : st.scheduled = [])
    (hpre : ∀ b ∈ pre, b.1.w_valid = true ∧ b.1.w_last = false ∧ b.2 ≠ .TLM_COMPLETED)
    (hv : pl.w_valid = true) (hl : pl.w_last = true) (hr : rl ≠ .TLM_COMPLETED)
    (hfit : 2 ^ awd.size * (awd.len + 1) ≤ 4096) (hlen : pre.length ≤ awd.len) :
    (∃ st' h, write_beats cfg (pre ++ [(pl, rl)]) st = .ok st' ∧
      st'.handles[st.handles.length]? = some h ∧
      h.trans.data_length
        = burst_written cfg (opened_handle cfg awd st.fresh st.fresh_be)
            (pre.map Prod.fst ++ [pl]) 0 % 2 ^ 32 ∧
      h.trans.byte_enable_length
        = burst_written cfg (opened_handle cfg awd st.fresh st.fresh_be)
            (pre.map Prod.fst ++ [pl]) 0 % 2 ^ 32 ∧
      h.trans.streaming_width
        = burst_written cfg (opened_handle cfg awd st.fresh st.fresh_be)
            (pre.map Prod.fst ++ [pl]) 0 % 2 ^ 32 ∧
      h.aux_i32_i0
        = burst_written cfg (opened_handle cfg awd st.fresh st.fresh_be)
            (pre.map Prod.fst ++ [pl]) 0 % 2 ^ 32 ∧
      st'.fw_calls.getLast? = some (.BEGIN_REQ, h.trans) ∧
      st'.active_req .TLM_WRITE_COMMAND = none) ∧
    (∀ j, j < pre.length →
      ∃ stj hj, write_beats cfg (pre.take (j + 1)) st = .ok stj ∧
        stj.handles[st.handles.length]? = some hj ∧
        hj.trans.data_length = 2 ^ awd.size * (awd.len + 1) ∧
        hj.trans.byte_enable_length = 2 ^ awd.size * (awd.len + 1) ∧
        hj.trans.streaming_width = 0 ∧
        stj.active_req .TLM_WRITE_COMMAND = some st.handles.length) := by
  have hpos : 0 < 2 ^ awd.size := Nat.pos_pow_of_pos _ (by decide)
  have hle : awd.len + 1 ≤ 4096 := Nat.le_trans (Nat.le_mul_of_pos_left _ hpos) hfit
  have hN : pre.length + 1 < 2 ^ 32 := by norm_num; omega
  obtain ⟨c1, _, c3, c4, c5, _, _⟩ := aw_payload_facts cfg awd st.fresh st.fresh_be
  have hpre' : ∀ p ∈ pre.map Prod.fst, p.w_last = false := fun p hp => by
    obtain ⟨b, hb, rfl⟩ := List.mem_map.1 hp
    exact (hpre b hb).2.1
  constructor
  · obtain ⟨stp, e1, _, e3, _⟩ :=
      write_burst_run cfg st awd rest pre pl rl hnone hq hsch hpre hv hr hN
        (write_burst_valid cfg awd st.fresh st.fresh_be (pre.map Prod.fst) pl hpre' hfit
          (by simpa using hlen))
    obtain ⟨f1, _, f3, f4⟩ := burst_final_handle cfg awd st.fresh st.fresh_be
      (pre.map Prod.fst) pl hpre' (by simpa using hN)
    obtain ⟨g1, g2, g3⟩ := f4 hl
    refine ⟨_, _, e1, ?_, g1, g2, g3, f1, ?_, ?_⟩
    · simp [after_beat, e3]
    · rw [hl] at f3
      simp [after_beat, hl, f3]
    · simp [after_beat, hl, slots.set]
  · intro j hj
    have hlen' : (pre.take (j + 1)).length = j + 1 := by
      rw [List.length_take]; omega
    have hne : pre.take (j + 1) ≠ [] := by
      intro h0; rw [h0] at hlen'; cases hlen'
    have htake : ∀ b ∈ pre.take (j + 1),
        b.1.w_valid = true ∧ b.1.w_last = false ∧ b.2 ≠ .TLM_COMPLETED :=
      fun b hb => hpre b (List.mem_of_mem_take hb)
    have htake' : ∀ p ∈ (pre.take (j + 1)).map Prod.fst, p.w_last = false := fun p hp => by
      obtain ⟨b, hb, rfl⟩ := List.mem_map.1 hp
      exact (htake b hb).2.1
    obtain ⟨stj, e1, e2, e3, _⟩ := write_beats_nonlast cfg (pre.take (j + 1))
      (after_open cfg awd rest st) st.handles.length
      (opened_handle cfg awd st.fresh st.fresh_be)
      (by simp [after_open, slots.set]) (opened_handle_get cfg awd rest st) c1 (fun _ => rfl)
      (by simpa [after_open] using hsch) htake (by simpa [opened_handle, hlen'] using by omega)
      (write_prefix_valid cfg awd st.fresh st.fresh_be _ htake' hfit
        (by simp only [List.length_map, hlen']; omega))
    obtain ⟨_, _, _, _, n5, n6, n7, _⟩ := burst_handle_nonlast cfg
      (opened_handle cfg awd st.fresh st.fresh_be) ((pre.take (j + 1)).map Prod.fst)
      (opened_handle cfg awd st.fresh st.fresh_be) 0 htake'
      rfl (by simpa [hlen'] using by omega) rfl rfl rfl (by simp [opened_handle])
    refine ⟨stj, _, ?_, e3, n5.trans c3, n6.trans c4, n7.trans c5, e2⟩
    rw [write_beats_opening cfg _ st awd rest hne hnone hq]
    exact e1

/-- C6: the code at the failing input, and where the claim holds.  On a 256-bit bus a write
burst declared with 256 beats of 32 bytes is given a transaction whose byte-enable pointer is
null; the run of its 256 beats ends in the fault on beat 0, so the beat with `w_last` is never
handled, and a beat that carries `w_last` itself (the first beat of such a burst) faults
before the three lengths are set and before `BegReq`.  For every write burst whose declared
length is at most 4096 bytes and that has at most `AWLEN + 1` beats (the beats `pre` without
`w_last`, then the beat `pl` with `w_last`, each valid and with its request phase ended before
the next beat; started with no burst open and its address entry pending): after the last beat
the data length, byte-enable length and streaming width all equal the written-byte count
accumulated over all beats, the last one included; the payload forwarded with `BEGIN_REQ`
already carries these lengths; `active_req[WRITE]` is null after the handshake of the last
beat; and after each beat without `w_last` the three lengths are still those the transaction
was opened with.  So it is for two beats of 4 bytes with the strobes `0b0101` and `0b0011`,
which end at 4. -/
theorem write_burst_truncation :
    (opened_handle ⟨256, 0⟩ (sampleAw 0 5 255) (constBuffer 0)
      (constBuffer 0)).trans.byte_enable_ptr = none ∧
    write_beats ⟨256, 0⟩ (fullBeats 255 0) (sampleBridge (sampleAw 0 5 255))
      = .error .fault ∧
    write_beats ⟨256, 0⟩ (fullBeats 0 0) (sampleBridge (sampleAw 0 5 255))
      = .error .fault ∧
    (∀ (cfg : CFG) (st : bridge) (awd : aw_data) (rest : List aw_data)
      (pre : List (w_pins × tlm_sync_enum)) (pl : w_pins) (rl : tlm_sync_enum),
      st.active_req .TLM_WRITE_COMMAND = none → st.aw_que = awd :: rest →
      st.scheduled = [] →
      (∀ b ∈ pre, b.1.w_valid = true ∧ b.1.w_last = false ∧ b.2 ≠ .TLM_COMPLETED) →
      pl.w_valid = true → pl.w_last = true → rl ≠ .TLM_COMPLETED →
      2 ^ awd.size * (awd.len + 1) ≤ 4096 → pre.length ≤ awd.len →
      (∃ st' h, write_beats cfg (pre ++ [(pl, rl)]) st = .ok st' ∧
        st'.handles[st.handles.length]? = some h ∧
        h.trans.data_length
          = burst_written cfg (opened_handle cfg awd st.fresh st.fresh_be)
              (pre.map Prod.fst ++ [pl]) 0 % 2 ^ 32 ∧
        h.trans.byte_enable_length
          = burst_written cfg (opened_handle cfg awd st.fresh st.fresh_be)
              (pre.map Prod.fst ++ [pl]) 0 % 2 ^ 32 ∧
        h.trans.streaming_width
          = burst_written cfg (opened_handle cfg awd st.fresh st.fresh_be)
              (pre.map Prod.fst ++ [pl]) 0 % 2 ^ 32 ∧
        h.aux_i32_i0
          = burst_written cfg (opened_handle cfg awd st.fresh st.fresh_be)
              (pre.map Prod.fst ++ [pl]) 0 % 2 ^ 32 ∧
        st'.fw_calls.getLast? = some (.BEGIN_REQ, h.trans) ∧
        st'.active_req .TLM_WRITE_COMMAND = none) ∧
      (∀ j, j < pre.length →
        ∃ stj hj, write_beats cfg (pre.take (j + 1)) st = .ok stj ∧
          stj.handles[st.handles.length]? = some hj ∧
          hj.trans.data_length = 2 ^ awd.size * (awd.len + 1) ∧
          hj.trans.byte_enable_length = 2 ^ awd.size * (awd.len + 1) ∧
          hj.trans.streaming_width = 0 ∧
          stj.active_req .TLM_WRITE_COMMAND = some st.handles.length)) ∧
    (∃ st' h, write_beats ⟨32, 0⟩
        ([((⟨true, 0x44332211, 5, false⟩ : w_pins), tlm_sync_enum.TLM_ACCEPTED)]
          ++ [(⟨true, 0x88776655, 3, true⟩, .TLM_UPDATED)])
        (sampleBridge (sampleAw 0x100 2 1)) = .ok st' ∧
      st'.handles[0]? = some h ∧
      h.trans.data_length = 4 ∧
      h.trans.byte_enable_length = 4 ∧
      h.trans.streaming_width = 4 ∧
      h.aux_i32_i0 = 4 ∧
      st'.fw_calls.getLast? = some (.BEGIN_REQ, h.trans) ∧
      st'.active_req .TLM_WRITE_COMMAND = none) :=
  ⟨rfl, rfl, rfl,
    fun cfg st awd rest pre pl rl hnone hq hsch hpre hv hl hr hfit hlen =>
      burst_truncation_of_fits cfg st awd rest pre pl rl hnone hq hsch hpre hv hl hr hfit hlen,
    (burst_truncation_of_fits ⟨32, 0⟩ (sampleBridge (sampleAw 0x100 2 1)) (sampleAw 0x100 2 1)
      [] [(⟨true, 0x44332211, 5, false⟩, .TLM_ACCEPTED)] ⟨true, 0x88776655, 3, true⟩
      .TLM_UPDATED rfl rfl rfl (by decide) rfl rfl (by decide) (by decide) (by decide)).1⟩

/-- C14: a write burst started with no burst open and its address entry `awd` pending.  The
transaction `wdata_t` opens has data length = byte-enable length = `(AWLEN+1) * 2^AWSIZE`.
After any number of beats without `w_last` (each valid, its request phase ended before the
next beat is sampled), in every state the run reaches the handle in `active_req[WRITE]` still
owns a transaction with these two lengths; the run does get there when the declared length is
at most 4096 bytes and the beats are at most `AWLEN + 1` (otherwise a store of the packer may
leave the arrays, and nothing is reached).  The transaction `ar_t` creates for an accepted
address-read beat has data length = streaming width = `(ARLEN+1) * 2^ARSIZE`.  (The size pins
are 3 bits and the length pins 8 bits wide, so the unsigned product of the code does not
wrap.) -/
theorem burst_lengths_until_last (cfg : CFG) (st : bridge) (awd : aw_data) (rest : List aw_data)
    (pre : List (w_pins × tlm_sync_enum)) (apins : ar_pins) (ret : tlm_sync_enum) (sta : bridge)
    (hnone : st.active_req .TLM_WRITE_COMMAND = none) (hq : st.aw_que = awd :: rest)
    (hsch : st.scheduled = [])
    (hpre : ∀ b ∈ pre, b.1.w_valid = true ∧ b.1.w_last = false ∧ b.2 ≠ .TLM_COMPLETED)
    (hN : pre.length < 2 ^ 32) (hv : apins.ar_valid = true) :
    (∃ st0 h0, wdata_open cfg st = .ok st0 ∧
      st0.active_req .TLM_WRITE_COMMAND = some st.handles.length ∧
      st0.handles[st.handles.length]? = some h0 ∧
      h0.trans.data_length = (awd.len + 1) * 2 ^ awd.size ∧
      h0.trans.byte_enable_length = (awd.len + 1) * 2 ^ awd.size ∧
      (∀ st', write_beats cfg pre st0 = .ok st' →
        (pre ≠ [] → write_beats cfg pre st = .ok st') ∧
        st'.active_req .TLM_WRITE_COMMAND = some st.handles.length ∧
        ∃ h, st'.handles[st.handles.length]? = some h ∧
          h.beat_count = pre.length ∧
          h.trans.data_length = (awd.len + 1) * 2 ^ awd.size ∧
          h.trans.byte_enable_length = (awd.len + 1) * 2 ^ awd.size) ∧
      (2 ^ awd.size * (awd.len + 1) ≤ 4096 → pre.length ≤ awd.len + 1 →
        ∃ st', write_beats cfg pre st0 = .ok st')) ∧
    (∃ st' h, ar_sample apins ret sta = .ok st' ∧
      st'.active_req_beat .TLM_READ_COMMAND = some sta.handles.length ∧
      st'.handles[sta.handles.length]? = some h ∧
      h.trans.data_length = (apins.ar_len + 1) * 2 ^ apins.ar_size ∧
      h.trans.streaming_width = (apins.ar_len + 1) * 2 ^ apins.ar_size) := by
  have hpre' : ∀ p ∈ pre.map Prod.fst, p.w_last = false := fun p hp => by
    obtain ⟨b, hb, rfl⟩ := List.mem_map.1 hp
    exact (hpre b hb).2.1
  constructor
  · obtain ⟨c1, _, c3, c4, _⟩ := aw_payload_facts cfg awd st.fresh st.fresh_be
    have hrun := write_beats_nonlast cfg pre
      (after_open cfg awd rest st) st.handles.length (opened_handle cfg awd st.fresh st.fresh_be)
      (by simp [after_open, slots.set]) (opened_handle_get cfg awd rest st) c1 (fun _ => rfl)
      (by simpa [after_open] using hsch) hpre (by simpa [opened_handle] using hN)
    have hfault := write_beats_nonlast_fault cfg pre
      (after_open cfg awd rest st) st.handles.length (opened_handle cfg awd st.fresh st.fresh_be)
      (by simp [after_open, slots.set]) (opened_handle_get cfg awd rest st) c1 (fun _ => rfl)
      (by simpa [after_open] using hsch) hpre (by simpa [opened_handle] using hN)
    obtain ⟨n1, _, _, _, n5, n6, _⟩ := burst_handle_nonlast cfg
      (opened_handle cfg awd st.fresh st.fresh_be) (pre.map Prod.fst)
      (opened_handle cfg awd st.fresh st.fresh_be) 0 hpre'
      rfl (by simpa using hN) rfl rfl rfl (by simp [opened_handle])
    have hd : (opened_handle cfg awd st.fresh st.fresh_be).trans.data_length
        = (awd.len + 1) * 2 ^ awd.size := by
      rw [Nat.mul_comm]; exact c3
    have hb : (opened_handle cfg awd st.fresh st.fresh_be).trans.byte_enable_length
        = (awd.len + 1) * 2 ^ awd.size := by
      rw [Nat.mul_comm]; exact c4
    refine ⟨_, _, wdata_open_eq cfg st awd rest hq, by simp [after_open, slots.set],
      opened_handle_get cfg awd rest st, hd, hb, ?_, ?_⟩
    · intro st' hst'
      cases hval : burst_stores_valid cfg (pre.map Prod.fst)
          (opened_handle cfg awd st.fresh st.fresh_be) with
      | false =>
        rw [hfault hval] at hst'
        cases hst'
      | true =>
        obtain ⟨stp, e1, e2, e3, _⟩ := hrun hval
        rw [e1] at hst'
        cases hst'
        refine ⟨fun hne => ?_, e2, _, e3, by simpa using n1, n5.trans hd, n6.trans hb⟩
        rw [write_beats_opening cfg pre st awd rest hne hnone hq]
        exact e1
    · intro hfit hlen
      obtain ⟨stp, e1, _⟩ := hrun (write_prefix_valid cfg awd st.fresh st.fresh_be _ hpre' hfit
        (by simpa using hlen))
      exact ⟨stp, e1⟩
  · obtain ⟨l1, l2⟩ := ar_payload_lengths apins sta.fresh sta.fresh_be
    refine ⟨_, ⟨ar_payload apins sta.fresh sta.fresh_be, 0, 0, true⟩,
      ar_sample_eq apins ret sta hv, ?_, ?_, l1, l2⟩
    · simp [slots.set]
    · simp

/-- Witness of C14: 32-bit bus, the address entry of a burst of four beats of 4 bytes and three
beats without `w_last`; an address-read beat of four beats of 4 bytes. -/
theorem burst_lengths_until_last_witness :
    (∃ st0 h0, wdata_open ⟨32, 0⟩ (sampleBridge (sampleAw 0x100 2 3)) = .ok st0 ∧
      st0.active_req .TLM_WRITE_COMMAND = some 0 ∧
      st0.handles[0]? = some h0 ∧
      h0.trans.data_length = 16 ∧
      h0.trans.byte_enable_length = 16 ∧
      ∃ st' h, write_beats ⟨32, 0⟩
          [((⟨true, 0x44332211, 0xf, false⟩ : w_pins), tlm_sync_enum.TLM_ACCEPTED),
            (⟨true, 0x88776655, 0xf, false⟩, .TLM_UPDATED),
            (⟨true, 0xccbbaa99, 0xf, false⟩, .TLM_ACCEPTED)] st0 = .ok st' ∧
        write_beats ⟨32, 0⟩
            [((⟨true, 0x44332211, 0xf, false⟩ : w_pins), tlm_sync_enum.TLM_ACCEPTED),
              (⟨true, 0x88776655, 0xf, false⟩, .TLM_UPDATED),
              (⟨true, 0xccbbaa99, 0xf, false⟩, .TLM_ACCEPTED)]
            (sampleBridge (sampleAw 0x100 2 3)) = .ok st' ∧
        st'.active_req .TLM_WRITE_COMMAND = some 0 ∧
        st'.handles[0]? = some h ∧
        h.beat_count = 3 ∧
        h.trans.data_length = 16 ∧
        h.trans.byte_enable_length = 16) ∧
    (∃ st' h, ar_sample ⟨true, 7, 0x2000, 3, 2, 1, 0xb, 2, 5, 9, 1, 0, 0, true⟩ .TLM_ACCEPTED
        (bridge.init (constBuffer 0) (constBuffer 0)) = .ok st' ∧
      st'.active_req_beat .TLM_READ_COMMAND = some 0 ∧
      st'.handles[0]? = some h ∧
      h.trans.data_length = 16 ∧
      h.trans.streaming_width = 16) := by
  obtain ⟨⟨st0, h0, a1, a2, a3, a4, a5, hs, hc⟩, hread⟩ :=
    burst_lengths_until_last ⟨32, 0⟩ (sampleBridge (sampleAw 0x100 2 3)) (sampleAw 0x100 2 3) []
      [(⟨true, 0x44332211, 0xf, false⟩, .TLM_ACCEPTED),
        (⟨true, 0x88776655, 0xf, false⟩, .TLM_UPDATED),
        (⟨true, 0xccbbaa99, 0xf, false⟩, .TLM_ACCEPTED)]
      ⟨true, 7, 0x2000, 3, 2, 1, 0xb, 2, 5, 9, 1, 0, 0, true⟩ .TLM_ACCEPTED
      (bridge.init (constBuffer 0) (constBuffer 0)) rfl rfl rfl (by decide) (by decide) rfl
  obtain ⟨st', e⟩ := hc (by decide) (by decide)
  obtain ⟨b1, b2, h, b3, b4, b5, b6⟩ := hs st' e
  exact ⟨⟨st0, h0, a1, a2, a3, a4, a5, st', h, e, b1 (by simp), b2, b3, b4, b5, b6⟩, hread⟩

/-! ## The read path -/

theorem slots_set_set (arr : slots) (c : tlm_command) (v w : Option Nat) :
    (arr.set c v).set c w = arr.set c w := by
  funext x
  simp only [slots.set]
  split <;> rfl

theorem ar_payload_command (pins : ar_pins) (mem be_mem : Buffer) :
    (ar_payload pins mem be_mem).command = .TLM_READ_COMMAND := by
  cases hl : pins.ar_lock <;>
    simp [ar_payload, hl, payload.with_ext, payload.set_streaming_width, payload.set_command]

theorem read_request_eq (pins : ar_pins) (ret : tlm_sync_enum) (st : bridge)
    (hv : pins.ar_valid = true) (hr : ret ≠ .TLM_COMPLETED) (hsch : st.scheduled = []) :
    read_request pins ret st = .ok (after_read_request pins st) := by
  have hc := ar_payload_command pins st.fresh st.fresh_be
  unfold read_request
  rw [ar_sample_eq pins ret st hv]
  cases ret <;>
    simp [read_end_request, nb_transport_bw, schedule, deliver, react, cb, hsch, hc, ar_resume,
      after_read_request, slots_set_set] at hr ⊢

theorem rresp_wake_low (ret : tlm_sync_enum) (st : bridge) (x : Nat × Nat)
    (hcur : st.rresp_cur = some x) : rresp_wake false ret st = .ok st := by
  simp [rresp_wake, hcur]

theorem rresp_wakes_idle (ret : tlm_sync_enum) (idle : Nat) (st : bridge) (x : Nat × Nat)
    (hcur : st.rresp_cur = some x) :
    rresp_wakes ret idle st = rresp_wake true ret st := by
  induction idle with
  | zero => rfl
  | succ n ih =>
    simp only [rresp_wakes, rresp_wake_low ret st x hcur]
    exact ih

theorem read_beat_step (cfg : CFG) (hid : Nat) (last : Bool) (idle : Nat) (st : bridge)
    (h : fsm_handle) (hh : st.handles[hid]? = some h)
    (hcmd : h.trans.command = .TLM_READ_COMMAND) (hsch : st.scheduled = [])
    (hq : st.rresp_vl = []) :
    read_beat cfg hid last idle st = .ok (after_read_beat cfg hid last h st) := by
  have hlt := getElem?_lt_length _ _ _ hh
  cases last
  · simp only [read_beat, nb_transport_bw, schedule, deliver, react, cb, hsch, hq, hh, hcmd,
      rresp_take]
    simp [hh, hcmd, hq, hsch]
    rw [rresp_wakes_idle _ idle _ (1, hid) rfl]
    simp [rresp_wake, react, cb, hh, hcmd, nb_transport_fw, bridge.set_handle, hlt,
      after_read_beat, slots_set_set, slots.set, hsch, hq]
  · simp only [read_beat, nb_transport_bw, schedule, deliver, react, cb, hsch, hq, hh, hcmd,
      rresp_take]
    simp [hh, hcmd, hq, hsch]
    rw [rresp_wakes_idle _ idle _ (3, hid) rfl]
    simp [rresp_wake, react, cb, hh, hcmd, nb_transport_fw, bridge.set_handle, hlt,
      after_read_beat, slots_set_set, slots.set, hsch, hq]

theorem read_beats_append (cfg : CFG) (hid : Nat) (bs cs : List (Bool × Nat)) (st st' : bridge)
    (h : read_beats cfg hid bs st = .ok st') :
    read_beats cfg hid (bs ++ cs) st = read_beats cfg hid cs st' := by
  induction bs generalizing st with
  | nil =>
    simp only [read_beats] at h
    cases h
    rfl
  | cons b bs ih =>
    obtain ⟨l, i⟩ := b
    simp only [List.cons_append, read_beats] at h ⊢
    cases hb : read_beat cfg hid l i st with
    | error e => rw [hb] at h; cases h
    | ok st1 =>
      rw [hb] at h
      exact ih st1 h

theorem read_beats_partial (cfg : CFG) (hid : Nat) (idles : List Nat) :
    ∀ (st : bridge) (h : fsm_handle), st.handles[hid]? = some h →
      h.trans.command = .TLM_READ_COMMAND → st.scheduled = [] → st.rresp_vl = [] →
      h.beat_count + idles.length < 2 ^ 32 →
      ∃ st', read_beats cfg hid (idles.map (fun i => (false, i))) st = .ok st' ∧
        st'.handles[hid]? = some { h with beat_count := h.beat_count + idles.length } ∧
        st'.scheduled = [] ∧ st'.rresp_vl = [] ∧
        st'.handles.length = st.handles.length ∧
        st'.read_beats = st.read_beats
          ++ (List.range' h.beat_count idles.length).map (fun k => (hid, k)) ∧
        st'.reacted = st.reacted ++ (List.replicate idles.length
          [(protocol_time_point_e.BegPartRespE, hid),
           (protocol_time_point_e.EndPartRespE, hid)]).flatten ∧
        st'.active_req_beat = st.active_req_beat ∧
        st'.finished = st.finished := by
  induction idles with
  | nil =>
    intro st h hh _ hsch hq _
    exact ⟨st, rfl, by simpa using hh, hsch, hq, rfl, by simp, by simp, rfl, rfl⟩
  | cons i idles ih =>
    intro st h hh hcmd hsch hq hbound
    have hlt := getElem?_lt_length _ _ _ hh
    have h32 : (2 : Nat) ^ 32 = 4294967296 := by norm_num
    simp only [List.length_cons] at hbound
    have hcount : h.beat_count + 1 < 4294967296 := by rw [h32] at hbound; omega
    obtain ⟨st', e1, e2, e3, e4, e5, e6, e7, e8, e9⟩ := ih (after_read_beat cfg hid false h st)
      { h with beat_count := h.beat_count + 1 }
      (by simp [after_read_beat, hlt, Nat.mod_eq_of_lt hcount]) hcmd rfl rfl (by simp only; omega)
    refine ⟨st', ?_, ?_, e3, e4, ?_, ?_, ?_, ?_, ?_⟩
    · simp only [List.map_cons, read_beats, read_beat_step cfg hid false i st h hh hcmd hsch hq]
      exact e1
    · rw [e2]; simp only [List.length_cons, Nat.add_assoc, Nat.add_comm 1]
    · simpa [after_read_beat] using e5
    · rw [e6]; simp [after_read_beat, List.range'_succ]
    · rw [e7]; simp [after_read_beat, List.replicate_succ]
    · simpa [after_read_beat] using e8
    · simpa [after_read_beat] using e9

theorem cb_read_facts (ret : tlm_sync_enum) (s : bridge) (hid : Nat) (h : fsm_handle)
    (hh : s.handles[hid]? = some h) (hcmd : h.trans.command = .TLM_READ_COMMAND) :
    (∃ s', cb ret .EndReqE hid s = .ok s' ∧ s'.handles = s.handles ∧
      s'.active_req_beat .TLM_READ_COMMAND = none) ∧
    (∃ s' h', cb ret .EndPartRespE hid s = .ok s' ∧ s'.handles[hid]? = some h' ∧
      h'.trans = h.trans ∧ h'.beat_count = (h.beat_count + 1) % 2 ^ 32 ∧
      (h.beat_count + 1 < 2 ^ 32 → h'.beat_count = h.beat_count + 1)) ∧
    (∃ s', cb ret .BegPartRespE hid s = .ok s' ∧ s'.handles = s.handles) ∧
    (∃ s', cb ret .BegRespE hid s = .ok s' ∧ s'.handles = s.handles) ∧
    (∃ s', cb ret .EndRespE hid s = .ok s' ∧ s'.handles = s.handles) := by
  have hlt := getElem?_lt_length _ _ _ hh
  refine ⟨?_, ?_, ?_, ?_, ?_⟩
  · simp [cb, hh, hcmd, slots.set]
  · have hx : ∃ s', cb ret .EndPartRespE hid s = .ok s' ∧
        s'.handles = s.handles.set hid { h with beat_count := (h.beat_count + 1) % 2 ^ 32 } := by
      simp [cb, hh, hcmd, bridge.set_handle, nb_transport_fw]
    obtain ⟨s', h1, h2⟩ := hx
    exact ⟨s', { h with beat_count := (h.beat_count + 1) % 2 ^ 32 }, h1,
      by rw [h2]; simp [hlt], rfl, rfl, fun hb => Nat.mod_eq_of_lt hb⟩
  · simp [cb, hh, hcmd]
  · simp [cb, hh, hcmd]
  · simp [cb, hh, hcmd, nb_transport_fw]

/-- C20: a read burst of `N` beats (`N - 1` beats answered with `BEGIN_PARTIAL_RESP` and a last
one with `BEGIN_RESP`, each taken by `rresp_t` and ended at the first wake-up with `r_ready`
high after any number of idle wake-ups), its address beat accepted with the request phase
ended by the collaborator: the run completes and `get_read_data_for_beat` is called once per
beat, reading `beat_count = k` on the `k`-th beat (`k = 0..N-1`).  For a read handle the
`EndReq` callback leaves every handle as it is and clears `active_req_beat[READ]`, the
`EndPartResp` callback increments the 32-bit `beat_count` by one, and the `BegPartResp`,
`BegResp` and `EndResp` callbacks leave every handle as it is. -/
theorem read_burst_beat_counts (cfg : CFG) (pins : ar_pins) (ret : tlm_sync_enum) (st : bridge)
    (idles : List Nat) (idle_last : Nat)
    (hv : pins.ar_valid = true) (hr : ret ≠ .TLM_COMPLETED) (hsch : st.scheduled = [])
    (hq : st.rresp_vl = []) (hN : idles.length + 1 < 2 ^ 32) :
    (∃ st1 st2 h2, read_request pins ret st = .ok st1 ∧
      st1.active_req_beat .TLM_READ_COMMAND = none ∧
      read_beats cfg st.handles.length (burst_beats idles idle_last) st1 = .ok st2 ∧
      st2.read_beats = st.read_beats
        ++ (List.range (idles.length + 1)).map (fun k => (st.handles.length, k)) ∧
      st2.handles[st.handles.length]? = some h2 ∧ h2.beat_count = idles.length ∧
      st2.reacted = st.reacted
        ++ [(protocol_time_point_e.BegReqE, st.handles.length),
            (protocol_time_point_e.EndReqE, st.handles.length)]
        ++ (List.replicate idles.length
            [(protocol_time_point_e.BegPartRespE, st.handles.length),
             (protocol_time_point_e.EndPartRespE, st.handles.length)]).flatten
        ++ [(protocol_time_point_e.BegRespE, st.handles.length),
            (protocol_time_point_e.EndRespE, st.handles.length)]) ∧
    (∀ (ret' : tlm_sync_enum) (s : bridge) (hid : Nat) (h : fsm_handle),
      s.handles[hid]? = some h → h.trans.command = .TLM_READ_COMMAND →
      (∃ s', cb ret' .EndReqE hid s = .ok s' ∧ s'.handles = s.handles ∧
        s'.active_req_beat .TLM_READ_COMMAND = none) ∧
      (∃ s' h', cb ret' .EndPartRespE hid s = .ok s' ∧ s'.handles[hid]? = some h' ∧
        h'.trans = h.trans ∧ h'.beat_count = (h.beat_count + 1) % 2 ^ 32 ∧
        (h.beat_count + 1 < 2 ^ 32 → h'.beat_count = h.beat_count + 1)) ∧
      (∃ s', cb ret' .BegPartRespE hid s = .ok s' ∧ s'.handles = s.handles) ∧
      (∃ s', cb ret' .BegRespE hid s = .ok s' ∧ s'.handles = s.handles) ∧
      (∃ s', cb ret' .EndRespE hid s = .ok s' ∧ s'.handles = s.handles)) := by
  refine ⟨?_, fun ret' s hid h hh hcmd => cb_read_facts ret' s hid h hh hcmd⟩
  have hc := ar_payload_command pins st.fresh st.fresh_be
  have hget : (after_read_request pins st).handles[st.handles.length]?
      = some ⟨ar_payload pins st.fresh st.fresh_be, 0, 0, true⟩ := by
    simp [after_read_request]
  obtain ⟨stp, e1, e2, e3, e4, e5, e6, e7, e8, e9⟩ := read_beats_partial cfg st.handles.length
    idles (after_read_request pins st) _ hget hc rfl (by simpa [after_read_request] using hq)
    (by simpa using by omega)
  refine ⟨_, after_read_beat cfg st.handles.length true
      ⟨ar_payload pins st.fresh st.fresh_be, 0 + idles.length, 0, true⟩ stp,
    ⟨ar_payload pins st.fresh st.fresh_be, 0 + idles.length, 0, true⟩,
    read_request_eq pins ret st hv hr hsch, by simp [after_read_request, slots.set], ?_, ?_, ?_,
    Nat.zero_add _, ?_⟩
  · unfold burst_beats
    rw [read_beats_append cfg _ _ [(true, idle_last)] _ stp e1]
    simp only [read_beats]
    rw [read_beat_step cfg _ true idle_last stp _ e2 hc e3 e4]
  · simp only [after_read_beat, e6, after_read_request, Nat.zero_add, List.range_succ,
      List.map_append, List.map_cons, List.map_nil, List.append_assoc, List.range_eq_range']
  · simp [after_read_beat, e2]
  · simp [after_read_beat, e7, after_read_request]

/-- Witness of C20: a read burst of four beats accepted by a bridge after construction, the
beats ended after 0, 2, 1 and 0 idle wake-ups: `get_read_data_for_beat` reads the beat counts
0, 1, 2, 3. -/
theorem read_burst_beat_counts_witness :
    ∃ st1 st2 h2,
      read_request ⟨true, 7, 0x2000, 3, 2, 1, 0xb, 2, 5, 9, 1, 0, 0, true⟩ .TLM_ACCEPTED
        (bridge.init rampBuffer (constBuffer 0)) = .ok st1 ∧
      st1.active_req_beat .TLM_READ_COMMAND = none ∧
      read_beats ⟨32, 0⟩ 0 (burst_beats [0, 2, 1] 0) st1 = .ok st2 ∧
      st2.read_beats = [] ++ (List.range (3 + 1)).map (fun k => (0, k)) ∧
      st2.handles[0]? = some h2 ∧ h2.beat_count = 3 ∧
      st2.reacted = []
        ++ [(protocol_time_point_e.BegReqE, 0), (protocol_time_point_e.EndReqE, 0)]
        ++ (List.replicate 3
            [(protocol_time_point_e.BegPartRespE, 0),
             (protocol_time_point_e.EndPartRespE, 0)]).flatten
        ++ [(protocol_time_point_e.BegRespE, 0), (protocol_time_point_e.EndRespE, 0)] :=
  (read_burst_beat_counts ⟨32, 0⟩ ⟨true, 7, 0x2000, 3, 2, 1, 0xb, 2, 5, 9, 1, 0, 0, true⟩
    .TLM_ACCEPTED (bridge.init rampBuffer (constBuffer 0)) [0, 2, 1] 0 rfl (by decide) rfl rfl
    (by decide)).1

/-! ## The response callbacks and the response threads -/

/-- C21: for a handle at index `hid`.  The `BegResp` callback of a read transaction stores the
handle in `active_resp_beat[READ]` and appends the one notification `(3, hid)` to `rresp_vl`;
that of a write transaction stores it in `active_resp_beat[WRITE]` and appends the one
notification `(3, hid)` to `wresp_vl`; the `BegPartResp` callback of a read transaction stores
the handle in `active_resp_beat[READ]` and appends the one notification `(1, hid)` to
`rresp_vl`.  The state after the callback is the state before it with these two members
replaced, so the slot of the other command, the other queue, the request slots and the handles
are as they were. -/
theorem beg_resp_callbacks (ret : tlm_sync_enum) (st : bridge) (hid : Nat) (h : fsm_handle)
    (hh : st.handles[hid]? = some h) :
    (h.trans.command = .TLM_READ_COMMAND →
      cb ret .BegRespE hid st = .ok { st with
          active_resp_beat := st.active_resp_beat.set .TLM_READ_COMMAND (some hid)
          rresp_vl := st.rresp_vl ++ [(3, hid)] } ∧
      cb ret .BegPartRespE hid st = .ok { st with
          active_resp_beat := st.active_resp_beat.set .TLM_READ_COMMAND (some hid)
          rresp_vl := st.rresp_vl ++ [(1, hid)] }) ∧
    (h.trans.command = .TLM_WRITE_COMMAND →
      cb ret .BegRespE hid st = .ok { st with
          active_resp_beat := st.active_resp_beat.set .TLM_WRITE_COMMAND (some hid)
          wresp_vl := st.wresp_vl ++ [(3, hid)] }) ∧
    (∀ c, c ≠ tlm_command.TLM_READ_COMMAND →
      (st.active_resp_beat.set .TLM_READ_COMMAND (some hid)) c = st.active_resp_beat c) ∧
    (∀ c, c ≠ tlm_command.TLM_WRITE_COMMAND →
      (st.active_resp_beat.set .TLM_WRITE_COMMAND (some hid)) c = st.active_resp_beat c) := by
  refine ⟨fun hc => ⟨?_, ?_⟩, fun hc => ?_, fun c hne => ?_, fun c hne => ?_⟩
  · simp [cb, hh, hc]
  · simp [cb, hh, hc]
  · simp [cb, hh, hc]
  · simp [slots.set, hne]
  · simp [slots.set, hne]

/-- Witness of C21: a bridge that has accepted a read address (handle 0) and opened a write
burst (handle 1); `BegPartResp` and `BegResp` on the read handle, `BegResp` on the write
handle. -/
theorem beg_resp_callbacks_witness :
    (respBridge.handles[0]?).map (fun h => h.trans.command) = some .TLM_READ_COMMAND ∧
    (respBridge.handles[1]?).map (fun h => h.trans.command) = some .TLM_WRITE_COMMAND ∧
    (match cb .TLM_ACCEPTED .BegPartRespE 0 respBridge with
      | .ok s => some (s.rresp_vl, s.wresp_vl, s.active_resp_beat .TLM_READ_COMMAND,
          s.active_resp_beat .TLM_WRITE_COMMAND)
      | .error _ => none) = some ([(1, 0)], [], some 0, none) ∧
    (match cb .TLM_ACCEPTED .BegRespE 0 respBridge with
      | .ok s => some (s.rresp_vl, s.wresp_vl, s.active_resp_beat .TLM_READ_COMMAND,
          s.active_resp_beat .TLM_WRITE_COMMAND)
      | .error _ => none) = some ([(3, 0)], [], some 0, none) ∧
    (match cb .TLM_ACCEPTED .BegRespE 1 respBridge with
      | .ok s => some (s.rresp_vl, s.wresp_vl, s.active_resp_beat .TLM_READ_COMMAND,
          s.active_resp_beat .TLM_WRITE_COMMAND)
      | .error _ => none) = some ([], [(3, 1)], none, some 1) :=
  have k0 := beg_resp_callbacks .TLM_ACCEPTED respBridge 0
    ⟨ar_payload ⟨true, 7, 0x2000, 3, 2, 1, 0xb, 2, 5, 9, 1, 0, 0, true⟩ rampBuffer
      (constBuffer 0), 0, 0, true⟩ rfl
  have k1 := beg_resp_callbacks .TLM_ACCEPTED respBridge 1
    (opened_handle ⟨32, 0⟩ (sampleAw 0x100 2 3) rampBuffer (constBuffer 0)) rfl
  ⟨rfl, rfl, by rw [(k0.1 rfl).2]; rfl, by rw [(k0.1 rfl).1]; rfl, by rw [(k1.2.1 rfl)]; rfl⟩

theorem rresp_loop_first (ret : tlm_sync_enum) (n : Nat) (tail : List Bool) (st : bridge)
    (x : Nat × Nat) (hcur : st.rresp_cur = some x) :
    rresp_loop ret (List.replicate n false ++ true :: tail) st = rresp_wake true ret st ∧
    rresp_loop ret (List.replicate n false) st = .error .blocked := by
  induction n with
  | zero =>
    refine ⟨?_, rfl⟩
    simp only [List.replicate_zero, List.nil_append, rresp_loop]
    cases rresp_wake true ret st <;> rfl
  | succ n ih =>
    simp only [List.replicate_succ, List.cons_append, rresp_loop,
      rresp_wake_low ret st x hcur]
    exact ih

theorem bresp_wake_low (ret : tlm_sync_enum) (st : bridge) (x : Nat × Nat)
    (hcur : st.bresp_cur = some x) : bresp_wake false ret st = .ok st := by
  simp [bresp_wake, hcur]

theorem bresp_loop_first (ret : tlm_sync_enum) (n : Nat) (tail : List Bool) (st : bridge)
    (x : Nat × Nat) (hcur : st.bresp_cur = some x) :
    bresp_loop ret (List.replicate n false ++ true :: tail) st = bresp_wake true ret st ∧
    bresp_loop ret (List.replicate n false) st = .error .blocked := by
  induction n with
  | zero =>
    refine ⟨?_, rfl⟩
    simp only [List.replicate_zero, List.nil_append, bresp_loop]
    cases bresp_wake true ret st <;> rfl
  | succ n ih =>
    simp only [List.replicate_succ, List.cons_append, bresp_loop,
      bresp_wake_low ret st x hcur]
    exact ih

theorem rresp_take_eq (cfg : CFG) (st : bridge) (val hid : Nat) (rest : List (Nat × Nat))
    (h : fsm_handle) (hq : st.rresp_vl = (val, hid) :: rest) (hh : st.handles[hid]? = some h) :
    rresp_take cfg st = .ok { st with
      rresp_vl := rest
      read_beats := st.read_beats ++ [(hid, h.beat_count)]
      r_data := get_read_data_for_beat cfg h
      r_resp := h.trans.ext.cresp
      r_valid := decide (val &&& 1 ≠ 0)
      r_id := h.trans.ext.id
      r_last := decide (val &&& 2 ≠ 0)
      rresp_cur := some (val, hid) } := by
  simp [rresp_take, hq, hh]

theorem bresp_take_eq (st : bridge) (val hid : Nat) (rest : List (Nat × Nat))
    (h : fsm_handle) (hq : st.wresp_vl = (val, hid) :: rest) (hh : st.handles[hid]? = some h) :
    bresp_take st = .ok { st with
      wresp_vl := rest
      b_resp := to_int h.trans.ext.resp
      b_valid := true
      b_id := h.trans.ext.id
      bresp_cur := some (val, hid) } := by
  simp [bresp_take, hq, hh]

theorem rresp_wake_high (ret : tlm_sync_enum) (st : bridge) (val hid hid' : Nat)
    (h' : fsm_handle) (hcur : st.rresp_cur = some (val, hid))
    (hslot : st.active_resp_beat .TLM_READ_COMMAND = some hid')
    (hh : st.handles[hid']? = some h') (hcmd : h'.trans.command = .TLM_READ_COMMAND) :
    ∃ st', rresp_wake true ret st = .ok st' ∧
      st'.reacted = st.reacted ++ [(rresp_evt val, hid')] ∧
      st'.fw_calls = st.fw_calls
        ++ [(if val &&& 2 ≠ 0 then tlm_phase.END_RESP else tlm_phase.END_PARTIAL_RESP,
            h'.trans)] ∧
      st'.r_valid = false ∧ st'.r_last = false ∧ st'.rresp_cur = none ∧
      st'.active_resp_beat .TLM_READ_COMMAND = none := by
  by_cases hv : val &&& 2 = 0 <;>
    simp [rresp_wake, hcur, hslot, react, cb, hh, hcmd, hv, rresp_evt, nb_transport_fw,
      bridge.set_handle, slots.set]

theorem bresp_wake_high (ret : tlm_sync_enum) (st : bridge) (x : Nat × Nat) (hid' : Nat)
    (h' : fsm_handle) (hcur : st.bresp_cur = some x)
    (hslot : st.active_resp_beat .TLM_WRITE_COMMAND = some hid')
    (hh : st.handles[hid']? = some h') :
    ∃ st', bresp_wake true ret st = .ok st' ∧
      st'.reacted = st.reacted ++ [(.EndRespE, hid')] ∧
      st'.fw_calls = st.fw_calls ++ [(.END_RESP, h'.trans)] ∧
      st'.b_valid = false ∧ st'.bresp_cur = none := by
  simp [bresp_wake, hcur, hslot, react, cb, hh, nb_transport_fw]

/-- C22: a notification `(val, hid)` at the head of the response queue, the response slot of
the command holding a handle, and a sequence of wake-ups whose first `n` sample the ready pin
low and whose next samples it high, whatever follows.  The thread `rresp_t` takes the
notification and drives `r_last` equal to the last flag `val & 2`; a wake-up with `r_ready`
low changes nothing and after `n` of them the thread still waits; the run over the whole
sequence ends at wake-up `n` having handed exactly one time point to `react`, `EndRespE` when
the last flag is set and `EndPartRespE` otherwise.  The thread `bresp_t` does the same with
`b_ready` and always `EndRespE`. -/
theorem response_end_once (cfg : CFG) (ret : tlm_sync_enum) (st : bridge) (n : Nat)
    (tail : List Bool) (val hid : Nat) (rest : List (Nat × Nat)) (h : fsm_handle) (hid' : Nat)
    (h' : fsm_handle) (hh : st.handles[hid]? = some h) (hh' : st.handles[hid']? = some h') :
    (st.rresp_vl = (val, hid) :: rest →
      st.active_resp_beat .TLM_READ_COMMAND = some hid' →
      h'.trans.command = .TLM_READ_COMMAND →
      ∃ st1 st2, rresp_take cfg st = .ok st1 ∧
        st1.r_last = decide (val &&& 2 ≠ 0) ∧ st1.reacted = st.reacted ∧
        rresp_wake false ret st1 = .ok st1 ∧
        rresp_loop ret (List.replicate n false) st1 = .error .blocked ∧
        rresp_loop ret (List.replicate n false ++ true :: tail) st1 = .ok st2 ∧
        st2.reacted = st.reacted
          ++ [(if val &&& 2 ≠ 0 then protocol_time_point_e.EndRespE
              else protocol_time_point_e.EndPartRespE, hid')] ∧
        st2.r_valid = false ∧ st2.r_last = false) ∧
    (st.wresp_vl = (val, hid) :: rest →
      st.active_resp_beat .TLM_WRITE_COMMAND = some hid' →
      ∃ st1 st2, bresp_take st = .ok st1 ∧
        st1.b_valid = true ∧ st1.reacted = st.reacted ∧
        bresp_wake false ret st1 = .ok st1 ∧
        bresp_loop ret (List.replicate n false) st1 = .error .blocked ∧
        bresp_loop ret (List.replicate n false ++ true :: tail) st1 = .ok st2 ∧
        st2.reacted = st.reacted ++ [(protocol_time_point_e.EndRespE, hid')] ∧
        st2.b_valid = false) := by
  constructor
  · intro hq hslot hcmd
    have ht := rresp_take_eq cfg st val hid rest h hq hh
    obtain ⟨st2, w1, w2, _, w4, w5, _⟩ := rresp_wake_high ret _ val hid hid' h'
      (show ({ st with
        rresp_vl := rest
        read_beats := st.read_beats ++ [(hid, h.beat_count)]
        r_data := get_read_data_for_beat cfg h
        r_resp := h.trans.ext.cresp
        r_valid := decide (val &&& 1 ≠ 0)
        r_id := h.trans.ext.id
        r_last := decide (val &&& 2 ≠ 0)
        rresp_cur := some (val, hid) } : bridge).rresp_cur = some (val, hid) from rfl)
      hslot hh' hcmd
    obtain ⟨l1, l2⟩ := rresp_loop_first ret n tail _ (val, hid)
      (show ({ st with
        rresp_vl := rest
        read_beats := st.read_beats ++ [(hid, h.beat_count)]
        r_data := get_read_data_for_beat cfg h
        r_resp := h.trans.ext.cresp
        r_valid := decide (val &&& 1 ≠ 0)
        r_id := h.trans.ext.id
        r_last := decide (val &&& 2 ≠ 0)
        rresp_cur := some (val, hid) } : bridge).rresp_cur = some (val, hid) from rfl)
    exact ⟨_, st2, ht, rfl, rfl, rresp_wake_low ret _ (val, hid) rfl, l2, l1.trans w1,
      w2, w4, w5⟩
  · intro hq hslot
    have ht := bresp_take_eq st val hid rest h hq hh
    obtain ⟨st2, w1, w2, _, w4, _⟩ := bresp_wake_high ret _ (val, hid) hid' h'
      (show ({ st with
        wresp_vl := rest
        b_resp := to_int h.trans.ext.resp
        b_valid := true
        b_id := h.trans.ext.id
        bresp_cur := some (val, hid) } : bridge).bresp_cur = some (val, hid) from rfl)
      hslot hh'
    obtain ⟨l1, l2⟩ := bresp_loop_first ret n tail _ (val, hid)
      (show ({ st with
        wresp_vl := rest
        b_resp := to_int h.trans.ext.resp
        b_valid := true
        b_id := h.trans.ext.id
        bresp_cur := some (val, hid) } : bridge).bresp_cur = some (val, hid) from rfl)
    exact ⟨_, st2, ht, rfl, rfl, bresp_wake_low ret _ (val, hid) rfl, l2, l1.trans w1, w2, w4⟩

/-- Witness of C22: the bridge `respPending`, whose read-response queue holds the notification
`(1, 0)`; two wake-ups with `r_ready` low, one with `r_ready` high and two more: one
`EndPartRespE` is handed to `react`, on the third wake-up. -/
theorem response_end_once_witness :
    respPending.handles[0]? = some ⟨ar_payload ⟨true, 7, 0x2000, 3, 2, 1, 0xb, 2, 5, 9, 1, 0, 0,
      true⟩ rampBuffer (constBuffer 0), 0, 0, true⟩ ∧
    ∃ st1 st2, rresp_take ⟨32, 0⟩ respPending = .ok st1 ∧
      st1.r_last = decide (1 &&& 2 ≠ 0) ∧ st1.reacted = [] ∧
      rresp_wake false .TLM_ACCEPTED st1 = .ok st1 ∧
      rresp_loop .TLM_ACCEPTED (List.replicate 2 false) st1 = .error .blocked ∧
      rresp_loop .TLM_ACCEPTED (List.replicate 2 false ++ true :: [false, true]) st1
        = .ok st2 ∧
      st2.reacted = [] ++ [(protocol_time_point_e.EndPartRespE, 0)] ∧
      st2.r_valid = false ∧ st2.r_last = false :=
  ⟨rfl, (response_end_once ⟨32, 0⟩ .TLM_ACCEPTED respPending 2 [false, true] 1 0 []
    ⟨ar_payload ⟨true, 7, 0x2000, 3, 2, 1, 0xb, 2, 5, 9, 1, 0, 0, true⟩ rampBuffer
      (constBuffer 0), 0, 0, true⟩ 0
    ⟨ar_payload ⟨true, 7, 0x2000, 3, 2, 1, 0xb, 2, 5, 9, 1, 0, 0, true⟩ rampBuffer
      (constBuffer 0), 0, 0, true⟩ rfl rfl).1 rfl rfl rfl⟩

/-- C27, counterexample: two read transactions whose `BegPartResp` callbacks both run before
the handshake.  The thread `rresp_t` takes the notification of handle 0 and drives the id 7 of
its transaction, but the slot `active_resp_beat[READ]` holds handle 1 by then, and with
`r_ready` high `EndPartRespE` is handed to `react` on handle 1, whose beat counter is
incremented while that of handle 0 stays 0. -/
theorem end_point_on_other_handle :
    resp_view twoReadsTaken = some (some (1, 0), 7, [], [0, 0]) ∧
    resp_view twoReadsRun
      = some (none, 7, [(protocol_time_point_e.EndPartRespE, 1)], [0, 1]) :=
  ⟨rfl, rfl⟩

theorem read_resp_round (cfg : CFG) (ret : tlm_sync_enum) (st : bridge) (n : Nat)
    (tail : List Bool) (hid val : Nat) (h : fsm_handle) (hh : st.handles[hid]? = some h)
    (hcmd : h.trans.command = .TLM_READ_COMMAND) (hq : st.rresp_vl = []) :
    ∃ s2 s3, rresp_take cfg { st with
          active_resp_beat := st.active_resp_beat.set .TLM_READ_COMMAND (some hid)
          rresp_vl := st.rresp_vl ++ [(val, hid)] } = .ok s2 ∧
      s2.rresp_cur = some (val, hid) ∧ s2.r_id = h.trans.ext.id ∧
      s2.r_resp = h.trans.ext.cresp ∧ s2.r_data = get_read_data_for_beat cfg h ∧
      rresp_loop ret (List.replicate n false ++ true :: tail) s2 = .ok s3 ∧
      s3.reacted = st.reacted ++ [(rresp_evt val, hid)] := by
  have ht := rresp_take_eq cfg { st with
      active_resp_beat := st.active_resp_beat.set .TLM_READ_COMMAND (some hid)
      rresp_vl := st.rresp_vl ++ [(val, hid)] } val hid [] h (by simp [hq]) hh
  obtain ⟨s3, w1, w2, _⟩ := rresp_wake_high ret _ val hid hid h
    (show ({ ({ st with
          active_resp_beat := st.active_resp_beat.set .TLM_READ_COMMAND (some hid)
          rresp_vl := st.rresp_vl ++ [(val, hid)] } : bridge) with
        rresp_vl := []
        read_beats := st.read_beats ++ [(hid, h.beat_count)]
        r_data := get_read_data_for_beat cfg h
        r_resp := h.trans.ext.cresp
        r_valid := decide (val &&& 1 ≠ 0)
        r_id := h.trans.ext.id
        r_last := decide (val &&& 2 ≠ 0)
        rresp_cur := some (val, hid) } : bridge).rresp_cur = some (val, hid) from rfl)
    (by simp [slots.set]) hh hcmd
  obtain ⟨l1, _⟩ := rresp_loop_first ret n tail _ (val, hid)
    (show ({ ({ st with
          active_resp_beat := st.active_resp_beat.set .TLM_READ_COMMAND (some hid)
          rresp_vl := st.rresp_vl ++ [(val, hid)] } : bridge) with
        rresp_vl := []
        read_beats := st.read_beats ++ [(hid, h.beat_count)]
        r_data := get_read_data_for_beat cfg h
        r_resp := h.trans.ext.cresp
        r_valid := decide (val &&& 1 ≠ 0)
        r_id := h.trans.ext.id
        r_last := decide (val &&& 2 ≠ 0)
        rresp_cur := some (val, hid) } : bridge).rresp_cur = some (val, hid) from rfl)
  exact ⟨_, s3, ht, rfl, rfl, rfl, rfl, l1.trans w1, w2⟩

theorem write_resp_round (ret : tlm_sync_enum) (st : bridge) (n : Nat)
    (tail : List Bool) (hid : Nat) (h : fsm_handle) (hh : st.handles[hid]? = some h)
    (hq : st.wresp_vl = []) :
    ∃ s2 s3, bresp_take { st with
          active_resp_beat := st.active_resp_beat.set .TLM_WRITE_COMMAND (some hid)
          wresp_vl := st.wresp_vl ++ [(3, hid)] } = .ok s2 ∧
      s2.bresp_cur = some (3, hid) ∧ s2.b_id = h.trans.ext.id ∧
      s2.b_resp = to_int h.trans.ext.resp ∧
      bresp_loop ret (List.replicate n false ++ true :: tail) s2 = .ok s3 ∧
      s3.reacted = st.reacted ++ [(.EndRespE, hid)] := by
  have ht := bresp_take_eq { st with
      active_resp_beat := st.active_resp_beat.set .TLM_WRITE_COMMAND (some hid)
      wresp_vl := st.wresp_vl ++ [(3, hid)] } 3 hid [] h (by simp [hq]) hh
  obtain ⟨s3, w1, w2, _⟩ := bresp_wake_high ret _ (3, hid) hid h
    (show ({ ({ st with
          active_resp_beat := st.active_resp_beat.set .TLM_WRITE_COMMAND (some hid)
          wresp_vl := st.wresp_vl ++ [(3, hid)] } : bridge) with
        wresp_vl := []
        b_resp := to_int h.trans.ext.resp
        b_valid := true
        b_id := h.trans.ext.id
        bresp_cur := some (3, hid) } : bridge).bresp_cur = some (3, hid) from rfl)
    (by simp [slots.set]) hh
  obtain ⟨l1, _⟩ := bresp_loop_first ret n tail _ (3, hid)
    (show ({ ({ st with
          active_resp_beat := st.active_resp_beat.set .TLM_WRITE_COMMAND (some hid)
          wresp_vl := st.wresp_vl ++ [(3, hid)] } : bridge) with
        wresp_vl := []
        b_resp := to_int h.trans.ext.resp
        b_valid := true
        b_id := h.trans.ext.id
        bresp_cur := some (3, hid) } : bridge).bresp_cur = some (3, hid) from rfl)
  exact ⟨_, s3, ht, rfl, rfl, rfl, l1.trans w1, w2⟩

/-- C27, amended: one response in flight.  When the `BegPartResp` or `BegResp` callback of a
read handle runs with the read-response queue empty and `rresp_t` then takes the notification
and sees `r_ready` high after any number of idle wake-ups, with no further callback in
between, the thread drives id, response and data of that handle and hands its end time point
(`EndPartRespE` after `BegPartResp`, `EndRespE` after `BegResp`) to `react` on that same
handle; likewise `bresp_t` hands `EndRespE` to `react` on the write handle whose `BegResp`
callback ran with the write-response queue empty. -/
theorem response_end_handle (cfg : CFG) (ret : tlm_sync_enum) (st : bridge) (n : Nat)
    (tail : List Bool) (hid : Nat) (h : fsm_handle) (hh : st.handles[hid]? = some h) :
    (h.trans.command = .TLM_READ_COMMAND → st.rresp_vl = [] →
      (∃ s1 s2 s3, cb ret .BegPartRespE hid st = .ok s1 ∧ rresp_take cfg s1 = .ok s2 ∧
        s2.rresp_cur = some (1, hid) ∧ s2.r_id = h.trans.ext.id ∧
        s2.r_resp = h.trans.ext.cresp ∧ s2.r_data = get_read_data_for_beat cfg h ∧
        rresp_loop ret (List.replicate n false ++ true :: tail) s2 = .ok s3 ∧
        s3.reacted = st.reacted ++ [(.EndPartRespE, hid)]) ∧
      (∃ s1 s2 s3, cb ret .BegRespE hid st = .ok s1 ∧ rresp_take cfg s1 = .ok s2 ∧
        s2.rresp_cur = some (3, hid) ∧ s2.r_id = h.trans.ext.id ∧
        s2.r_resp = h.trans.ext.cresp ∧ s2.r_data = get_read_data_for_beat cfg h ∧
        rresp_loop ret (List.replicate n false ++ true :: tail) s2 = .ok s3 ∧
        s3.reacted = st.reacted ++ [(.EndRespE, hid)])) ∧
    (h.trans.command = .TLM_WRITE_COMMAND → st.wresp_vl = [] →
      ∃ s1 s2 s3, cb ret .BegRespE hid st = .ok s1 ∧ bresp_take s1 = .ok s2 ∧
        s2.bresp_cur = some (3, hid) ∧ s2.b_id = h.trans.ext.id ∧
        s2.b_resp = to_int h.trans.ext.resp ∧
        bresp_loop ret (List.replicate n false ++ true :: tail) s2 = .ok s3 ∧
        s3.reacted = st.reacted ++ [(.EndRespE, hid)]) := by
  refine ⟨fun hc hq => ⟨?_, ?_⟩, fun hc hq => ?_⟩
  · obtain ⟨s2, s3, a1, a2, a3, a4, a5, a6, a7⟩ :=
      read_resp_round cfg ret st n tail hid 1 h hh hc hq
    exact ⟨_, s2, s3, by simp [cb, hh, hc], a1, a2, a3, a4, a5, a6, a7⟩
  · obtain ⟨s2, s3, a1, a2, a3, a4, a5, a6, a7⟩ :=
      read_resp_round cfg ret st n tail hid 3 h hh hc hq
    exact ⟨_, s2, s3, by simp [cb, hh, hc], a1, a2, a3, a4, a5, a6, a7⟩
  · obtain ⟨s2, s3, a1, a2, a3, a4, a5, a6⟩ := write_resp_round ret st n tail hid h hh hq
    exact ⟨_, s2, s3, by simp [cb, hh, hc], a1, a2, a3, a4, a5, a6⟩

/-- Witness of C27 amended: the write handle 1 of `respBridge`, its `BegResp` callback, and
`bresp_t` seeing `b_ready` high on the second wake-up. -/
theorem response_end_handle_witness :
    respBridge.handles[1]?
      = some (opened_handle ⟨32, 0⟩ (sampleAw 0x100 2 3) rampBuffer (constBuffer 0)) ∧
    ∃ s1 s2 s3, cb .TLM_ACCEPTED .BegRespE 1 respBridge = .ok s1 ∧ bresp_take s1 = .ok s2 ∧
      s2.bresp_cur = some (3, 1) ∧ s2.b_id = 0 ∧ s2.b_resp = 0 ∧
      bresp_loop .TLM_ACCEPTED (List.replicate 1 false ++ true :: []) s2 = .ok s3 ∧
      s3.reacted = [] ++ [(.EndRespE, 1)] :=
  ⟨rfl, (response_end_handle ⟨32, 0⟩ .TLM_ACCEPTED respBridge 1 [] 1
    (opened_handle ⟨32, 0⟩ (sampleAw 0x100 2 3) rampBuffer (constBuffer 0)) rfl).2 rfl rfl⟩

/-! ## Index bounds of the packers -/

/-- C24: a beat of size at most the bus width in bytes, with `beat_count <= AxLEN`, of a
transaction whose data length is at most `(AxLEN+1) * beat_size` (the length `ar_t` and
`wdata_t` give it).  Every pair (buffer index, bus lane) visited by the copy loops, whichever of
the three loops the beat selects, has its buffer index below `(AxLEN+1) * beat_size` and its
lane (also the index of the strobe bit) below the bus width in bytes.  So the write packer of
`wdata_t` leaves the data and byte-enable bytes from `(AxLEN+1) * beat_size` on as they were,
and the word returned by `get_read_data_for_beat` is 0 on every lane from the bus width on. -/
theorem packer_index_bounds (cfg : CFG) (fsm_hndl : fsm_handle) (w strb : Nat)
    (hs : get_burst_size fsm_hndl.trans ≤ cfg.BUSWIDTH / 8)
    (hb : fsm_hndl.beat_count ≤ fsm_hndl.trans.ext.length)
    (hl : fsm_hndl.trans.data_length
      ≤ (fsm_hndl.trans.ext.length + 1) * get_burst_size fsm_hndl.trans) :
    (∀ c ∈ beat_copies cfg fsm_hndl,
      c.1 < (fsm_hndl.trans.ext.length + 1) * get_burst_size fsm_hndl.trans ∧
      c.2 < cfg.BUSWIDTH / 8) ∧
    (∀ p, (fsm_hndl.trans.ext.length + 1) * get_burst_size fsm_hndl.trans ≤ p →
      (wdata_pack cfg fsm_hndl w strb).trans.data p = fsm_hndl.trans.data p ∧
      (wdata_pack cfg fsm_hndl w strb).trans.byte_enable p = fsm_hndl.trans.byte_enable p) ∧
    (∀ l, cfg.BUSWIDTH / 8 ≤ l → getLane (get_read_data_for_beat cfg fsm_hndl) l = 0) := by
  have hspos : 0 < get_burst_size fsm_hndl.trans := Nat.pos_pow_of_pos _ (by decide)
  have hN : (fsm_hndl.trans.ext.length + 1) * get_burst_size fsm_hndl.trans
      = fsm_hndl.trans.ext.length * get_burst_size fsm_hndl.trans
        + get_burst_size fsm_hndl.trans := Nat.succ_mul _ _
  have hbs : fsm_hndl.beat_count * get_burst_size fsm_hndl.trans
      ≤ fsm_hndl.trans.ext.length * get_burst_size fsm_hndl.trans :=
    Nat.mul_le_mul_right _ hb
  have hbo : beat_byte_offset fsm_hndl
      ≤ fsm_hndl.beat_count * get_burst_size fsm_hndl.trans := Nat.mod_le _ _
  have key : ∀ c ∈ beat_copies cfg fsm_hndl,
      c.1 < (fsm_hndl.trans.ext.length + 1) * get_burst_size fsm_hndl.trans ∧
      c.2 < cfg.BUSWIDTH / 8 := by
    intro c hc
    cases hu : unaligned_multi_beat cfg fsm_hndl with
    | false =>
      rw [copies_eq_aligned cfg fsm_hndl hu] at hc
      obtain ⟨i, hi, rfl⟩ := List.mem_map.1 hc
      have hi' : i < get_burst_size fsm_hndl.trans := by
        simpa [List.mem_range'_1] using hi
      have hbr : beat_offset cfg fsm_hndl = 0 ∨
          get_burst_size fsm_hndl.trans + beat_offset cfg fsm_hndl ≤ cfg.BUSWIDTH / 8 := by
        unfold unaligned_multi_beat at hu
        simp only [Bool.and_eq_false_imp, decide_eq_true_eq, decide_eq_false_iff_not] at hu
        by_cases h0 : beat_offset cfg fsm_hndl = 0
        · exact Or.inl h0
        · exact Or.inr (by have := hu h0; omega)
      refine ⟨by simp only; omega, ?_⟩
      simp only
      rcases hbr with h0 | hle <;> omega
    | true =>
      by_cases hb0 : fsm_hndl.beat_count = 0
      · rw [copies_first_list cfg fsm_hndl hu hb0] at hc
        obtain ⟨j, hj, rfl⟩ := List.mem_map.1 hc
        have hj' := List.mem_range.1 hj
        exact ⟨by simp only; omega, by simp only; omega⟩
      · obtain ⟨h1, h2⟩ := later_beat_bounds cfg fsm_hndl hu hb0 c hc
        exact ⟨by omega, by omega⟩
  refine ⟨key, ?_, ?_⟩
  · intro p hp
    rw [pack_eq_fold]
    exact fold_store_other w strb _ fsm_hndl p (fun c hc heq => by
      have := (key c hc).1; omega)
  · intro l hl'
    rw [read_eq_fold, fold_setLane_other, getLane_zero]
    intro c hc heq
    have := (key c hc).2
    omega

/-- Witness of C24: 64-bit bus, two beats of 8 bytes at address 3, beat 1 (the later-beat loop
of the un-aligned branch): buffer bytes 5..12 and lanes 0..7 are visited, all below 16 and 8. -/
theorem packer_index_bounds_witness :
    beat_copies ⟨64, 0⟩ (sampleHandle .TLM_WRITE_COMMAND 3 3 1 1 0 rampBuffer (constBuffer 0x55))
      = [(5, 0), (6, 1), (7, 2), (8, 3), (9, 4), (10, 5), (11, 6), (12, 7)] ∧
    (wdata_pack ⟨64, 0⟩
      (sampleHandle .TLM_WRITE_COMMAND 3 3 1 1 0 rampBuffer (constBuffer 0x55))
      0x8877665544332211 0xff).trans.data 16 = 16 ∧
    (wdata_pack ⟨64, 0⟩
      (sampleHandle .TLM_WRITE_COMMAND 3 3 1 1 0 rampBuffer (constBuffer 0x55))
      0x8877665544332211 0xff).trans.byte_enable 16 = 0x55 ∧
    getLane (get_read_data_for_beat ⟨64, 0⟩
      (sampleHandle .TLM_WRITE_COMMAND 3 3 1 1 0 rampBuffer (constBuffer 0x55))) 8 = 0 :=
  have key := packer_index_bounds ⟨64, 0⟩
    (sampleHandle .TLM_WRITE_COMMAND 3 3 1 1 0 rampBuffer (constBuffer 0x55))
    0x8877665544332211 0xff (by decide) (by decide) (by decide)
  ⟨by decide, (key.2.1 16 (by decide)).1, (key.2.1 16 (by decide)).2, key.2.2 8 (by decide)⟩

/-- C25: the code at the failing input.  On a 64-bit bus (`W = 8`), beat 1 of a burst of
4-byte beats at address 3 takes the un-aligned multi-beat branch with `offset = 7`, which
exceeds `beat_count * beat_size = 4`, and the unsigned difference `byte_offset - offset` wraps
to `2^64 - 3`.  For beats as wide as the bus the inequality of the claim holds. -/
theorem later_beat_offset_exceeds :
    (((⟨64, 0⟩ : CFG).BUSWIDTH / 8 = 2 ^ 3 ∧
      get_burst_size (sampleHandle .TLM_READ_COMMAND 3 2 1 1 0 rampBuffer (constBuffer 0)).trans
        = 4 ∧
      (sampleHandle .TLM_READ_COMMAND 3 2 1 1 0 rampBuffer (constBuffer 0)).beat_count = 1 ∧
      unaligned_multi_beat ⟨64, 0⟩
        (sampleHandle .TLM_READ_COMMAND 3 2 1 1 0 rampBuffer (constBuffer 0)) = true ∧
      beat_offset ⟨64, 0⟩
        (sampleHandle .TLM_READ_COMMAND 3 2 1 1 0 rampBuffer (constBuffer 0)) = 7 ∧
      beat_byte_offset (sampleHandle .TLM_READ_COMMAND 3 2 1 1 0 rampBuffer (constBuffer 0))
        = 4 ∧
      ¬ beat_offset ⟨64, 0⟩ (sampleHandle .TLM_READ_COMMAND 3 2 1 1 0 rampBuffer (constBuffer 0))
        ≤ (sampleHandle .TLM_READ_COMMAND 3 2 1 1 0 rampBuffer (constBuffer 0)).beat_count
          * get_burst_size
            (sampleHandle .TLM_READ_COMMAND 3 2 1 1 0 rampBuffer (constBuffer 0)).trans ∧
      beat_start_idx ⟨64, 0⟩
        (sampleHandle .TLM_READ_COMMAND 3 2 1 1 0 rampBuffer (constBuffer 0))
        = 18446744073709551613)) ∧
    (∀ (cfg : CFG) (h : fsm_handle) (k : Nat), cfg.BUSWIDTH / 8 = 2 ^ k → k ≤ 64 →
      get_burst_size h.trans = cfg.BUSWIDTH / 8 → h.beat_count ≠ 0 →
      beat_offset cfg h ≤ h.beat_count * get_burst_size h.trans ∧
      (h.beat_count * get_burst_size h.trans < 2 ^ 32 →
        beat_start_idx cfg h = h.beat_count * get_burst_size h.trans - beat_offset cfg h)) := by
  refine ⟨⟨by decide, by decide, rfl, by decide, by decide, by decide, by decide, by decide⟩, ?_⟩
  intro cfg h k hW hk hs hb
  have hoff := beat_offset_eq_mod cfg h k hW hk
  have hlt : beat_offset cfg h < get_burst_size h.trans := by
    rw [hoff, hs]
    exact Nat.mod_lt _ (by rw [hW]; exact Nat.pos_pow_of_pos _ (by decide))
  have hsb : get_burst_size h.trans ≤ h.beat_count * get_burst_size h.trans :=
    Nat.le_mul_of_pos_left _ (Nat.pos_of_ne_zero hb)
  exact ⟨by omega, fun hprod => (later_start_idx cfg h hprod (by omega)).2⟩

theorem copies_length_le (cfg : CFG) (h : fsm_handle) :
    (beat_copies cfg h).length ≤ get_burst_size h.trans := by
  cases hu : unaligned_multi_beat cfg h with
  | false => rw [copies_eq_aligned cfg h hu]; simp
  | true =>
    by_cases hb : h.beat_count = 0
    · rw [copies_eq_first cfg h hu hb]; simp
    · obtain ⟨m, hm, hc, _⟩ := copies_eq_later cfg h hu hb
      rw [hc]; simpa using hm

theorem written_count_le (cfg : CFG) (h : fsm_handle) (strb : Nat) :
    written_count cfg h strb ≤ get_burst_size h.trans :=
  Nat.le_trans (List.length_filter_le _ _) (copies_length_le cfg h)

theorem burst_written_le (cfg : CFG) (h0 : fsm_handle) (ps : List w_pins) :
    ∀ k, burst_written cfg h0 ps k ≤ ps.length * get_burst_size h0.trans := by
  induction ps with
  | nil => intro k; simp [burst_written]
  | cons p ps ih =>
    intro k
    have h1 := written_count_le cfg (at_beat h0 k) p.w_strb
    have h2 := ih (k + 1)
    have h3 : get_burst_size (at_beat h0 k).trans = get_burst_size h0.trans := rfl
    simp only [burst_written, List.length_cons, Nat.succ_mul]
    omega


theorem burst_acc_null (cfg : CFG) (ps : List w_pins) :
    ∀ h : fsm_handle, h.trans.byte_enable_ptr = none → burst_stores_valid cfg ps h = true →
      (burst_handle cfg ps h).aux_i32_i0 = h.aux_i32_i0 := by
  induction ps with
  | nil => intro h _ _; rfl
  | cons p ps ih =>
    intro h hnull hvalid
    simp only [burst_stores_valid, Bool.and_eq_true] at hvalid
    obtain ⟨_, _, d3, _, _, _⟩ := beat_done_facts cfg p h
    obtain ⟨_, q2⟩ := beat_done_ptrs cfg p h
    have hnil := stores_valid_null cfg h hnull hvalid.1
    have hacc : (beat_done cfg p h).aux_i32_i0 = h.aux_i32_i0 := by
      rw [d3, pack_eq_fold, hnil]; rfl
    show (burst_handle cfg ps (beat_done cfg p h)).aux_i32_i0 = _
    rw [ih (beat_done cfg p h) (q2.trans hnull) hvalid.2, hacc]

theorem create_large_null (sz : Nat) (h : 4096 < sz) :
    (tlm_gp_mm.create sz true).be_ptr = none := by
  simp [tlm_gp_mm.create, h, tlm_gp_mm_v]

/-- C26: a write burst started with no burst open and its address entry `awd` pending, of
`N` beats (the beats `pre` without `w_last` and a last beat with `w_last`, each valid and with
its request phase ended before the next is sampled) with `N - 1 <= AWLEN`.  The accumulator of
the handle is 0 when `wdata_t` opens the burst, and the transaction holds the arrays
`tlm_gp_mm::create` provides for `(AWLEN+1) * 2^AWSIZE` bytes.  Whenever the run gets through
the last beat, the packer ran on it with `beat_count = N - 1`, and the written-byte
accumulator, to which the truncation sets the data length and the byte-enable length, is at
most `(AWLEN+1) * 2^AWSIZE`, at most the size of the data array, and at most the size of the
byte-enable array (0 when there is none).  The run does get through when the declared length
is at most 4096 bytes. -/
theorem write_burst_accumulator_bound (cfg : CFG) (st : bridge) (awd : aw_data)
    (rest : List aw_data) (pre : List (w_pins × tlm_sync_enum)) (pl : w_pins)
    (rl : tlm_sync_enum)
    (hnone : st.active_req .TLM_WRITE_COMMAND = none) (hq : st.aw_que = awd :: rest)
    (hsch : st.scheduled = [])
    (hpre : ∀ b ∈ pre, b.1.w_valid = true ∧ b.1.w_last = false ∧ b.2 ≠ .TLM_COMPLETED)
    (hv : pl.w_valid = true) (hl : pl.w_last = true) (hr : rl ≠ .TLM_COMPLETED)
    (hN : pre.length + 1 < 2 ^ 32) (hlen : pre.length ≤ awd.len) :
    (∃ st0 h0, wdata_open cfg st = .ok st0 ∧ st0.handles[st.handles.length]? = some h0 ∧
      h0.aux_i32_i0 = 0 ∧ h0.trans.data_length = (awd.len + 1) * 2 ^ awd.size ∧
      h0.trans.data_ptr
        = some (tlm_gp_mm.create (2 ^ awd.size * (awd.len + 1)) true).data_ptr ∧
      h0.trans.byte_enable_ptr
        = (tlm_gp_mm.create (2 ^ awd.size * (awd.len + 1)) true).be_ptr) ∧
    (∀ st', write_beats cfg (pre ++ [(pl, rl)]) st = .ok st' →
      st'.packed.getLast? = some (st.handles.length, pre.length) ∧
      ∃ h, st'.handles[st.handles.length]? = some h ∧
        h.aux_i32_i0 ≤ (awd.len + 1) * 2 ^ awd.size ∧
        h.trans.data_length = h.aux_i32_i0 ∧
        h.trans.byte_enable_length = h.aux_i32_i0 ∧
        (∃ n, h.trans.data_ptr = some n ∧ h.trans.data_length ≤ n) ∧
        (∀ n, h.trans.byte_enable_ptr = some n → h.trans.byte_enable_length ≤ n) ∧
        (h.trans.byte_enable_ptr = none → h.trans.byte_enable_length = 0)) ∧
    (2 ^ awd.size * (awd.len + 1) ≤ 4096 →
      ∃ st', write_beats cfg (pre ++ [(pl, rl)]) st = .ok st') := by
  obtain ⟨c1, _, c3, c4, c5, c6, _⟩ := aw_payload_facts cfg awd st.fresh st.fresh_be
  obtain ⟨r1, r2⟩ := aw_payload_ptrs cfg awd st.fresh st.fresh_be
  have hpre' : ∀ p ∈ pre.map Prod.fst, p.w_last = false := fun p hp => by
    obtain ⟨b, hb, rfl⟩ := List.mem_map.1 hp
    exact (hpre b hb).2.1
  have hrun := write_burst_run cfg st awd rest pre pl rl hnone hq hsch hpre hv hr hN
  have hfault := write_burst_fault cfg st awd rest pre pl rl hnone hq hsch hpre hv hr hN
  refine ⟨?_, ?_, ?_⟩
  · refine ⟨_, _, wdata_open_eq cfg st awd rest hq, opened_handle_get cfg awd rest st, rfl, ?_,
      r1, r2⟩
    rw [Nat.mul_comm]; exact c3
  · intro st' hst'
    cases hval : burst_stores_valid cfg (pre.map Prod.fst ++ [pl])
        (opened_handle cfg awd st.fresh st.fresh_be) with
    | false =>
      rw [hfault hval] at hst'
      cases hst'
    | true =>
      obtain ⟨stp, e1, _, e3, e4, _⟩ := hrun hval
      rw [e1] at hst'
      cases hst'
      obtain ⟨f1, _, _, f4⟩ := burst_final_handle cfg awd st.fresh st.fresh_be
        (pre.map Prod.fst) pl hpre' (by simpa using hN)
      obtain ⟨g1, g2, _⟩ := f4 hl
      obtain ⟨n1, _⟩ := burst_handle_nonlast cfg (opened_handle cfg awd st.fresh st.fresh_be)
        (pre.map Prod.fst) (opened_handle cfg awd st.fresh st.fresh_be) 0 hpre' rfl
        (by simpa using by omega) rfl rfl rfl (by simp [opened_handle])
      obtain ⟨q1, q2⟩ := burst_handle_ptrs cfg (pre.map Prod.fst)
        (opened_handle cfg awd st.fresh st.fresh_be)
      obtain ⟨t1, t2⟩ := beat_done_ptrs cfg pl
        (burst_handle cfg (pre.map Prod.fst) (opened_handle cfg awd st.fresh st.fresh_be))
      have hdp : (beat_done cfg pl (burst_handle cfg (pre.map Prod.fst)
          (opened_handle cfg awd st.fresh st.fresh_be))).trans.data_ptr
          = some (tlm_gp_mm.create (2 ^ awd.size * (awd.len + 1)) true).data_ptr :=
        (t1.trans q1).trans r1
      have hbp : (beat_done cfg pl (burst_handle cfg (pre.map Prod.fst)
          (opened_handle cfg awd st.fresh st.fresh_be))).trans.byte_enable_ptr
          = (tlm_gp_mm.create (2 ^ awd.size * (awd.len + 1)) true).be_ptr :=
        (t2.trans q2).trans r2
      have hsz : get_burst_size (opened_handle cfg awd st.fresh st.fresh_be).trans
          = 2 ^ awd.size := by
        show 2 ^ (aw_payload cfg awd st.fresh st.fresh_be).ext.size = _
        rw [c6]
      have hbw := burst_written_le cfg (opened_handle cfg awd st.fresh st.fresh_be)
        (pre.map Prod.fst ++ [pl]) 0
      rw [hsz] at hbw
      simp only [List.length_append, List.length_map, List.length_singleton] at hbw
      have hmul : (pre.length + 1) * 2 ^ awd.size ≤ (awd.len + 1) * 2 ^ awd.size :=
        Nat.mul_le_mul_right _ (by omega)
      have hbound : burst_written cfg (opened_handle cfg awd st.fresh st.fresh_be)
          (pre.map Prod.fst ++ [pl]) 0 % 2 ^ 32 ≤ (awd.len + 1) * 2 ^ awd.size :=
        Nat.le_trans (Nat.mod_le _ _) (Nat.le_trans hbw hmul)
      have hcap := create_data_ge (2 ^ awd.size * (awd.len + 1)) true
      have hcomm : (awd.len + 1) * 2 ^ awd.size = 2 ^ awd.size * (awd.len + 1) :=
        Nat.mul_comm _ _
      refine ⟨by simp [after_beat, e4, n1], _, by simp [after_beat, e3], ?_,
        g1.trans f1.symm, g2.trans f1.symm, ⟨_, hdp, ?_⟩, ?_, ?_⟩
      · rw [f1]; exact hbound
      · rw [g1]; omega
      · intro n hn
        rw [hbp] at hn
        rw [g2]
        by_cases hfit : 2 ^ awd.size * (awd.len + 1) ≤ 4096
        · obtain ⟨m, b1, b2, _⟩ := create_small_byte_enable _ hfit
          rw [b1] at hn
          cases hn
          omega
        · rw [create_large_null _ (by omega)] at hn
          cases hn
      · intro hnull
        rw [burst_stores_valid_append, Bool.and_eq_true] at hval
        simp only [burst_stores_valid, Bool.and_true] at hval
        have h0null : (opened_handle cfg awd st.fresh st.fresh_be).trans.byte_enable_ptr
            = none := by
          rw [← q2, ← t2]; exact hnull
        have hacc := burst_acc_null cfg (pre.map Prod.fst) _ h0null hval.1
        have hnil := stores_valid_null cfg _ (q2.trans h0null) hval.2
        obtain ⟨_, _, d3, _, _, _⟩ := beat_done_facts cfg pl
          (burst_handle cfg (pre.map Prod.fst) (opened_handle cfg awd st.fresh st.fresh_be))
        rw [g2, ← f1, d3, pack_eq_fold, hnil]
        exact hacc
  · intro hfit
    obtain ⟨stp, e1, _⟩ := hrun (write_burst_valid cfg awd st.fresh st.fresh_be
      (pre.map Prod.fst) pl hpre' hfit (by simpa using hlen))
    exact ⟨_, e1⟩

/-- Witness of C26: 32-bit bus, a burst of two beats of 4 bytes (`AWLEN = 1`) with the strobes
`0b0101` and `0b0011`: the accumulator and the truncated lengths end at 4, below the 8 bytes
the transaction was allocated with and the 16 bytes of either array. -/
theorem write_burst_accumulator_bound_witness :
    (∃ st0 h0, wdata_open ⟨32, 0⟩ (sampleBridge (sampleAw 0x100 2 1)) = .ok st0 ∧
      st0.handles[0]? = some h0 ∧ h0.aux_i32_i0 = 0 ∧ h0.trans.data_length = 8 ∧
      h0.trans.data_ptr = some 16 ∧ h0.trans.byte_enable_ptr = some 16) ∧
    (∃ st' h, write_beats ⟨32, 0⟩
        ([((⟨true, 0x44332211, 5, false⟩ : w_pins), tlm_sync_enum.TLM_ACCEPTED)]
          ++ [(⟨true, 0x88776655, 3, true⟩, .TLM_UPDATED)])
        (sampleBridge (sampleAw 0x100 2 1)) = .ok st' ∧
      st'.packed.getLast? = some (0, 1) ∧
      st'.handles[0]? = some h ∧
      h.aux_i32_i0 ≤ 8 ∧
      h.trans.data_length = h.aux_i32_i0 ∧
      h.trans.byte_enable_length = h.aux_i32_i0 ∧
      (∃ n, h.trans.data_ptr = some n ∧ h.trans.data_length ≤ n) ∧
      (∀ n, h.trans.byte_enable_ptr = some n → h.trans.byte_enable_length ≤ n)) := by
  obtain ⟨hopen, hs, hc⟩ :=
    write_burst_accumulator_bound ⟨32, 0⟩ (sampleBridge (sampleAw 0x100 2 1))
      (sampleAw 0x100 2 1) [] [(⟨true, 0x44332211, 5, false⟩, .TLM_ACCEPTED)]
      ⟨true, 0x88776655, 3, true⟩ .TLM_UPDATED rfl rfl rfl (by decide) rfl rfl (by decide)
      (by decide) (by decide)
  obtain ⟨st', e⟩ := hc (by decide)
  obtain ⟨b1, h, b2, b3, b4, b5, b6, b7, _⟩ := hs st' e
  exact ⟨hopen, st', h, e, b1, b2, b3, b4, b5, b6, b7⟩

/-! ## Invariants of the transition system -/

theorem ar_frame_refl (st : bridge) : ar_frame st st := ⟨rfl, Or.inr ⟨rfl, rfl⟩⟩

theorem ar_frame_trans (a b c : bridge) (h1 : ar_frame a b) (h2 : ar_frame b c) :
    ar_frame a c := by
  obtain ⟨r1, s1⟩ := h1
  obtain ⟨r2, s2⟩ := h2
  refine ⟨r2.trans r1, ?_⟩
  rcases s2 with n2 | ⟨e2, f2⟩
  · exact Or.inl n2
  · rcases s1 with n1 | ⟨e1, f1⟩
    · exact Or.inl (e2.trans n1)
    · exact Or.inr ⟨e2.trans e1, f2.trans f1⟩

theorem cb_ar_frame (ret : tlm_sync_enum) (tp : protocol_time_point_e) (hid : Nat)
    (st st' : bridge) (h : cb ret tp hid st = .ok st') : ar_frame st st' := by
  unfold cb at h
  cases hh : st.handles[hid]? with
  | none => rw [hh] at h; cases h
  | some fh =>
    rw [hh] at h
    cases tp <;> simp only at h
    · cases h; exact ⟨rfl, Or.inr ⟨rfl, rfl⟩⟩
    · split at h
      · split at h <;> (cases h; exact ⟨rfl, Or.inr ⟨rfl, rfl⟩⟩)
      · cases h
    · cases h; exact ⟨rfl, Or.inr ⟨by simp [bridge.set_handle, slots.set], rfl⟩⟩
    · split at h <;> (cases h; exact ⟨rfl, Or.inr ⟨rfl, rfl⟩⟩)
    · cases hc : fh.trans.command <;> rw [hc] at h <;> simp only at h <;> cases h
      · exact ⟨rfl, Or.inl (by simp [slots.set])⟩
      · exact ⟨rfl, Or.inr ⟨by simp [bridge.set_handle, slots.set], rfl⟩⟩
      · exact ⟨rfl, Or.inr ⟨rfl, rfl⟩⟩
    · split at h
      · cases h; exact ⟨rfl, Or.inr ⟨rfl, rfl⟩⟩
      · cases h
    · split at h
      · cases h; exact ⟨rfl, Or.inr ⟨rfl, rfl⟩⟩
      · cases h
    · cases hc : fh.trans.command <;> rw [hc] at h <;> simp only at h <;> cases h <;>
        exact ⟨rfl, Or.inr ⟨rfl, rfl⟩⟩
    · cases h; exact ⟨rfl, Or.inr ⟨rfl, rfl⟩⟩

theorem cb_open_frame (ret : tlm_sync_enum) (tp : protocol_time_point_e) (hid : Nat)
    (st st' : bridge) (h : cb ret tp hid st = .ok st') : open_frame st st' := by
  unfold cb at h
  cases hh : st.handles[hid]? with
  | none => rw [hh] at h; cases h
  | some fh =>
    rw [hh] at h
    cases tp <;> simp only at h
    · cases h; exact ⟨rfl, by simp [bridge.set_handle]⟩
    · split at h
      · split at h <;> (cases h; exact ⟨rfl, rfl⟩)
      · cases h
    · cases h; exact ⟨rfl, by simp [bridge.set_handle]⟩
    · split at h <;> (cases h; exact ⟨rfl, rfl⟩)
    · cases hc : fh.trans.command <;> rw [hc] at h <;> simp only at h <;> cases h
      · exact ⟨rfl, rfl⟩
      · exact ⟨rfl, by simp [bridge.set_handle]⟩
      · exact ⟨rfl, rfl⟩
    · split at h
      · cases h; exact ⟨rfl, rfl⟩
      · cases h
    · split at h
      · cases h; exact ⟨rfl, by simp [bridge.set_handle, nb_transport_fw]⟩
      · cases h
    · cases hc : fh.trans.command <;> rw [hc] at h <;> simp only at h <;> cases h <;>
        exact ⟨rfl, rfl⟩
    · cases h; exact ⟨rfl, rfl⟩

theorem react_frames (ret : tlm_sync_enum) (tp : protocol_time_point_e) (hid : Nat)
    (st st' : bridge) (h : react ret tp hid st = .ok st') :
    ar_frame st st' ∧ open_frame st st' := by
  unfold react at h
  cases hh : st.handles[hid]? with
  | none => rw [hh] at h; cases h
  | some fh =>
    rw [hh] at h
    simp only at h
    split at h
    · cases hc : cb ret .RequestPhaseBeg hid
          (({ st with reacted := st.reacted ++ [(tp, hid)] } : bridge).set_handle hid
            { fh with request_begun := true }) with
      | error e => rw [hc] at h; cases h
      | ok s1 =>
        rw [hc] at h
        simp only at h
        have a1 := cb_ar_frame _ _ _ _ _ hc
        have a2 := cb_ar_frame _ _ _ _ _ h
        have o1 := cb_open_frame _ _ _ _ _ hc
        have o2 := cb_open_frame _ _ _ _ _ h
        have a0 : ar_frame st (({ st with reacted := st.reacted ++ [(tp, hid)] } :
            bridge).set_handle hid { fh with request_begun := true }) :=
          ⟨rfl, Or.inr ⟨rfl, rfl⟩⟩
        refine ⟨ar_frame_trans _ _ _ a0 (ar_frame_trans _ _ _ a1 a2), ?_⟩
        obtain ⟨p1, p2⟩ := o1
        obtain ⟨q1, q2⟩ := o2
        exact ⟨q1.trans p1, by rw [q2, p2]; simp [bridge.set_handle]⟩
    · have a2 := cb_ar_frame _ _ _ _ _ h
      have o2 := cb_open_frame _ _ _ _ _ h
      exact ⟨ar_frame_trans _ _ _ ⟨rfl, Or.inr ⟨rfl, rfl⟩⟩ a2, o2⟩

theorem deliver_ar_frame (ret : tlm_sync_enum) (st st' : bridge)
    (h : deliver ret st = .ok st') : ar_frame st st' := by
  unfold deliver at h
  cases hs : st.scheduled with
  | nil => rw [hs] at h; cases h
  | cons e rest =>
    rw [hs] at h
    exact ar_frame_trans _ _ _ ⟨rfl, Or.inr ⟨rfl, rfl⟩⟩ (react_frames _ _ _ _ _ h).1

theorem bw_ar_frame (tr : Nat) (phase : tlm_phase) (t : Nat) (st st' : bridge)
    (r : Except halt tlm_sync_enum) (h : nb_transport_bw tr phase t st = (st', r)) :
    ar_frame st st' := by
  unfold nb_transport_bw at h
  simp only at h
  split at h
  · cases h; exact ⟨rfl, Or.inr ⟨rfl, rfl⟩⟩
  · split at h <;> (cases h; exact ⟨rfl, Or.inr ⟨rfl, rfl⟩⟩)

theorem aw_sample_ar_frame (pins : aw_pins) (st st' : bridge)
    (h : aw_sample pins st = .ok st') : ar_frame st st' := by
  unfold aw_sample at h
  split at h
  · cases h; exact ⟨rfl, Or.inr ⟨rfl, rfl⟩⟩
  · cases h

theorem rresp_take_ar_frame (cfg : CFG) (st st' : bridge)
    (h : rresp_take cfg st = .ok st') : ar_frame st st' := by
  unfold rresp_take at h
  split at h
  · cases h
  · split at h
    · cases h
    · cases h; exact ⟨rfl, Or.inr ⟨rfl, rfl⟩⟩

theorem bresp_take_ar_frame (st st' : bridge)
    (h : bresp_take st = .ok st') : ar_frame st st' := by
  unfold bresp_take at h
  split at h
  · cases h
  · split at h
    · cases h
    · cases h; exact ⟨rfl, Or.inr ⟨rfl, rfl⟩⟩

theorem rresp_wake_ar_frame (r : Bool) (ret : tlm_sync_enum) (st st' : bridge)
    (h : rresp_wake r ret st = .ok st') : ar_frame st st' := by
  unfold rresp_wake at h
  split at h
  · cases h
  · split at h
    · simp only at h
      split at h
      · cases h
      · split at h
        · cases h
        · rename_i s1 hr
          cases h
          exact ar_frame_trans _ _ _ (react_frames _ _ _ _ _ hr).1 ⟨rfl, Or.inr ⟨rfl, rfl⟩⟩
    · cases h; exact ar_frame_refl _

theorem bresp_wake_ar_frame (r : Bool) (ret : tlm_sync_enum) (st st' : bridge)
    (h : bresp_wake r ret st = .ok st') : ar_frame st st' := by
  unfold bresp_wake at h
  split at h
  · cases h
  · split at h
    · split at h
      · cases h
      · split at h
        · cases h
        · rename_i s1 hr
          cases h
          exact ar_frame_trans _ _ _ (react_frames _ _ _ _ _ hr).1 ⟨rfl, Or.inr ⟨rfl, rfl⟩⟩
    · cases h; exact ar_frame_refl _

theorem wdata_resume_ar_frame (last : Bool) (st st' : bridge)
    (h : wdata_resume last st = .ok st') : ar_frame st st' := by
  unfold wdata_resume at h
  split at h
  · simp only at h
    split at h <;> (cases h; exact ⟨rfl, Or.inr ⟨rfl, rfl⟩⟩)
  · cases h

theorem wdata_open_ar_frame (cfg : CFG) (st st' : bridge)
    (h : wdata_open cfg st = .ok st') : ar_frame st st' := by
  cases hq : st.aw_que with
  | nil => simp [wdata_open, hq] at h
  | cons awd rest =>
    rw [wdata_open_eq cfg st awd rest hq] at h
    cases h
    exact ⟨rfl, Or.inr ⟨by simp [after_open, slots.set], rfl⟩⟩

theorem wdata_sample_frames (cfg : CFG) (pins : w_pins) (ret : tlm_sync_enum)
    (st st' : bridge) (h : wdata_sample cfg pins ret st = .ok st') :
    ar_frame st st' ∧ (st.active_req .TLM_WRITE_COMMAND ≠ none → open_frame st st') := by
  unfold wdata_sample at h
  split at h
  · split at h
    · cases h
    · rename_i s1 hopen
      have f1 : ar_frame st s1 ∧ (st.active_req .TLM_WRITE_COMMAND ≠ none → s1 = st) := by
        split at hopen
        · rename_i hnone
          exact ⟨wdata_open_ar_frame cfg st s1 hopen, fun hne => by
            cases ha : st.active_req .TLM_WRITE_COMMAND with
            | none => exact absurd ha hne
            | some x => rw [ha] at hnone; cases hnone⟩
        · cases hopen; exact ⟨ar_frame_refl _, fun _ => rfl⟩
      split at h
      · cases h
      · split at h
        · cases h
        · split at h
          · simp only at h
            obtain ⟨r1, r2⟩ := react_frames _ _ _ _ _ h
            refine ⟨ar_frame_trans _ _ _ f1.1
              (ar_frame_trans _ _ _ ⟨rfl, Or.inr ⟨rfl, rfl⟩⟩ r1), fun hne => ?_⟩
            have hs := f1.2 hne
            subst hs
            obtain ⟨q1, q2⟩ := r2
            exact ⟨q1, by rw [q2]; simp [bridge.set_handle]⟩
          · cases h
  · cases h

theorem ok_of_some (r : Except halt bridge) (st : bridge) (h : ok_of r = some st) :
    r = .ok st := by
  cases r with
  | error e => cases h
  | ok x => cases h; rfl

theorem ar_inv_frame (s : system) (st' : bridge) (w : w_state) (hi : ar_inv s)
    (hf : ar_frame s.br st') : ar_inv { s with br := st', w_pc := w } := by
  obtain ⟨i1, i2, i3, i4⟩ := hi
  obtain ⟨f1, f2⟩ := hf
  refine ⟨fun hp => ?_, fun hp => ?_, fun hp he => ?_, fun hr => ?_⟩
  · rcases f2 with n | ⟨e, _⟩
    · exact n
    · exact e.trans (i1 hp)
  · rcases f2 with n | ⟨e, _⟩
    · exact n
    · exact e.trans (i2 hp)
  · rcases f2 with n | ⟨e, f⟩
    · exact n
    · exact e.trans (i3 hp (f.symm.trans he))
  · exact i4 (f1.symm.trans hr)

theorem step_ar_inv (cfg : CFG) (a : action) (s s' : system) (hi : ar_inv s)
    (h : system.step cfg a s = some s') : ar_inv s' := by
  obtain ⟨i1, i2, i3, i4⟩ := hi
  cases a with
  | ar_accept pins ret =>
    simp only [system.step] at h
    split at h
    · rename_i hpc
      cases hr : ok_of (ar_sample pins ret s.br) with
      | none => rw [hr] at h; cases h
      | some st =>
        rw [hr] at h
        cases h
        have hs := ok_of_some _ _ hr
        have hv : pins.ar_valid = true := by
          cases hv : pins.ar_valid with
          | true => rfl
          | false => simp [ar_sample, hv] at hs
        rw [ar_sample_eq pins ret s.br hv] at hs
        cases hs
        have hnr : s.br.ar_ready = false := by
          cases hr' : s.br.ar_ready with
          | false => rfl
          | true => have := i4 hr'; rw [hpc] at this; cases this
        simp [ar_inv, hnr]
    · cases h
  | ar_raise =>
    simp only [system.step] at h
    split at h
    · rename_i hpc
      cases hr : ok_of (ar_raise s.br) with
      | none => rw [hr] at h; cases h
      | some st =>
        rw [hr] at h
        cases h
        have hs := ok_of_some _ _ hr
        unfold ar_raise at hs
        split at hs
        · rename_i hevt
          cases hs
          simp [ar_inv, i3 hpc hevt]
        · cases hs
    · cases h
  | ar_lower =>
    simp only [system.step] at h
    split at h
    · rename_i hpc
      cases h
      simp [ar_inv, ar_lower, i2 hpc]
    · cases h
  | aw_accept pins =>
    simp only [system.step] at h
    cases hr : ok_of (aw_sample pins s.br) with
    | none => rw [hr] at h; cases h
    | some st =>
      rw [hr] at h
      cases h
      exact ar_inv_frame s st s.w_pc ⟨i1, i2, i3, i4⟩
        (aw_sample_ar_frame pins _ _ (ok_of_some _ _ hr))
  | w_accept pins ret =>
    simp only [system.step] at h
    split at h
    · cases hr : ok_of (wdata_sample cfg pins ret s.br) with
      | none => rw [hr] at h; cases h
      | some st =>
        rw [hr] at h
        cases h
        exact ar_inv_frame s _ _ ⟨i1, i2, i3, i4⟩
          (ar_frame_trans _ _ _ (wdata_sample_frames cfg pins ret _ _ (ok_of_some _ _ hr)).1
            ⟨rfl, Or.inr ⟨rfl, rfl⟩⟩)
    · cases h
  | w_resume =>
    simp only [system.step] at h
    split at h
    · rename_i last hw
      cases hr : ok_of (wdata_resume last s.br) with
      | none => rw [hr] at h; cases h
      | some st =>
        rw [hr] at h
        cases h
        exact ar_inv_frame s _ _ ⟨i1, i2, i3, i4⟩
          (wdata_resume_ar_frame last _ _ (ok_of_some _ _ hr))
    · cases h
  | r_take =>
    simp only [system.step] at h
    split at h
    · cases hr : ok_of (rresp_take cfg s.br) with
      | none => rw [hr] at h; cases h
      | some st =>
        rw [hr] at h
        cases h
        exact ar_inv_frame s st s.w_pc ⟨i1, i2, i3, i4⟩
          (rresp_take_ar_frame cfg _ _ (ok_of_some _ _ hr))
    · cases h
  | r_wake r ret =>
    simp only [system.step] at h
    cases hr : ok_of (rresp_wake r ret s.br) with
    | none => rw [hr] at h; cases h
    | some st =>
      rw [hr] at h
      cases h
      exact ar_inv_frame s st s.w_pc ⟨i1, i2, i3, i4⟩
        (rresp_wake_ar_frame r ret _ _ (ok_of_some _ _ hr))
  | b_take =>
    simp only [system.step] at h
    split at h
    · cases hr : ok_of (bresp_take s.br) with
      | none => rw [hr] at h; cases h
      | some st =>
        rw [hr] at h
        cases h
        exact ar_inv_frame s st s.w_pc ⟨i1, i2, i3, i4⟩
          (bresp_take_ar_frame _ _ (ok_of_some _ _ hr))
    · cases h
  | b_wake r ret =>
    simp only [system.step] at h
    cases hr : ok_of (bresp_wake r ret s.br) with
    | none => rw [hr] at h; cases h
    | some st =>
      rw [hr] at h
      cases h
      exact ar_inv_frame s st s.w_pc ⟨i1, i2, i3, i4⟩
        (bresp_wake_ar_frame r ret _ _ (ok_of_some _ _ hr))
  | bw tr phase t =>
    simp only [system.step] at h
    cases hr : nb_transport_bw tr phase t s.br with
    | mk st r =>
      rw [hr] at h
      cases r with
      | error e => cases h
      | ok v =>
        cases h
        exact ar_inv_frame s st s.w_pc ⟨i1, i2, i3, i4⟩ (bw_ar_frame tr phase t _ _ _ hr)
  | deliver ret =>
    simp only [system.step] at h
    cases hr : ok_of (deliver ret s.br) with
    | none => rw [hr] at h; cases h
    | some st =>
      rw [hr] at h
      cases h
      exact ar_inv_frame s st s.w_pc ⟨i1, i2, i3, i4⟩
        (deliver_ar_frame ret _ _ (ok_of_some _ _ hr))

theorem run_ar_inv (cfg : CFG) (acts : List action) :
    ∀ s s', ar_inv s → system.run cfg acts s = some s' → ar_inv s' := by
  induction acts with
  | nil => intro s s' hi h; cases h; exact hi
  | cons a rest ih =>
    intro s s' hi h
    simp only [system.run] at h
    cases hs : system.step cfg a s with
    | none => rw [hs] at h; cases h
    | some s1 =>
      rw [hs] at h
      exact ih s1 s' (step_ar_inv cfg a s s1 hi hs) h

theorem init_ar_inv (fresh fresh_be : Buffer) : ar_inv (system.init fresh fresh_be) := by
  simp [ar_inv, system.init, bridge.init]

/-- C23: in every state `s` the bridge reaches from construction by thread steps, calls of
`nb_transport_bw` and deliveries of scheduled time points, in any order.  A step of `wdata_t`
taken while `active_req[WRITE]` is non-null consumes no address entry and creates no handle
(a burst is opened only when the slot is null); whenever `ar_t` accepts an address,
`active_req_beat[READ]` is null before the step and holds the new handle after it; and while
`ar_ready` is high `active_req_beat[READ]` is null. -/
theorem burst_on_vacant_slot (cfg : CFG) (fresh fresh_be : Buffer) (acts : List action)
    (s : system) (hrun : system.run cfg acts (system.init fresh fresh_be) = some s) :
    (∀ pins ret s', system.step cfg (.w_accept pins ret) s = some s' →
      s.br.active_req .TLM_WRITE_COMMAND ≠ none →
      s'.br.aw_que = s.br.aw_que ∧ s'.br.handles.length = s.br.handles.length) ∧
    (∀ pins ret s', system.step cfg (.ar_accept pins ret) s = some s' →
      s.br.active_req_beat .TLM_READ_COMMAND = none ∧
      s'.br.active_req_beat .TLM_READ_COMMAND = some s.br.handles.length) ∧
    (s.br.ar_ready = true → s.br.active_req_beat .TLM_READ_COMMAND = none) := by
  obtain ⟨i1, i2, _, i4⟩ := run_ar_inv cfg acts _ s (init_ar_inv fresh fresh_be) hrun
  refine ⟨?_, ?_, fun hr => i2 (i4 hr)⟩
  · intro pins ret s' h hne
    simp only [system.step] at h
    split at h
    · cases hr : ok_of (wdata_sample cfg pins ret s.br) with
      | none => rw [hr] at h; cases h
      | some st =>
        rw [hr] at h
        cases h
        exact (wdata_sample_frames cfg pins ret _ _ (ok_of_some _ _ hr)).2 hne
    · cases h
  · intro pins ret s' h
    simp only [system.step] at h
    split at h
    · rename_i hpc
      cases hr : ok_of (ar_sample pins ret s.br) with
      | none => rw [hr] at h; cases h
      | some st =>
        rw [hr] at h
        cases h
        have hs := ok_of_some _ _ hr
        have hv : pins.ar_valid = true := by
          cases hv : pins.ar_valid with
          | true => rfl
          | false => simp [ar_sample, hv] at hs
        rw [ar_sample_eq pins ret s.br hv] at hs
        cases hs
        exact ⟨i1 hpc, by simp [slots.set]⟩
    · cases h

/-- Witness of C23: a bridge after construction accepts a read address, the collaborator ends
the request, `ar_t` raises `ar_ready` (the slot is null then), lowers it and accepts a second
address on the null slot. -/
theorem burst_on_vacant_slot_witness :
    (system.run ⟨32, 0⟩ (twoAddressRun.take 4) (system.init rampBuffer (constBuffer 0))
        = some (twoAddressState 4) ∧
      (twoAddressState 4).br.ar_ready = true ∧
      (twoAddressState 4).br.active_req_beat .TLM_READ_COMMAND = none) ∧
    (system.run ⟨32, 0⟩ (twoAddressRun.take 5) (system.init rampBuffer (constBuffer 0))
        = some (twoAddressState 5) ∧
      system.step ⟨32, 0⟩
        (.ar_accept ⟨true, 8, 0x4000, 0, 2, 1, 0, 0, 0, 0, 0, 0, 0, false⟩ .TLM_UPDATED)
        (twoAddressState 5) = some (twoAddressState 6) ∧
      (twoAddressState 5).br.active_req_beat .TLM_READ_COMMAND = none ∧
      (twoAddressState 6).br.active_req_beat .TLM_READ_COMMAND = some 1) :=
  ⟨⟨rfl, rfl, (burst_on_vacant_slot ⟨32, 0⟩ rampBuffer (constBuffer 0)
      (twoAddressRun.take 4) (twoAddressState 4) rfl).2.2 rfl⟩,
    ⟨rfl, rfl, (burst_on_vacant_slot ⟨32, 0⟩ rampBuffer (constBuffer 0)
      (twoAddressRun.take 5) (twoAddressState 5) rfl).2.1
      ⟨true, 8, 0x4000, 0, 2, 1, 0, 0, 0, 0, 0, 0, 0, false⟩ .TLM_UPDATED (twoAddressState 6) rfl⟩⟩

end axi

namespace scc

/-! ## Theorems on `configurable_tracer` -/

theorem param_name (obj : sc_object) :
    obj.name.append ("." ++ EN_TRACING_STR) = obj.name ++ ".enableTracing" := rfl

/-- C17: the function `get_trace_enabled` returns the value of the `sc_attribute<bool>` named
`enableTracing` when the object has one; otherwise (no such attribute, or one of another type)
it looks up the CCI parameter named `<name of obj>.enableTracing` and returns its boolean
value when the parameter exists (what `get_bool` makes of the value: an error report for a
parameter that is not boolean); otherwise it returns `fall_back`. -/
theorem get_trace_enabled_lookup (broker : cci_broker) (obj : sc_object) (fall_back : Bool) :
    (∀ v, obj.get_attribute "enableTracing" = some (.bool_attribute v) →
      get_trace_enabled broker obj fall_back = .ok v) ∧
    ((∀ v, obj.get_attribute "enableTracing" ≠ some (.bool_attribute v)) →
      (∀ b, broker (obj.name ++ ".enableTracing") = some (.bool b) →
        get_trace_enabled broker obj fall_back = .ok b) ∧
      (∀ c, broker (obj.name ++ ".enableTracing") = some c →
        get_trace_enabled broker obj fall_back = c.get_bool) ∧
      (broker (obj.name ++ ".enableTracing") = none →
        get_trace_enabled broker obj fall_back = .ok fall_back)) ∧
    get_trace_enabled (fun _ => none)
      (sampleObject (fun n => if n = "enableTracing" then some (.bool_attribute true) else none))
      false = .ok true ∧
    get_trace_enabled (fun n => if n = "top.dut.enableTracing" then some (.bool true) else none)
      (sampleObject (fun n => if n = "enableTracing" then some .other_attribute else none))
      false = .ok true ∧
    get_trace_enabled (fun n => if n = "top.enableTracing" then some (.bool false) else none)
      (sampleObject (fun _ => none)) true = .ok true := by
  have hname := param_name obj
  have hstr : EN_TRACING_STR = "enableTracing" := rfl
  refine ⟨?_, ?_, rfl, rfl, rfl⟩
  · intro v hv
    unfold get_trace_enabled
    dsimp only
    rw [hstr, hv]
  · intro hno
    have hk : get_trace_enabled broker obj fall_back
        = (match broker (obj.name ++ ".enableTracing") with
          | some v => v.get_bool
          | none => .ok fall_back) := by
      unfold get_trace_enabled
      dsimp only
      rw [hname, hstr]
      cases hx : obj.get_attribute "enableTracing" with
      | none => rfl
      | some x =>
        cases x with
        | bool_attribute v => exact absurd hx (hno v)
        | other_attribute => rfl
    refine ⟨fun b hb => ?_, fun c hc => ?_, fun hn => ?_⟩
    · rw [hk, hb]; rfl
    · rw [hk, hc]
    · rw [hk, hn]
/-! ### The FST trace file -/

/-- The vector `triggered_traces` holding trace 0, trace 1 and trace 0 again, a call of `cycle`
that is enabled and not the first writes the value of trace 0 twice: `std::unique` removes
only repetitions that follow one another. -/
theorem cycle_records_twice :
    twoTracesNotified.triggered_traces = [0, 1, 0] ∧
    (fst_trace_file.cycle false none 10 (fun _ => false) id twoTracesNotified).emitted
      = [fst_event.time_change 10, fst_event.value_change 0 1 2, fst_event.value_change 1 2 1,
          fst_event.value_change 0 1 2] ∧
    records_of 0 (fst_trace_file.cycle false none 10 (fun _ => false) id twoTracesNotified).emitted
      = 2 := by
  refine ⟨by rfl, by rfl, by decide⟩

theorem ldiff_one (a : Nat) : Nat.ldiff 1 a = if a.testBit 0 then 0 else 1 := by
  apply Nat.eq_of_testBit_eq
  intro i
  rw [Nat.testBit_ldiff]
  cases i with
  | zero => cases h : a.testBit 0 <;> simp [h]
  | succ j =>
    have h1 : Nat.testBit 1 (j + 1) = false := by
      simp [Nat.testBit_succ]
    rw [h1]
    cases h : a.testBit 0 <;> simp [h, Nat.testBit_succ]

theorem land_one (x : Int) : Int.land x 1 = if x.testBit 0 then 1 else 0 := by
  cases x with
  | ofNat a =>
    show ((a &&& 1 : Nat) : Int) = _
    rw [Nat.and_one_is_mod]
    simp only [Int.testBit, Nat.testBit_zero]
    rcases Nat.mod_two_eq_zero_or_one a with h | h <;> simp [h]
  | negSucc a =>
    show ((Nat.ldiff 1 a : Nat) : Int) = _
    rw [ldiff_one]
    simp only [Int.testBit]
    by_cases h : a.testBit 0 = true <;> simp [h]

theorem shiftRight_testBit (v : Int) (k : Nat) :
    (Int.shiftRight v k).testBit 0 = v.testBit k := by
  cases v with
  | ofNat m =>
    show (m >>> k).testBit 0 = m.testBit k
    rw [Nat.testBit_shiftRight]; simp
  | negSucc m =>
    show (!(m >>> k).testBit 0) = !m.testBit k
    rw [Nat.testBit_shiftRight]; simp

theorem bit_char_eq (sizeof_T : Nat) (old_val : Int) (i : Nat) :
    bit_char sizeof_T old_val i
      = if old_val.testBit (8 * sizeof_T - i - 1) then 49 else 48 := by
  unfold bit_char
  rw [land_one, shiftRight_testBit]
  split_ifs <;> rfl

theorem testBit_emod (v : Int) (w k : Nat) (hk : k < w) :
    ((v % 2 ^ w).toNat).testBit k = v.testBit k := by
  cases v with
  | ofNat n =>
    have e : ((Int.ofNat n) % 2 ^ w : Int) = ((n % 2 ^ w : Nat) : Int) := by
      simp
    rw [e, Int.toNat_natCast, Nat.testBit_mod_two_pow]
    simp [hk, Int.testBit]
  | negSucc n =>
    have hpos : (0 : Int) < 2 ^ w := by positivity
    have hlt : n % 2 ^ w < 2 ^ w := Nat.mod_lt _ (by positivity)
    have e : (Int.negSucc n % 2 ^ w : Int) = ((2 ^ w - (n % 2 ^ w + 1) : Nat) : Int) := by
      rw [Int.negSucc_emod n hpos, Nat.cast_sub (by omega)]
      push_cast
      ring
    rw [e, Int.toNat_natCast, Nat.testBit_two_pow_sub_succ hlt, Nat.testBit_mod_two_pow]
    simp [hk, Int.testBit]


theorem record_loop_spec (sizeof_T : Nat) (old_val : Int) :
    ∀ (n i : Nat) (buf : List Nat), i + n ≤ buf.length →
      ∃ out, record_loop sizeof_T old_val n i buf = some out ∧ out.length = buf.length ∧
        ∀ j, out[j]? = if i ≤ j ∧ j < i + n then some (bit_char sizeof_T old_val j) else buf[j]? := by
  intro n
  induction n with
  | zero =>
    intro i buf _
    refine ⟨buf, rfl, rfl, fun j => ?_⟩
    rw [if_neg (by omega)]
  | succ n ih =>
    intro i buf h
    have hi : i < buf.length := by omega
    obtain ⟨out, h1, h2, h3⟩ := ih (i + 1) (buf.set i (bit_char sizeof_T old_val i))
      (by rw [List.length_set]; omega)
    refine ⟨out, ?_, by rw [h2, List.length_set], fun j => ?_⟩
    · unfold record_loop store
      rw [if_pos hi]
      exact h1
    · rw [h3 j, List.getElem?_set]
      by_cases hj : i = j
      · subst hj
        simp [hi]
      · by_cases h4 : i + 1 ≤ j ∧ j < i + 1 + n
        · rw [if_pos h4, if_pos (by omega)]
        · rw [if_neg h4, if_neg hj, if_neg (by omega)]

theorem c_str_prefix (cs rest : List Nat) (h : ∀ c ∈ cs, c ≠ 0) :
    c_str (cs ++ 0 :: rest) = cs := by
  unfold c_str
  induction cs with
  | nil => simp
  | cons c cs ih =>
    have hc : c ≠ 0 := h c (by simp)
    simp only [List.cons_append, List.takeWhile_cons]
    simp only [bne_iff_ne, ne_eq, hc, not_false_eq_true, ↓reduceIte, List.cons.injEq, true_and]
    exact ih (fun c hc => h c (List.mem_cons_of_mem _ hc))


theorem record_layout (sizeof_T : Nat) (old_val : Int) (rawdata : List Nat)
    (h : 8 * sizeof_T < rawdata.length) :
    fst_trace_t.record sizeof_T old_val rawdata
      = some ((List.range (8 * sizeof_T)).map (bit_char sizeof_T old_val)
          ++ 0 :: rawdata.drop (8 * sizeof_T + 1)) := by
  obtain ⟨out, h1, h2, h3⟩ := record_loop_spec sizeof_T old_val (8 * sizeof_T) 0 rawdata
    (by omega)
  unfold fst_trace_t.record
  rw [h1]
  simp only [store]
  rw [if_pos (by omega)]
  congr 1
  apply List.ext_getElem?
  intro j
  rw [List.getElem?_set, h3 j]
  rcases Nat.lt_trichotomy j (8 * sizeof_T) with hj | hj | hj
  · rw [if_neg (by omega), if_pos (by omega),
      List.getElem?_append_left (by simp; exact hj)]
    simp [List.getElem?_range hj, hj]
  · subst hj
    rw [if_pos rfl, List.getElem?_append_right (by simp)]
    simp
    omega
  · rw [if_neg (by omega), if_neg (by omega), List.getElem?_append_right (by simp; omega)]
    simp only [List.length_map, List.length_range]
    obtain ⟨d, hd⟩ : ∃ d, j - 8 * sizeof_T = d + 1 := ⟨j - 8 * sizeof_T - 1, by omega⟩
    rw [hd, List.getElem?_cons_succ, List.getElem?_drop]
    congr 1
    omega

/-- C30: for a type of `sizeof_T` bytes with `w = 8 * sizeof_T ≤ 64` and every value
`old_val`, the generic `record` stays inside the 65 characters of `rawdata`, whatever they
hold, and leaves a NUL at index `w` behind a string of exactly `w` characters; character `i`
is `'1'` when bit `w - 1 - i` of the two's complement of `old_val` (the value modulo `2 ^ w`)
is set and `'0'` otherwise. -/
theorem record_bit_string (sizeof_T : Nat) (old_val : Int) (rawdata : List Nat)
    (hbuf : rawdata.length = 65) (hw : 8 * sizeof_T ≤ 64) :
    ∃ out, fst_trace_t.record sizeof_T old_val rawdata = some out ∧ out.length = 65 ∧
      out[8 * sizeof_T]? = some 0 ∧
      (c_str out).length = 8 * sizeof_T ∧
      c_str out = (List.range (8 * sizeof_T)).map (fun i =>
        if ((old_val % 2 ^ (8 * sizeof_T)).toNat).testBit (8 * sizeof_T - 1 - i)
        then 49 else 48) := by
  have hchars : (List.range (8 * sizeof_T)).map (bit_char sizeof_T old_val)
      = (List.range (8 * sizeof_T)).map (fun i =>
        if ((old_val % 2 ^ (8 * sizeof_T)).toNat).testBit (8 * sizeof_T - 1 - i)
        then 49 else 48) := by
    apply List.map_congr_left
    intro i hi
    rw [List.mem_range] at hi
    rw [bit_char_eq, testBit_emod old_val (8 * sizeof_T) _ (by omega)]
    have e : 8 * sizeof_T - i - 1 = 8 * sizeof_T - 1 - i := by omega
    rw [e]
  have hstr : c_str ((List.range (8 * sizeof_T)).map (bit_char sizeof_T old_val)
      ++ 0 :: rawdata.drop (8 * sizeof_T + 1))
      = (List.range (8 * sizeof_T)).map (bit_char sizeof_T old_val) := by
    apply c_str_prefix
    intro c hc
    rw [List.mem_map] at hc
    obtain ⟨i, _, rfl⟩ := hc
    rw [bit_char_eq]
    split_ifs <;> decide
  refine ⟨_, record_layout sizeof_T old_val rawdata (by omega), ?_, ?_, ?_, ?_⟩
  · simp only [List.length_append, List.length_map, List.length_range, List.length_cons,
      List.length_drop]
    omega
  · rw [List.getElem?_append_right (by simp)]
    simp
  · rw [hstr]
    simp
  · rw [hstr, hchars]

/-- C30 (witness): a 64-bit type holding -2 and a buffer of 65 characters `'x'`. -/
theorem record_bit_string_witness :
    (List.replicate 65 120).length = 65 ∧ 8 * 8 ≤ 64 ∧
    ∃ out, fst_trace_t.record 8 (-2) (List.replicate 65 120) = some out ∧ out.length = 65 ∧
      out[8 * 8]? = some 0 ∧
      (c_str out).length = 8 * 8 ∧
      c_str out = (List.range (8 * 8)).map (fun i =>
        if ((((-2 : Int)) % 2 ^ (8 * 8)).toNat).testBit (8 * 8 - 1 - i) then 49 else 48) :=
  ⟨by simp, by decide, record_bit_string 8 (-2) (List.replicate 65 120) (by simp) (by decide)⟩


end scc
